import Mathlib

/-!
# wuffs-c code generator (`cmd/wuffs-c/internal/cgen/cgen.go`)

A shallow embedding of the C back end of the Wuffs compiler: the identifier
mangler `cName`, the status classifier, the struct writer and the driver
`generate`, followed by the properties proved about them.

Go strings and byte slices are byte sequences; they are modelled as lists of
natural numbers (one number per byte).  A Go `range` loop over a string walks
its UTF-8 decoded runes; `runes` models that decoding.
-/

namespace Cgen

/-! ## Strings, bytes and runes -/

/-- A Go `string` or `[]byte`: a sequence of bytes. -/
abbrev Bytes := List Nat

/-- The bytes of an ASCII literal of the source. -/
def ascii (s : String) : Bytes := s.data.map Char.toNat

/-- The rune `utf8.RuneError` (U+FFFD) that Go decodes an invalid encoding to. -/
def RuneError : Nat := 0xFFFD

/-- The `first` table of Go's `unicode/utf8`, for a leading byte that is not
ASCII: the size of the encoding and the range accepted for the second byte,
or `none` for a byte that cannot start an encoding. -/
def firstInfo (b0 : Nat) : Option (Nat × Nat × Nat) :=
  if 0xC2 ≤ b0 ∧ b0 ≤ 0xDF then some (2, 0x80, 0xBF)
  else if b0 = 0xE0 then some (3, 0xA0, 0xBF)
  else if (0xE1 ≤ b0 ∧ b0 ≤ 0xEC) ∨ b0 = 0xEE ∨ b0 = 0xEF then some (3, 0x80, 0xBF)
  else if b0 = 0xED then some (3, 0x80, 0x9F)
  else if b0 = 0xF0 then some (4, 0x90, 0xBF)
  else if 0xF1 ≤ b0 ∧ b0 ≤ 0xF3 then some (4, 0x80, 0xBF)
  else if b0 = 0xF4 then some (4, 0x80, 0x8F)
  else none

/-- Go's `utf8.DecodeRuneInString`: the first rune of `s` and its width in
bytes.  An invalid or truncated encoding decodes to `RuneError` with width 1.
The masks `s0&mask2`, `s1&maskx`, ... are written as remainders and the
shifts as multiplications. -/
def decodeRune : Bytes → Nat × Nat
  | [] => (RuneError, 0)
  | b0 :: rest =>
    if b0 < 0x80 then (b0, 1)
    else
      match firstInfo b0 with
      | none => (RuneError, 1)
      | some (sz, lo, hi) =>
        if rest.length + 1 < sz then (RuneError, 1)
        else
          match rest with
          | [] => (RuneError, 1)
          | b1 :: rest1 =>
            if b1 < lo ∨ hi < b1 then (RuneError, 1)
            else if sz ≤ 2 then ((b0 % 32) * 64 + b1 % 64, 2)
            else
              match rest1 with
              | [] => (RuneError, 1)
              | b2 :: rest2 =>
                if b2 < 0x80 ∨ 0xBF < b2 then (RuneError, 1)
                else if sz ≤ 3 then ((b0 % 16) * 4096 + (b1 % 64) * 64 + b2 % 64, 3)
                else
                  match rest2 with
                  | [] => (RuneError, 1)
                  | b3 :: _ =>
                    if b3 < 0x80 ∨ 0xBF < b3 then (RuneError, 1)
                    else ((b0 % 8) * 262144 + (b1 % 64) * 4096 + (b2 % 64) * 64 + b3 % 64, 4)

/-- The runes a `range` loop over `s` yields, with `fuel` bounding the number
of iterations. -/
def runesAux : Nat → Bytes → List Nat
  | 0, _ => []
  | _ + 1, [] => []
  | fuel + 1, b :: rest =>
    (decodeRune (b :: rest)).1 :: runesAux fuel ((b :: rest).drop (decodeRune (b :: rest)).2)

/-- The runes of `for _, r := range s`.  Every iteration consumes at least one
byte, so `s.length` iterations always reach the end of the string. -/
def runes (s : Bytes) : List Nat := runesAux s.length s

/-! ## The identifier mangler -/

/-- One iteration of the loop of `cName`: the state is the slice `s` and the
flag `underscore`. -/
def cNameStep (st : Bytes × Bool) (r : Nat) : Bytes × Bool :=
  if 65 ≤ r ∧ r ≤ 90 then            -- 'A' <= r && r <= 'Z'
    (st.1 ++ [(r + 97 - 65) % 256], false)
  else if (97 ≤ r ∧ r ≤ 122) ∨ (48 ≤ r ∧ r ≤ 57) then   -- 'a'..'z' or '0'..'9'
    (st.1 ++ [r % 256], false)
  else if !st.2 then
    (st.1 ++ [95], true)             -- '_'
  else st

/-- The state of `cName` after its loop. -/
def cNameLoop (name pkgPrefix : Bytes) : Bytes × Bool :=
  (runes name).foldl cNameStep (pkgPrefix, true)

/-- The function `cName(name, pkgPrefix)`.  The result is `none` when the Go
code panics: `s[:len(s)-1]` on an empty `s` is a slice out of range. -/
def cName (name pkgPrefix : Bytes) : Option Bytes :=
  let st := cNameLoop name pkgPrefix
  if st.2 then
    if st.1.length = 0 then none
    else some (st.1.take (st.1.length - 1))
  else some st.1

/-! ## Status classification -/

/-- The function `statusMsgIsError`. -/
def statusMsgIsError (msg : Bytes) : Bool :=
  match msg with
  | [] => false
  | c :: _ => c == 63        -- '?'

/-- The function `statusMsgIsSuspension`. -/
def statusMsgIsSuspension (msg : Bytes) : Bool :=
  match msg with
  | [] => false
  | c :: _ => c == 36        -- '$'

/-- The function `statusMsgIsWarning`. -/
def statusMsgIsWarning (msg : Bytes) : Bool :=
  match msg with
  | [] => true
  | c :: _ => c != 36 && c != 63

/-! ## Notions used in the statements about `cName` -/

/-- The ASCII letters and digits: the runes that `cName` keeps. -/
def isAlnum (b : Nat) : Bool :=
  (65 ≤ b && b ≤ 90) || (97 ≤ b && b ≤ 122) || (48 ≤ b && b ≤ 57)

/-- What `cNameStep` does with a rune that is no ASCII letter or digit. -/
def cNameOther (st : Bytes × Bool) : Bytes × Bool :=
  if !st.2 then (st.1 ++ [95], true) else st

/-- The bytes a mangled name body is made of: `a`..`z`, `0`..`9` and `_`. -/
def isBodyByte (c : Nat) : Bool :=
  (97 ≤ c && c ≤ 122) || (48 ≤ c && c ≤ 57) || c == 95

/-- The loop invariant of `cName`: the slice is the prefix followed by a body
of lowercase letters, digits and single underscores that does not start with
an underscore, and the flag says whether the body is empty or ends in one. -/
structure BodyInv (p : Bytes) (st : Bytes × Bool) (body : Bytes) : Prop where
  eq : st.1 = p ++ body
  chars : ∀ c ∈ body, isBodyByte c = true
  head : body.head? ≠ some 95
  chain : body.Chain' (fun a b => ¬ (a = 95 ∧ b = 95))
  flag : st.2 = true ↔ (body = [] ∨ body.getLast? = some 95)

/-! ## Errors and outcomes -/

/-- The errors of the generator.  `errorf format args` stands for
`fmt.Errorf(format, args...)`; `unrecognizedLine line keys` for the error
that `expandBangBangInsert` builds from the offending line and the sorted
keys; `external code` for an error returned by code outside this file. -/
inductive Err where
  | errorf (format : String) (args : List Bytes)
  | unrecognizedLine (line : Bytes) (keys : List Bytes)
  | external (code : Nat)
deriving DecidableEq, Repr

/-- How a call ends: it returns `nil` in state `s`, it returns the error `e`
in state `s`, it panics, or the bound that the model puts on the iterations
of a loop was reached (`timeout`). -/
inductive Outcome (σ : Type) where
  | ok (s : σ)
  | error (e : Err) (s : σ)
  | panic
  | timeout
deriving DecidableEq, Repr

/-- Sequencing `if err := first; err != nil { return err }; rest`. -/
def Outcome.andThen {σ : Type} (o : Outcome σ) (k : σ → Outcome σ) : Outcome σ :=
  match o with
  | .ok s => k s
  | .error e s => .error e s
  | .panic => .panic
  | .timeout => .timeout

/-! ## The program tree (package `lang/ast`) and the token map -/

/-- The type `t.ID`. -/
abbrev ID := Nat
/-- The type `t.QID`, a `[2]ID`. -/
abbrev QID := ID × ID
/-- The type `t.QQID`, a `[3]ID`. -/
abbrev QQID := ID × ID × ID

/-- A `*a.TypeExpr`: `leaf` is a type expression that is its own
`Innermost()`, `wrap` one with an inner type expression (array, slice, ...). -/
inductive TypeExpr where
  | leaf (decorator : ID) (qid : QID)
  | wrap (decorator : ID) (qid : QID) (inner : TypeExpr)
deriving DecidableEq, Repr

/-- The method `x.QID()`. -/
def TypeExpr.qid : TypeExpr → QID
  | .leaf _ q => q
  | .wrap _ q _ => q

/-- The test `x == x.Innermost()`. -/
def TypeExpr.isInnermost : TypeExpr → Bool
  | .leaf _ _ => true
  | .wrap _ _ _ => false

/-- A `*a.Field`. -/
structure Field where
  name : ID
  xType : TypeExpr
deriving DecidableEq, Repr

/-- A `*a.Expr`, as far as `writeConstList` looks at it: `Operator()`,
`Args()` and `ConstValue()`; `handle` identifies the node for `Str`. -/
inductive Expr where
  | mk (handle : Nat) (operator : ID) (args : List Expr) (constValue : Option Int)
deriving Repr

/-- A `*a.Const`. -/
structure Const where
  qid : QID
  isPublic : Bool
  xType : TypeExpr
  value : Expr

/-- A `*a.Status`. -/
structure Status where
  qid : QID
  isPublic : Bool
deriving DecidableEq, Repr

/-- A `*a.Struct`. -/
structure Struct where
  qid : QID
  isPublic : Bool
  classy : Bool
  fields : List Field
deriving DecidableEq, Repr

/-- A `*a.Func`: `coroutine` is `Effect().Coroutine()`, `inFields` is
`In().Fields()`, `body` identifies the statement list `Body()`. -/
structure Func where
  qqid : QQID
  receiver : QID
  funcName : ID
  isPublic : Bool
  coroutine : Bool
  inFields : List Field
  body : Nat
deriving DecidableEq, Repr

/-- A `*a.Use`. -/
structure Use where
  path : ID
deriving DecidableEq, Repr

/-- A top level declaration with its `Kind()`. -/
inductive TopLevelDecl where
  | const (n : Const)
  | func (n : Func)
  | status (n : Status)
  | struct (n : Struct)
  | use (n : Use)
  | other (isPublic : Bool)

/-- The test `tld.AsRaw().Flags()&a.FlagsPublic != 0`. -/
def TopLevelDecl.isPublic : TopLevelDecl → Bool
  | .const n => n.isPublic
  | .func n => n.isPublic
  | .status n => n.isPublic
  | .struct n => n.isPublic
  | .use _ => false
  | .other p => p

/-- A `*a.File`: its `TopLevelDecls()`. -/
abbrev File := List TopLevelDecl

/-! ## The generator state -/

/-- The type `visibility`. -/
inductive visibility where
  | bothPubPri
  | pubOnly
  | priOnly
deriving DecidableEq, Repr

/-- The type `status`. -/
structure status where
  cName : Bytes
  msg : Bytes
  isPublic : Bool
deriving DecidableEq, Repr

/-- The type `funk` (declared in another file of the package), as far as this
file reads it. -/
structure funk where
  coroSuspPoint : Nat
  usesScratch : Bool
deriving DecidableEq, Repr

/-- The type `buffer`. -/
abbrev buffer := Bytes

/-- The method `b.writes(s)` (and `writex`, `Write`): append. -/
def buffer.writes (b : buffer) (s : Bytes) : buffer := b ++ s

/-- The method `b.writeb(x)`. -/
def buffer.writeb (b : buffer) (x : Nat) : buffer := b ++ [x]

/-- A Go map as an association list: the first entry of a key is its value. -/
abbrev GoMap (κ α : Type) := List (κ × α)

/-- The lookup `m[k]`, `none` for a missing key. -/
def GoMap.get {κ α : Type} [DecidableEq κ] (m : GoMap κ α) (k : κ) : Option α :=
  match m with
  | [] => none
  | (k', v) :: rest => if k' = k then some v else GoMap.get rest k

/-- The assignment `m[k] = v`. -/
def GoMap.set {κ α : Type} [DecidableEq κ] (m : GoMap κ α) (k : κ) (v : α) : GoMap κ α :=
  (k, v) :: m.filter (fun e => decide (e.1 ≠ k))

/-- The type `gen`.  Its fields `tm` and `checker` are handles to code outside
this file and never change; they live in `Env`.  The field `currFunk` is only
used by other files.  `usesMap` is `none` while the Go map is `nil`; the maps
`statusMap`, `structMap` and `funks` are the ones that `generate` makes
before anything is stored in them. -/
structure gen where
  pkgPrefix : Bytes
  pkgName : Bytes
  files : List File
  statusList : List status
  statusMap : GoMap QID status
  structList : List Struct
  structMap : GoMap QID Struct
  usesList : List Bytes
  usesMap : Option (List Bytes)
  funks : GoMap QQID funk
  wuffsRoot : Bytes

/-- What a writer appended to the buffer, and the error it returned. -/
structure Written where
  text : Bytes
  err : Option Err
deriving DecidableEq, Repr

/-- The two values of `cppInsideStruct` / `cppOutsideStruct` that this file
passes to `writeFuncSignature`. -/
inductive cppMode where
  | cppInsideStruct
  | cppOutsideStruct
deriving DecidableEq, Repr

/-- What this file uses and does not define: the token map and the constants
of `lang/token`, `lang/ast` and `lang/builtin`, the embedded C sources, the Go
library calls whose result is not computed here, the file system, and the
methods of `gen` that other files of the package define.  Those methods only
append to the buffer they are given; each is modelled by the text it appends
and the error it returns. -/
structure Env where
  /-- The method `tm.ByID(id)`. -/
  byID : ID → Bytes
  /-- The method `id.Str(tm)`. -/
  idStr : ID → Bytes
  /-- The method `qid.Str(tm)`. -/
  qidStr : QID → Bytes
  /-- The method `n.Str(tm)` of an expression. -/
  exprStr : Expr → Bytes
  /-- The function `t.Unescape`. -/
  unescape : Bytes → Bytes × Bool
  /-- The constants `t.IDBase` and `t.IDComma`. -/
  idBase : ID
  idComma : ID
  /-- The function `a.TopologicalSortStructs`. -/
  topologicalSortStructs : List Struct → List Struct × Bool
  /-- The list `builtin.StatusList`. -/
  builtinStatusList : List Bytes
  /-- The embedded sources `baseBaseImplC`, `baseBasePrivateH`,
  `baseBasePublicH` and `baseImagePublicH`. -/
  baseBaseImplC : Bytes
  baseBasePrivateH : Bytes
  baseBasePublicH : Bytes
  baseImagePublicH : Bytes
  /-- The function `strings.ToUpper`. -/
  toUpper : Bytes → Bytes
  /-- The verb `%q` of `fmt`. -/
  quote : Bytes → Bytes
  /-- The method `String` of a `*big.Int`. -/
  bigString : Int → Bytes
  /-- The function `generate.WuffsRoot`. -/
  wuffsRootFn : Bytes × Option Err
  /-- The path `filepath.Join(wuffsRoot, "gen", "c", filepath.FromSlash(useDirname)+".h")`. -/
  useeFilename : Bytes → Bytes → Bytes
  /-- The function `ioutil.ReadFile`. -/
  readFile : Bytes → Except Err Bytes
  /-- The method `gatherFuncImpl`: the metadata it stores in `g.funks` for the
  function, or its error. -/
  gatherFuncImpl : gen → Func → Except Err funk
  /-- The method `writeCTypeName(b, typ, varNamePrefix, varName)`. -/
  writeCTypeName : gen → TypeExpr → Bytes → Bytes → Written
  /-- The method `writeVars(b, body, skipPointerTypes, skipIterateVariables)`. -/
  writeVars : gen → Nat → Bool → Bool → Written
  /-- The method `writeFuncSignature(b, n, cpp)`. -/
  writeFuncSignature : gen → Func → cppMode → Written
  /-- The method `writeFuncPrototype(b, n)`. -/
  writeFuncPrototype : gen → Func → Written
  /-- The method `writeFuncImpl(b, n)`. -/
  writeFuncImpl : gen → Func → Written
  /-- The method `funcCName(n)`. -/
  funcCName : gen → Func → Bytes

/-- The state a method of `gen` works on: the receiver `g` and the buffer `b`. -/
structure St where
  g : gen
  b : buffer

/-- A call of a method that another file defines: its text is appended and
its error, if any, returned. -/
def St.call (s : St) (w : Written) : Outcome St :=
  match w.err with
  | none => .ok { s with b := s.b ++ w.text }
  | some e => .error e { s with b := s.b ++ w.text }

/-- The statement `b.writes(t)` as a step that cannot fail. -/
def St.writes (s : St) (t : Bytes) : Outcome St := .ok { s with b := s.b.writes t }

/-! ## Loops and small library functions -/

/-- A `for _, x := range xs` loop whose body may return early with an error:
`if err := body(x); err != nil { return err }`. -/
def loop {σ α : Type} (body : σ → α → Outcome σ) : List α → σ → Outcome σ
  | [], s => .ok s
  | x :: rest, s => (body s x).andThen (loop body rest)

/-- The function `strings.IndexByte`; `none` stands for `-1`. -/
def indexByte : Bytes → Nat → Option Nat
  | [], _ => none
  | b :: rest, c => if b = c then some 0 else (indexByte rest c).map (· + 1)

/-- The function `strings.HasPrefix`. -/
def hasPrefix (s pre : Bytes) : Bool := pre.isPrefixOf s

/-- The function `bytes.Index`; `none` stands for `-1`. -/
def bytesIndex : Bytes → Bytes → Option Nat
  | [], sep => if sep = [] then some 0 else none
  | b :: rest, sep =>
    if sep.isPrefixOf (b :: rest) then some 0 else (bytesIndex rest sep).map (· + 1)

/-- The function `sort.Strings`: ascending byte-wise lexicographic order. -/
def sortStrings (keys : List Bytes) : List Bytes :=
  keys.insertionSort (fun a b => a ≤ b)

/-! ## Prefixes and markers -/

/-- The prefix of a function argument. -/
def aPrefix : Bytes := ascii "a_"
/-- The prefix of a coroutine state. -/
def cPrefix : Bytes := ascii "c_"
/-- The prefix of a struct field. -/
def fPrefix : Bytes := ascii "f_"

/-- The marker that opens the implementation of an artifact. -/
def wiStart : Bytes := ascii "\n#ifdef WUFFS_IMPLEMENTATION\n\n"
/-- The marker that closes the implementation of an artifact. -/
def wiEnd : Bytes := ascii "\n#endif  // WUFFS_IMPLEMENTATION\n\n"
/-- The marker that opens the public base header in an artifact. -/
def wigbpStart : Bytes := ascii "\n#ifndef WUFFS_INCLUDE_GUARD__BASE_PUBLIC\n"
/-- The marker that closes the public base header in an artifact. -/
def wigbpEnd : Bytes := ascii "\n#endif  // WUFFS_INCLUDE_GUARD__BASE_PUBLIC\n"

/-! ## Template expansion -/

/-- The loop of `expandBangBangInsert`, with a bound on its iterations. -/
def expandBangBangInsertAux (m : GoMap Bytes (buffer → Outcome buffer)) :
    Nat → buffer → Bytes → Outcome buffer
  | 0, _, _ => .timeout
  | fuel + 1, b, s0 =>
    let sr : Bytes × Bytes :=
      match indexByte s0 10 with
      | some i => (s0.take (i + 1), s0.drop (i + 1))
      | none => (s0, [])
    let s := sr.1
    let remaining := sr.2
    let r : Outcome buffer :=
      if !hasPrefix s (ascii "// !! INSERT ") then .ok (b.writes s)
      else
        match m.get s with
        | none => .error (.unrecognizedLine s (sortStrings (m.map Prod.fst))) b
        | some f => f b
    r.andThen fun b => if remaining = [] then .ok b else expandBangBangInsertAux m fuel b remaining

/-- The function `expandBangBangInsert`.  Every iteration but the last
consumes at least one byte, so `len(s) + 1` iterations are enough. -/
def expandBangBangInsert (b : buffer) (s : Bytes) (m : GoMap Bytes (buffer → Outcome buffer)) :
    Outcome buffer :=
  expandBangBangInsertAux m (s.length + 1) b s

/-- The function `insertBasePrivateH`. -/
def insertBasePrivateH (env : Env) (buf : buffer) : Outcome buffer :=
  .ok (buf.writes env.baseBasePrivateH)

/-- The class word that the emitters of the base package choose with
`statusMsgIsError` and `statusMsgIsSuspension`. -/
def basePre (z : Bytes) : Bytes :=
  if statusMsgIsError z then ascii "error"
  else if statusMsgIsSuspension z then ascii "suspension"
  else ascii "warning"

/-- One iteration of the closure of `insertBasePublicH` for the line
`// !! INSERT wuffs_base__status names.`. -/
def insertBaseStatusName (b : buffer) (z : Bytes) : Outcome buffer :=
  match cName z (ascii "") with
  | none => .panic
  | some c =>
    .ok (b ++ ascii "extern const char* wuffs_base__" ++ basePre z ++ ascii "__" ++ c ++ ascii ";\n")

/-- The function `insertBasePublicH`. -/
def insertBasePublicH (env : Env) (buf : buffer) : Outcome buffer :=
  let buf := buf.writes (ascii "// Code generated by wuffs-c. DO NOT EDIT.\n\n")
  let buf := buf.writes (ascii "#ifndef WUFFS_INCLUDE_GUARD__BASE_PUBLIC\n")
  let buf := buf.writes (ascii "#define WUFFS_INCLUDE_GUARD__BASE_PUBLIC\n\n")
  (expandBangBangInsert buf env.baseBasePublicH
    [(ascii "// !! INSERT wuffs_base__status names.\n",
      fun b => loop insertBaseStatusName env.builtinStatusList b)]).andThen fun buf =>
  let buf := buf.writeb 10
  let buf := buf.writes env.baseImagePublicH
  .ok (buf.writes (ascii "\n#endif  // WUFFS_INCLUDE_GUARD__BASE_PUBLIC\n\n"))

/-- One iteration of the closure of `Do` for the line
`// !! INSERT wuffs_base__status strings.`. -/
def insertBaseStatusString (b : buffer) (z : Bytes) : Outcome buffer :=
  match z with
  | [] => .ok b
  | z0 :: _ =>
    let pre :=
      if z0 = 36 then ascii "suspension"
      else if z0 = 63 then ascii "error"
      else ascii "warning"
    match cName z (ascii "") with
    | none => .panic
    | some c =>
      .ok (b ++ ascii "const char* wuffs_base__" ++ pre ++ ascii "__" ++ c ++ ascii " = \"" ++
        z.take 1 ++ ascii "base: " ++ z.drop 1 ++ ascii "\";\n")

/-- The unformatted text that `Do` builds for the package `base`. -/
def baseUnformatted (env : Env) : Outcome buffer :=
  expandBangBangInsert [] env.baseBaseImplC
    [(ascii "// !! INSERT base-private.h.\n", insertBasePrivateH env),
     (ascii "// !! INSERT base-public.h.\n", insertBasePublicH env),
     (ascii "// !! INSERT wuffs_base__status strings.\n",
      fun b => loop insertBaseStatusString env.builtinStatusList b)]

/-! ## The passes over the declarations -/

/-- The visibility test of `forEachConst`, `forEachFunc` and `forEachStatus`:
whether a declaration with the given public flag is skipped. -/
def skipped (v : visibility) (isPublic : Bool) : Bool :=
  (v == .pubOnly && !isPublic) || (v == .priOnly && isPublic)

/-- The method `forEachConst`. -/
def forEachConst (s : St) (v : visibility) (f : St → Const → Outcome St) : Outcome St :=
  loop (fun s file => loop (fun s tld =>
    match tld with
    | .const n => if skipped v tld.isPublic then .ok s else f s n
    | _ => .ok s) file s) s.g.files s

/-- The method `forEachFunc`. -/
def forEachFunc (s : St) (v : visibility) (f : St → Func → Outcome St) : Outcome St :=
  loop (fun s file => loop (fun s tld =>
    match tld with
    | .func n => if skipped v tld.isPublic then .ok s else f s n
    | _ => .ok s) file s) s.g.files s

/-- The method `forEachStatus`. -/
def forEachStatus (s : St) (v : visibility) (f : St → Status → Outcome St) : Outcome St :=
  loop (fun s file => loop (fun s tld =>
    match tld with
    | .status n => if skipped v tld.isPublic then .ok s else f s n
    | _ => .ok s) file s) s.g.files s

/-- The method `forEachUse`. -/
def forEachUse (s : St) (f : St → Use → Outcome St) : Outcome St :=
  loop (fun s file => loop (fun s tld =>
    match tld with
    | .use n => f s n
    | _ => .ok s) file s) s.g.files s

/-- The method `gatherStatuses`. -/
def gatherStatuses (env : Env) (s : St) (n : Status) : Outcome St :=
  let g := s.g
  let raw := env.idStr n.qid.2
  let msg := (env.unescape raw).1
  let ok := (env.unescape raw).2
  if !ok || msg = [] then .error (.errorf "bad status message %q" [raw]) s
  else
    match msg with
    | [] => .panic
    | m0 :: _ =>
      let errSus := if m0 = 36 then ascii "suspension__" else ascii "error__"
      match cName msg (ascii "") with
      | none => .panic
      | some c =>
        let z : status := { cName := g.pkgPrefix ++ errSus ++ c, msg := msg, isPublic := n.isPublic }
        .ok { s with g := { g with statusList := g.statusList ++ [z], statusMap := g.statusMap.set n.qid z } }

/-- The call `forEachFunc(nil, bothPubPri, (*gen).gatherFuncImpl)` stores
the metadata of each function in `g.funks`. -/
def gatherFuncImpl (env : Env) (s : St) (n : Func) : Outcome St :=
  match env.gatherFuncImpl s.g n with
  | .ok k => .ok { s with g := { s.g with funks := s.g.funks.set n.qqid k } }
  | .error e => .error e s

mutual
/-- The method `writeConstList`. -/
def writeConstList (env : Env) : Expr → St → Outcome St
  | .mk h op args cv, s =>
    if op = env.idComma then
      (writeConstListArgs env args { s with b := s.b.writeb 123 }).andThen fun s =>
        .ok { s with b := s.b.writeb 125 }
    else
      match cv with
      | some v => s.writes (env.bigString v)
      | none => .error (.errorf "invalid const value %q" [env.exprStr (.mk h op args cv)]) s
/-- The loop of `writeConstList` over `n.Args()`. -/
def writeConstListArgs (env : Env) : List Expr → St → Outcome St
  | [], s => .ok s
  | o :: rest, s =>
    (writeConstList env o s).andThen fun s => writeConstListArgs env rest { s with b := s.b.writeb 44 }
end

/-- The method `writeConst`. -/
def writeConst (env : Env) (s : St) (n : Const) : Outcome St :=
  (s.writes (if n.isPublic then ascii "WUFFS_BASE__MAYBE_STATIC " else ascii "static ")).andThen fun s =>
  (s.writes (ascii "const ")).andThen fun s =>
  (s.call (env.writeCTypeName s.g n.xType s.g.pkgPrefix (env.idStr n.qid.2))).andThen fun s =>
  (s.writes (ascii " = ")).andThen fun s =>
  (writeConstList env n.value s).andThen fun s =>
  s.writes (ascii ";\n\n")

/-! ## Structs -/

/-- The body of the loop of `writeCppPrototypes` over the declarations. -/
def writeCppPrototype (env : Env) (n : Struct) (s : St) (tld : TopLevelDecl) : Outcome St :=
  match tld with
  | .func f =>
    if !tld.isPublic then .ok s
    else if f.qqid.2.1 ≠ n.qid.2 then .ok s
    else
      (s.call (env.writeFuncSignature s.g f .cppInsideStruct)).andThen fun s =>
      s.writes (ascii ";\n")
  | _ => .ok s

/-- The method `writeCppPrototypes`. -/
def writeCppPrototypes (env : Env) (s : St) (n : Struct) : Outcome St :=
  (s.writes (ascii "#ifdef __cplusplus\n")).andThen fun s =>
  (s.writes (ascii ("inline wuffs_base__status WUFFS_BASE__WARN_UNUSED_RESULT //\n" ++
    "check_wuffs_version(size_t sizeof_star_self, uint64_t wuffs_version);\n"))).andThen fun s =>
  (loop (fun s file => loop (writeCppPrototype env n) file s) s.g.files s).andThen fun s =>
  s.writes (ascii "#endif  // __cplusplus\n\n")

/-- The body of the loop of `writeStruct` over the fields. -/
def writeStructField (env : Env) (s : St) (o : Field) : Outcome St :=
  (s.call (env.writeCTypeName s.g o.xType fPrefix (env.idStr o.name))).andThen fun s =>
  s.writes (ascii ";\n")

/-- The lookup `g.funks[qqid]`: the zero `funk` for a missing key. -/
def funkOf (g : gen) (qqid : QQID) : funk :=
  (g.funks.get qqid).getD { coroSuspPoint := 0, usesScratch := false }

/-- The coroutine state that `writeStruct` writes for the function `o`, whose
metadata `g.funks[o.QQID()]` is `k`: the text from `b.writes("struct {\n")`
to the `printf` of the name (`maxDepth` is 1). -/
def writeCoroState (env : Env) (o : Func) (k : funk) (s : St) : Outcome St :=
  (s.writes (ascii "struct \x7b\n")).andThen fun s =>
  (if k.coroSuspPoint ≠ 0 then
    (s.writes (ascii "uint32_t coro_susp_point;\n")).andThen fun s =>
    s.call (env.writeVars s.g o.body true true)
  else .ok s).andThen fun s =>
  (if k.usesScratch then s.writes (ascii "uint64_t scratch;\n") else .ok s).andThen fun s =>
  s.writes (ascii "\x7d " ++ cPrefix ++ env.idStr o.funcName ++ ascii "[1];\n")

/-- The body of the loop of `writeStruct` over the declarations. -/
def writeStructCoro (env : Env) (n : Struct) (s : St) (tld : TopLevelDecl) : Outcome St :=
  match tld with
  | .func o =>
    if o.receiver ≠ n.qid || !o.coroutine then .ok s
    else
      let k := funkOf s.g o.qqid
      if k.coroSuspPoint = 0 && !k.usesScratch then .ok s
      else writeCoroState env o k s
  | _ => .ok s

/-- The first part of `writeStruct`: the opening of the typedef, the magic
field of a classy struct and the fields. -/
def writeStructHead (env : Env) (s : St) (n : Struct) : Outcome St :=
  let structName := env.qidStr n.qid
  (s.writes (ascii "typedef struct \x7b\n")).andThen fun s =>
  (s.writes (ascii "// Do not access the private_impl's fields directly. There is no API/ABI\n")).andThen fun s =>
  (s.writes (ascii "// compatibility or safety guarantee if you do so. Instead, use the\n")).andThen fun s =>
  (s.writes (ascii "// " ++ s.g.pkgPrefix ++ structName ++ ascii "__etc functions.\n")).andThen fun s =>
  (s.writes (ascii "//\n")).andThen fun s =>
  (s.writes (ascii "// In C++, these fields would be \"private\", but C does not support that.\n")).andThen fun s =>
  (s.writes (ascii "//\n")).andThen fun s =>
  (s.writes (ascii "// It is a struct, not a struct*, so that it can be stack allocated.\n")).andThen fun s =>
  (s.writes (ascii "struct \x7b\n")).andThen fun s =>
  (if n.classy then
    (s.writes (ascii "uint32_t magic;\n")).andThen fun s =>
    s.writes (ascii "\n")
  else .ok s).andThen fun s =>
  loop (writeStructField env) n.fields s

/-- The second part of `writeStruct`: for a classy struct, a newline and the
coroutine states of the functions of all files. -/
def writeStructCoros (env : Env) (s : St) (n : Struct) : Outcome St :=
  if n.classy then
    (s.writes [10]).andThen fun s =>
    loop (fun s file => loop (writeStructCoro env n) file s) s.g.files s
  else .ok s

/-- The last part of `writeStruct`: the end of `private_impl`, the C++
prototypes of a public struct and the name of the typedef. -/
def writeStructTail (env : Env) (s : St) (n : Struct) : Outcome St :=
  let structName := env.qidStr n.qid
  (s.writes (ascii "\x7d private_impl;\n\n")).andThen fun s =>
  (if n.isPublic then writeCppPrototypes env s n else .ok s).andThen fun s =>
  s.writes (ascii "\x7d " ++ s.g.pkgPrefix ++ structName ++ ascii ";\n\n")

/-- The method `writeStruct`. -/
def writeStruct (env : Env) (s : St) (n : Struct) : Outcome St :=
  (writeStructHead env s n).andThen fun s =>
  (writeStructCoros env s n).andThen fun s =>
  writeStructTail env s n

/-- The body of the first loop of `writeCppImpls`; the second component of the
state is the local map `publicStructs`. -/
def writeCppImplStruct (env : Env) (sp : St × List ID) (tld : TopLevelDecl) : Outcome (St × List ID) :=
  match tld with
  | .struct n =>
    if !tld.isPublic then .ok sp
    else
      let s := sp.1
      let structID := n.qid.2
      let structName := env.idStr structID
      let b := s.b.writes (ascii "inline wuffs_base__status WUFFS_BASE__WARN_UNUSED_RESULT //\n")
      let b := b.writes (s.g.pkgPrefix ++ structName ++
        ascii "::check_wuffs_version(size_t sizeof_star_self, uint64_t wuffs_version) \x7b\n")
      let b := b.writes (ascii "return " ++ s.g.pkgPrefix ++ structName ++
        ascii "__check_wuffs_version(this, sizeof_star_self, wuffs_version);\n")
      let b := b.writes (ascii "\x7d\n\n")
      .ok ({ s with b := b }, structID :: sp.2)
  | _ => .ok sp

/-- The arguments `,a_<name>` that the second loop of `writeCppImpls` writes. -/
def writeCppImplArgs (env : Env) (b : buffer) (fields : List Field) : buffer :=
  fields.foldl (fun b o => ((b.writeb 44).writes aPrefix).writes (env.idStr o.name)) b

/-- The body of the second loop of `writeCppImpls`. -/
def writeCppImplFunc (env : Env) (publicStructs : List ID) (s : St) (tld : TopLevelDecl) : Outcome St :=
  match tld with
  | .func n =>
    if !tld.isPublic then .ok s
    else if !(publicStructs.contains n.qqid.2.1) then .ok s
    else
      (s.call (env.writeFuncSignature s.g n .cppOutsideStruct)).andThen fun s =>
      (s.writes (ascii "\x7b return ")).andThen fun s =>
      (s.writes (env.funcCName s.g n)).andThen fun s =>
      (s.writes (ascii "(this")).andThen fun s =>
      (Outcome.ok { s with b := writeCppImplArgs env s.b n.inFields }).andThen fun s =>
      s.writes (ascii ");\x7d\n\n")
  | _ => .ok s

/-- The method `writeCppImpls`. -/
def writeCppImpls (env : Env) (s : St) : Outcome St :=
  (s.writes (ascii "\n#ifdef __cplusplus\n\n")).andThen fun s =>
  match loop (fun sp file => loop (writeCppImplStruct env) file sp) s.g.files (s, []) with
  | .ok sp =>
    let s : St := sp.1
    let publicStructs := sp.2
    (loop (fun s file => loop (writeCppImplFunc env publicStructs) file s) s.g.files s).andThen fun s =>
    s.writes (ascii "#endif  // __cplusplus\n\n")
  | .error e sp => .error e sp.1
  | .panic => .panic
  | .timeout => .timeout

/-! ## Use declarations -/

/-- The error that `writeUse` returns when a marker is missing. -/
def couldNotBeInlined (useDirname useeFilename : Bytes) : Err :=
  .errorf "use %q: previously generated code %q could not be inlined" [useDirname, useeFilename]

/-- The first part of `writeUse`: the used file with the text from `wiStart`
to `wiEnd` replaced by a newline, or `[]` (the `trimmed` of the source) when
one of the two markers is missing. -/
def trimImplementation (usee : Bytes) : Bytes :=
  match bytesIndex usee wiStart with
  | none => []
  | some i =>
    let remaining := usee.drop (i + wiStart.length)
    match bytesIndex remaining wiEnd with
    | none => []
    | some j => (usee.take i ++ [10]) ++ remaining.drop (j + wiEnd.length)

/-- The method `writeUse` from `g.usesList = append(g.usesList, useDirname)`
on: the path has not been seen before. -/
def writeUseNew (env : Env) (s : St) (useDirname : Bytes) : Outcome St :=
  let g := s.g
  let g := { g with usesList := g.usesList ++ [useDirname],
                    usesMap := some (useDirname :: g.usesMap.getD []) }
  let r : Outcome St :=
    if g.wuffsRoot = [] then
      match env.wuffsRootFn with
      | (root, none) => .ok { s with g := { g with wuffsRoot := root } }
      | (root, some e) => .error e { s with g := { g with wuffsRoot := root } }
    else .ok { s with g := g }
  r.andThen fun s =>
  let g := s.g
  let useeFilename := env.useeFilename g.wuffsRoot useDirname
  match env.readFile useeFilename with
  | .error e => .error e s
  | .ok usee0 =>
    let trimmed := trimImplementation usee0
    if trimmed.length = 0 then .error (couldNotBeInlined useDirname useeFilename) s
    else
      let usee := trimmed
      (s.writes (ascii "// ---------------- BEGIN USE " ++ env.quote useDirname ++ ascii "\n\n")).andThen fun s =>
      match bytesIndex usee wigbpStart with
      | none => .error (couldNotBeInlined useDirname useeFilename) s
      | some i =>
        (s.writes (usee.take i)).andThen fun s =>
        let usee := usee.drop (i + wigbpStart.length)
        match bytesIndex usee wigbpEnd with
        | none => .error (couldNotBeInlined useDirname useeFilename) s
        | some i =>
          (s.writes (usee.drop (i + wigbpEnd.length))).andThen fun s =>
          s.writes (ascii "\n\n// ---------------- END   USE " ++ env.quote useDirname ++ ascii "\n\n")

/-- The method `writeUse`. -/
def writeUse (env : Env) (s : St) (n : Use) : Outcome St :=
  let useDirname := (env.unescape (env.byID n.path)).1
  match s.g.usesMap with
  | none => writeUseNew env { s with g := { s.g with usesMap := some [] } } useDirname
  | some m => if m.contains useDirname then .ok s else writeUseNew env s useDirname

/-! ## Initializers -/

/-- The method `writeInitializerSignature`. -/
def writeInitializerSignature (env : Env) (s : St) (n : Struct) ( isPublic : Bool) : Outcome St :=
  let structName := env.qidStr n.qid
  (if isPublic then
    (s.writes (ascii "// " ++ s.g.pkgPrefix ++ structName ++
      ascii "__check_wuffs_version is an initializer function.\n")).andThen fun s =>
    (s.writes (ascii "//\n")).andThen fun s =>
    (s.writes (ascii "// It should be called before any other " ++ s.g.pkgPrefix ++ structName ++
      ascii "__* function.\n")).andThen fun s =>
    (s.writes (ascii "//\n")).andThen fun s =>
    s.writes (ascii "// Pass sizeof(*self) and WUFFS_VERSION for sizeof_star_self and wuffs_version.\n")
  else .ok s).andThen fun s =>
  s.writes (ascii "wuffs_base__status WUFFS_BASE__WARN_UNUSED_RESULT //\n" ++
    s.g.pkgPrefix ++ structName ++ ascii "__check_wuffs_version(" ++ s.g.pkgPrefix ++ structName ++
    ascii " *self, size_t sizeof_star_self, uint64_t wuffs_version)")

/-- The method `writeInitializerPrototype`. -/
def writeInitializerPrototype (env : Env) (s : St) (n : Struct) : Outcome St :=
  if !n.classy then .ok s
  else
    (writeInitializerSignature env s n n.isPublic).andThen fun s =>
    s.writes (ascii ";\n\n")

/-- The local `prefix` of the loop of `writeInitializerImpl` for a field whose
type has the name `qid`, or `none` when the loop goes on to the next field
(`continue`): a base type, or a name of this package that is no struct. -/
def subStructPrefix (env : Env) (g : gen) (qid : QID) : Option Bytes :=
  if qid.1 = env.idBase then none
  else if qid.1 ≠ 0 then some (ascii "wuffs_" ++ env.byID qid.1 ++ ascii "__")
  else if (g.structMap.get qid).isNone then none
  else some g.pkgPrefix

/-- The four `printf` calls of the loop of `writeInitializerImpl`: the call
of the initializer of the sub-struct in the field `f`. -/
def writeSubStructCall (env : Env) (pre : Bytes) (f : Field) (s : St) : Outcome St :=
  (s.writes (ascii "\x7b\n")).andThen fun s =>
  (s.writes (ascii "wuffs_base__status z = " ++ pre ++ env.idStr f.xType.qid.2 ++
    ascii "__check_wuffs_version(&self->private_impl." ++ fPrefix ++ env.idStr f.name ++
    ascii ", sizeof(self->private_impl." ++ fPrefix ++ env.idStr f.name ++
    ascii "), WUFFS_VERSION);\n")).andThen fun s =>
  (s.writes (ascii "if (z) \x7b return z; \x7d\n")).andThen fun s =>
  s.writes (ascii "\x7d\n")

/-- The body of the loop of `writeInitializerImpl` over the fields. -/
def writeInitializerField (env : Env) (s : St) (f : Field) : Outcome St :=
  if !f.xType.isInnermost then .ok s
  else
    match subStructPrefix env s.g f.xType.qid with
    | none => .ok s
    | some pre => writeSubStructCall env pre f s

/-- The method `writeInitializerImpl`. -/
def writeInitializerImpl (env : Env) (s : St) (n : Struct) : Outcome St :=
  if !n.classy then .ok s
  else
    (writeInitializerSignature env s n false).andThen fun s =>
    (s.writes (ascii "\x7b\n")).andThen fun s =>
    (s.writes (ascii "if (!self) \x7b return wuffs_base__error__bad_receiver; \x7d\n")).andThen fun s =>
    (s.writes (ascii "if (sizeof(*self) != sizeof_star_self) \x7b\n")).andThen fun s =>
    (s.writes (ascii "return wuffs_base__error__bad_sizeof_receiver;\n")).andThen fun s =>
    (s.writes (ascii "\x7d\n")).andThen fun s =>
    (s.writes (ascii ("if (((wuffs_version >> 32) != WUFFS_VERSION_MAJOR) || " ++
      "(((wuffs_version >> 16) & 0xFFFF) > WUFFS_VERSION_MINOR)) \x7b\n"))).andThen fun s =>
    (s.writes (ascii "return wuffs_base__error__bad_wuffs_version;\n")).andThen fun s =>
    (s.writes (ascii "\x7d\n")).andThen fun s =>
    (s.writes (ascii "if (self->private_impl.magic != 0) \x7b\n")).andThen fun s =>
    (s.writes (ascii "return wuffs_base__error__check_wuffs_version_not_applicable;\n")).andThen fun s =>
    (s.writes (ascii "\x7d\n")).andThen fun s =>
    (loop (writeInitializerField env) n.fields s).andThen fun s =>
    (s.writes (ascii "self->private_impl.magic = WUFFS_BASE__MAGIC;\n")).andThen fun s =>
    (s.writes (ascii "return NULL;\n")).andThen fun s =>
    s.writes (ascii "\x7d\n\n")

/-! ## The header, the implementation and the driver -/

/-- The body of the loop of `genHeader` over `g.statusList`. -/
def genHeaderStatus (b : buffer) (z : status) : buffer :=
  if !z.isPublic then b
  else b ++ ascii "extern const char* " ++ z.cName ++ ascii ";\n"

/-- The body of the loop of `genImpl` over `g.statusList`:
`b.printf("const char* %s = \"%s%s: %s\";\n", z.cName, z.msg[:1], g.pkgName, z.msg[1:])`. -/
def genImplStatus (pkgName : Bytes) (b : buffer) (z : status) : buffer :=
  if z.msg = [] then b
  else b ++ ascii "const char* " ++ z.cName ++ ascii " = \"" ++ z.msg.take 1 ++ pkgName ++
    ascii ": " ++ z.msg.drop 1 ++ ascii "\";\n"

/-- The method `insertBasePublicH` called on the buffer of a state. -/
def St.insertBasePublicH (env : Env) (s : St) : Outcome St :=
  match Cgen.insertBasePublicH env s.b with
  | .ok b => .ok { s with b := b }
  | .error e b => .error e { s with b := b }
  | .panic => .panic
  | .timeout => .timeout

/-- The method `genHeader`. -/
def genHeader (env : Env) (s : St) : Outcome St :=
  (s.insertBasePublicH env).andThen fun s =>
  (s.writes (ascii "// ---------------- Use Declarations\n\n")).andThen fun s =>
  (forEachUse s (writeUse env)).andThen fun s =>
  (s.writes (ascii "\n#ifdef __cplusplus\nextern \"C\" \x7b\n#endif\n\n")).andThen fun s =>
  (s.writes (ascii "// ---------------- Status Codes\n\n")).andThen fun s =>
  (Outcome.ok { s with b := s.g.statusList.foldl genHeaderStatus s.b }).andThen fun s =>
  (s.writes (ascii "\n")).andThen fun s =>
  (s.writes (ascii "// ---------------- Public Consts\n\n")).andThen fun s =>
  (forEachConst s .pubOnly (writeConst env)).andThen fun s =>
  (s.writes (ascii "// ---------------- Structs\n\n")).andThen fun s =>
  (loop (writeStruct env) s.g.structList s).andThen fun s =>
  (s.writes (ascii "// ---------------- Public Initializer Prototypes\n\n")).andThen fun s =>
  (loop (fun s n => if n.isPublic then writeInitializerPrototype env s n else .ok s)
    s.g.structList s).andThen fun s =>
  (s.writes (ascii "// ---------------- Public Function Prototypes\n\n")).andThen fun s =>
  (forEachFunc s .pubOnly (fun s n => s.call (env.writeFuncPrototype s.g n))).andThen fun s =>
  (s.writes (ascii "// ---------------- C++ Convenience Methods \n\n")).andThen fun s =>
  (writeCppImpls env s).andThen fun s =>
  s.writes (ascii "\n#ifdef __cplusplus\n\x7d  // extern \"C\"\n#endif\n\n")

/-- The local `module` of `genImpl`. -/
def moduleGuard (env : Env) (g : gen) : Bytes :=
  ascii "!defined(WUFFS_CONFIG__MODULES) || defined(WUFFS_CONFIG__MODULE__" ++
    env.toUpper g.pkgName ++ ascii ")"

/-- The method `genImpl`. -/
def genImpl (env : Env) (s : St) : Outcome St :=
  (s.writes env.baseBasePrivateH).andThen fun s =>
  (s.writes [10]).andThen fun s =>
  (s.writes (ascii "#if " ++ moduleGuard env s.g ++ ascii "\n\n")).andThen fun s =>
  (s.writes (ascii "// ---------------- Status Codes Implementations\n\n")).andThen fun s =>
  (Outcome.ok { s with b := s.g.statusList.foldl (genImplStatus s.g.pkgName) s.b }).andThen fun s =>
  (s.writes (ascii "\n")).andThen fun s =>
  (s.writes (ascii "// ---------------- Private Consts\n\n")).andThen fun s =>
  (forEachConst s .priOnly (writeConst env)).andThen fun s =>
  (s.writes (ascii "// ---------------- Private Initializer Prototypes\n\n")).andThen fun s =>
  (loop (fun s n => if !n.isPublic then writeInitializerPrototype env s n else .ok s)
    s.g.structList s).andThen fun s =>
  (s.writes (ascii "// ---------------- Private Function Prototypes\n\n")).andThen fun s =>
  (forEachFunc s .priOnly (fun s n => s.call (env.writeFuncPrototype s.g n))).andThen fun s =>
  (s.writes (ascii "// ---------------- Initializer Implementations\n\n")).andThen fun s =>
  (loop (writeInitializerImpl env) s.g.structList s).andThen fun s =>
  (s.writes (ascii "// ---------------- Function Implementations\n\n")).andThen fun s =>
  (forEachFunc s .bothPubPri (fun s n => s.call (env.writeFuncImpl s.g n))).andThen fun s =>
  s.writes (ascii "#endif  // " ++ moduleGuard env s.g ++ ascii "\n\n")

/-- The structs of the files, in source order: the `unsortedStructs` of
`generate`. -/
def unsortedStructs (files : List File) : List Struct :=
  files.flatten.filterMap fun tld =>
    match tld with
    | .struct n => some n
    | _ => none

/-- The part of `generate` that works on the receiver and the buffer; it ends
in the state from which `generate` returns `*b, nil`, or with the error that
`generate` returns. -/
def generateSt (env : Env) (g : gen) : Outcome St :=
  let s : St := { g := { g with statusMap := [] }, b := [] }
  (forEachStatus s .bothPubPri (gatherStatuses env)).andThen fun s =>
  let sorted := env.topologicalSortStructs (unsortedStructs s.g.files)
  let s : St := { s with g := { s.g with structList := sorted.1 } }
  if !sorted.2 then .error (.errorf "cyclical struct definitions" []) s
  else
    let s : St := { s with g := { s.g with structMap := s.g.structList.foldl (fun m n => m.set n.qid n) [] } }
    let s : St := { s with g := { s.g with funks := [] } }
    -- forEachFunc(nil, bothPubPri, (*gen).gatherFuncImpl): the buffer is nil
    (match forEachFunc { s with b := [] } .bothPubPri (gatherFuncImpl env) with
      | .ok s' => Outcome.ok { s with g := s'.g }
      | .error e s' => .error e { s with g := s'.g }
      | .panic => .panic
      | .timeout => .timeout).andThen fun s =>
    let includeGuard := ascii "WUFFS_INCLUDE_GUARD__" ++ env.toUpper s.g.pkgName
    (s.writes (ascii "#ifndef " ++ includeGuard ++ ascii "\n#define " ++ includeGuard ++
      ascii "\n\n")).andThen fun s =>
    (genHeader env s).andThen fun s =>
    (s.writes wiStart).andThen fun s =>
    (genImpl env s).andThen fun s =>
    (s.writes wiEnd).andThen fun s =>
    s.writes (ascii "#endif  // " ++ includeGuard ++ ascii "\n\n")

/-- What `generate` returns: the byte slice (`none` for `nil`) and the error
(`none` for `nil`), or a panic. -/
inductive Returned where
  | ret (bytes : Option Bytes) (err : Option Err)
  | panic
  | timeout
deriving DecidableEq, Repr

/-- The method `generate`: `return nil, err` on every error, `return *b, nil`
at the end. -/
def generate (env : Env) (g : gen) : Returned :=
  match generateSt env g with
  | .ok s => .ret (some s.b) none
  | .error e _ => .ret none (some e)
  | .panic => .panic
  | .timeout => .timeout

/-! ## Reading outcomes, and the wording of the specification -/

/-- The state in which a call returned `nil`. -/
def Outcome.state? {σ : Type} : Outcome σ → Option σ
  | .ok s => some s
  | _ => none

/-- Whether a call returned a non-nil error. -/
def Outcome.isError {σ : Type} : Outcome σ → Bool
  | .error _ _ => true
  | _ => false

/-- Wording of the specification: the class marker of a message, `?` or `$`,
when it starts with one. -/
def classMarker : Bytes → Bytes
  | [] => []
  | c :: _ => if c = 63 ∨ c = 36 then [c] else []

/-- Wording of the specification: the message with only its class marker
(`?` or `$`) removed. -/
def withoutClassMarker : Bytes → Bytes
  | [] => []
  | c :: rest => if c = 63 ∨ c = 36 then rest else c :: rest

/-- Wording of the specification: the generated string literal
`<class-marker><package-name>: <message-without-marker>`. -/
def statusLiteralSpec (pkgName msg : Bytes) : Bytes :=
  classMarker msg ++ pkgName ++ ascii ": " ++ withoutClassMarker msg

/-- Wording of the specification: the class word of a message, by
`statusMsgIsError`, `statusMsgIsSuspension` and `statusMsgIsWarning`. -/
def classWordSpec (msg : Bytes) : Bytes :=
  if statusMsgIsError msg then ascii "error"
  else if statusMsgIsSuspension msg then ascii "suspension"
  else ascii "warning"

/-! ## A small package for concrete runs -/

/-- The strings of the token map of the package `demo`. -/
def demoStr (id : ID) : Bytes :=
  match id with
  | 10 => ascii "\"?bad argument\""
  | 11 => ascii "\"@end of data\""
  | 12 => ascii "\"$short read\""
  | 13 => ascii "\"?\""
  | 14 => ascii "\"\""
  | 15 => ascii "not a literal"
  | 20 => ascii "decoder"
  | 21 => ascii "table"
  | 22 => ascii "decode"
  | 23 => ascii "reset"
  | 24 => ascii "peek"
  | 25 => ascii "fill"
  | 30 => ascii "state"
  | 31 => ascii "inner"
  | _ => []

/-- The unescaping of the package `demo`: a string literal is its contents
between double quotes. -/
def demoUnescape (raw : Bytes) : Bytes × Bool :=
  match raw with
  | 34 :: rest => if rest.getLast? = some 34 then (rest.dropLast, true) else ([], false)
  | _ => ([], false)

/-- The environment of the package `demo`: every outside writer appends a
short fixed text and succeeds, the struct sort keeps the order it is given. -/
def demoEnv : Env where
  byID := demoStr
  idStr := demoStr
  qidStr := fun q => demoStr q.2
  exprStr := fun _ => []
  unescape := demoUnescape
  idBase := 1
  idComma := 2
  topologicalSortStructs := fun l => (l, true)
  builtinStatusList := [ascii "?bad argument", ascii "$short read", ascii "@end of data"]
  baseBaseImplC := ascii "// impl\n"
  baseBasePrivateH := ascii "// private\n"
  baseBasePublicH := ascii "// public\n"
  baseImagePublicH := ascii "// image\n"
  toUpper := fun s => s.map fun c => if 97 ≤ c ∧ c ≤ 122 then c - 32 else c
  quote := fun s => [34] ++ s ++ [34]
  bigString := fun _ => ascii "0"
  wuffsRootFn := (ascii "/wuffs", none)
  useeFilename := fun root dir => root ++ ascii "/gen/c/" ++ dir ++ ascii ".h"
  readFile := fun _ => .error (.external 2)
  gatherFuncImpl := fun _ f =>
    .ok { coroSuspPoint := if f.funcName = 22 then 3 else 0, usesScratch := f.funcName = 25 }
  writeCTypeName := fun _ _ pre name => { text := ascii "uint32_t " ++ pre ++ name, err := none }
  writeVars := fun _ _ _ _ => { text := ascii "uint32_t v_i;\n", err := none }
  writeFuncSignature := fun _ _ _ => { text := ascii "void sig()", err := none }
  writeFuncPrototype := fun _ _ => { text := ascii "void proto();\n", err := none }
  writeFuncImpl := fun _ _ => { text := ascii "void impl() \x7b\x7d\n", err := none }
  funcCName := fun _ _ => ascii "fn"

/-- The receiver of the package `demo` before `generate`: no declarations. -/
def demoGen : gen where
  pkgPrefix := ascii "wuffs_demo__"
  pkgName := ascii "demo"
  files := []
  statusList := []
  statusMap := []
  structList := []
  structMap := []
  usesList := []
  usesMap := none
  funks := []
  wuffsRoot := []

/-! ## Methods that only append to the buffer -/

/-- What a method appends to an empty buffer, and the error it returns, when
its receiver is `g`. -/
def writtenOf (w : St → Outcome St) (g : gen) : Written :=
  match w { g := g, b := [] } with
  | .ok s => { text := s.b, err := none }
  | .error e s => { text := s.b, err := some e }
  | .panic => { text := [], err := none }
  | .timeout => { text := [], err := none }

/-- A method is a writer when it leaves its receiver as it is and only
appends to the buffer a text, and returns an error, that depend on the
receiver alone. -/
def IsWriter (w : St → Outcome St) : Prop :=
  ∀ s : St, w s = s.call (writtenOf w s.g)

/-- One writer after another: the second runs when the first returned `nil`. -/
def Written.seq (a b : Written) : Written :=
  match a.err with
  | none => { text := a.text ++ b.text, err := b.err }
  | some e => { text := a.text, err := some e }

/-- The declarations of all files, in source order. -/
def allDecls (g : gen) : List TopLevelDecl := g.files.flatten

/-- The text that `writeStruct` appends for the struct `n`. -/
def structText (env : Env) (g : gen) (n : Struct) : Bytes :=
  (writtenOf (fun s => writeStruct env s n) g).text

/-- The text that `writeInitializerPrototype` appends for the struct `n`. -/
def prototypeText (env : Env) (g : gen) (n : Struct) : Bytes :=
  (writtenOf (fun s => writeInitializerPrototype env s n) g).text

/-- The text that `writeInitializerImpl` appends for the struct `n`. -/
def implText (env : Env) (g : gen) (n : Struct) : Bytes :=
  (writtenOf (fun s => writeInitializerImpl env s n) g).text

/-- The text that the loop of `writeStruct` over the declarations appends for
one declaration. -/
def coroText (env : Env) (g : gen) (n : Struct) (tld : TopLevelDecl) : Bytes :=
  (writtenOf (fun s => writeStructCoro env n s tld) g).text

/-- Wording of the specification: the coroutine state record of a
declaration in the struct `n`.  A function whose receiver is `n`, that has
the coroutine effect and whose metadata has a suspension point or uses
scratch gets `struct { ... } c_<funcName>[1];`, with the resume-point counter
and the variables when it has a suspension point and the scratch word when
it uses scratch; every other declaration gets nothing. -/
def coroRecordSpec (env : Env) (g : gen) (n : Struct) (tld : TopLevelDecl) : Bytes :=
  match tld with
  | .func o =>
    if o.receiver = n.qid ∧ o.coroutine = true ∧
        ((funkOf g o.qqid).coroSuspPoint ≠ 0 ∨ (funkOf g o.qqid).usesScratch = true) then
      ascii "struct \x7b\n" ++
      (if (funkOf g o.qqid).coroSuspPoint ≠ 0 then
        ascii "uint32_t coro_susp_point;\n" ++ (env.writeVars g o.body true true).text
      else []) ++
      (if (funkOf g o.qqid).usesScratch = true then ascii "uint64_t scratch;\n" else []) ++
      (ascii "\x7d " ++ cPrefix ++ env.idStr o.funcName ++ ascii "[1];\n")
    else []
  | _ => []

/-- The part of a struct between its fields and the end of `private_impl`:
for a classy struct a newline and the coroutine state records of the
declarations of all files, nothing for another struct. -/
def coroStatesSpec (env : Env) (g : gen) (n : Struct) : Bytes :=
  if n.classy then [10] ++ ((allDecls g).map (coroRecordSpec env g n)).flatten else []

/-- The struct `decoder` of the package `demo`: public and classy, with one
field `state` of a base type. -/
def demoStruct : Struct :=
  { qid := (0, 20), isPublic := true, classy := true,
    fields := [{ name := 30, xType := .leaf 0 (1, 40) }] }

/-- A public coroutine of the struct `decoder` with the given name. -/
def demoFunc (name : ID) : Func :=
  { qqid := (0, 20, name), receiver := (0, 20), funcName := name, isPublic := true,
    coroutine := true, inFields := [], body := 0 }

/-- The receiver of the package `demo` with one file of the given
declarations, after the metadata of `decode` (three suspension points) and
`fill` (scratch) have been gathered; every other function has none. -/
def demoGenWith (decls : List TopLevelDecl) : gen :=
  { demoGen with
    files := [decls]
    structList := [demoStruct]
    structMap := [((0, 20), demoStruct)]
    funks := [((0, 20, 22), { coroSuspPoint := 3, usesScratch := false }),
              ((0, 20, 25), { coroSuspPoint := 0, usesScratch := true })] }

/-- A method keeps the receiver when a call that returns `nil` leaves the
receiver as it was and the buffer extended. -/
def Keeps (w : St → Outcome St) : Prop :=
  ∀ s s' : St, w s = .ok s' → s'.g = s.g ∧ ∃ t, s'.b = s.b ++ t

/-- The receiver `g'` differs from `g` at most in the fields that `writeUse`
assigns: `usesList`, `usesMap` and `wuffsRoot`. -/
def UsesOnly (g g' : gen) : Prop :=
  g'.pkgPrefix = g.pkgPrefix ∧ g'.pkgName = g.pkgName ∧ g'.files = g.files ∧
  g'.statusList = g.statusList ∧ g'.statusMap = g.statusMap ∧
  g'.structList = g.structList ∧ g'.structMap = g.structMap ∧ g'.funks = g.funks

/-- The state `s'` comes from `s` by appending to the buffer and assigning at
most the fields of `writeUse`. -/
def Extends (s s' : St) : Prop :=
  UsesOnly s.g s'.g ∧ ∃ t, s'.b = s.b ++ t

/-- The private classy struct `inner` of the package `demo`. -/
def demoInner : Struct :=
  { qid := (0, 31), isPublic := false, classy := true, fields := [] }

/-- The public classy struct `table` of the package `demo`, which embeds an
`inner`. -/
def demoTable : Struct :=
  { qid := (0, 21), isPublic := true, classy := true,
    fields := [{ name := 31, xType := .leaf 0 (0, 31) }] }

/-- The package `demo` as `Do` hands it to `generate`: one file with the
status `?bad argument`, the structs `inner` and `table` and the coroutine
`decode` of `decoder`. -/
def demoProgram : gen :=
  { demoGen with
    files := [[.status { qid := (0, 10), isPublic := true },
               .struct demoInner, .struct demoTable, .func (demoFunc 22)]] }

/-- The bytes that a call returned, `[]` when it returned none. -/
def Returned.bytes : Returned → Bytes
  | .ret (some out) _ => out
  | _ => []

/-- Whether a call returned bytes and the error `nil`. -/
def Returned.isArtifact : Returned → Bool
  | .ret (some _) none => true
  | _ => false

/-- The artifact of the package `demo`. -/
def demoArtifact : Bytes := (generate demoEnv demoProgram).bytes

/-- The environment of the package `demo` with a struct sort that reports a
cycle. -/
def demoCyclicEnv : Env :=
  { demoEnv with topologicalSortStructs := fun _ => ([], false) }

/-- A package whose structs `inner` and `table` embed each other. -/
def demoCyclicProgram : gen :=
  { demoGen with
    files := [[.struct { demoInner with fields := [{ name := 21, xType := .leaf 0 (0, 21) }] },
               .struct demoTable]] }

/-! ## The declarations that a pass visits -/

/-- The constants of the files, in source order. -/
def constsOf (files : List File) : List Const :=
  files.flatten.filterMap fun tld =>
    match tld with
    | .const n => some n
    | _ => none

/-- The functions of the files, in source order. -/
def funcsOf (files : List File) : List Func :=
  files.flatten.filterMap fun tld =>
    match tld with
    | .func n => some n
    | _ => none

/-- The statuses of the files, in source order. -/
def statusesOf (files : List File) : List Status :=
  files.flatten.filterMap fun tld =>
    match tld with
    | .status n => some n
    | _ => none

/-- Wording of the specification: the declarations of a list that a pass
with the visibility `v` visits: all of them, the public ones, or the private
ones. -/
def visited {α : Type} (v : visibility) ( isPublic : α → Bool) (l : List α) : List α :=
  match v with
  | .bothPubPri => l
  | .pubOnly => l.filter isPublic
  | .priOnly => l.filter fun n => !isPublic n

/-! ## The wording of the specification for use declarations -/

/-- The text before and the text after the first occurrence of `sep` in `s`,
or `none` when `s` lacks `sep`. -/
def cutFirst (s sep : Bytes) : Option (Bytes × Bytes) :=
  (bytesIndex s sep).map fun i => (s.take i, s.drop (i + sep.length))

/-- Wording of the specification: the artifact `u` with its first
`wiStart ... wiEnd` span replaced by a single newline, or `none` when `u`
lacks `wiStart` or lacks `wiEnd` after the first `wiStart`. -/
def implementationCut (u : Bytes) : Option Bytes :=
  match cutFirst u wiStart with
  | none => none
  | some (a, r) =>
    match cutFirst r wiEnd with
    | none => none
    | some (_, c) => some (a ++ [10] ++ c)

/-- Wording of the specification: the part of `t` before the first
`wigbpStart` followed by the part of `t` after the first `wigbpEnd` that
follows it, or `none` when one of the two markers is missing. -/
def basePublicCut (t : Bytes) : Option Bytes :=
  match cutFirst t wigbpStart with
  | none => none
  | some (x, r) =>
    match cutFirst r wigbpEnd with
    | none => none
    | some (_, z) => some (x ++ z)

/-- Wording of the specification: the text of the artifact `u` that is
inlined, or `none` when a marker is missing. -/
def inlinedSpec (u : Bytes) : Option Bytes :=
  match implementationCut u with
  | none => none
  | some t => basePublicCut t

/-- The `BEGIN USE` marker of a path. -/
def beginUse (env : Env) (useDirname : Bytes) : Bytes :=
  ascii "// ---------------- BEGIN USE " ++ env.quote useDirname ++ ascii "\n\n"

/-- The `END USE` marker of a path. -/
def endUse (env : Env) (useDirname : Bytes) : Bytes :=
  ascii "\n\n// ---------------- END   USE " ++ env.quote useDirname ++ ascii "\n\n"

/-- The path of a use declaration: `useDirname` in `writeUse`. -/
def usePath (env : Env) (n : Use) : Bytes := (env.unescape (env.byID n.path)).1

/-- Whether `writeUse` has seen the path before: `g.usesMap[useDirname]`. -/
def pathSeen (g : gen) (useDirname : Bytes) : Bool :=
  match g.usesMap with
  | none => false
  | some m => m.contains useDirname

/-- The root under which `writeUse` looks for artifacts: `g.wuffsRoot`, or
the result of `generate.WuffsRoot` while that field is empty. -/
def useRoot (env : Env) (g : gen) : Bytes :=
  if g.wuffsRoot = [] then env.wuffsRootFn.1 else g.wuffsRoot

/-- The receiver after `writeUse` has recorded a new path. -/
def genWithUse (env : Env) (g : gen) (useDirname : Bytes) : gen :=
  { g with usesList := g.usesList ++ [useDirname],
           usesMap := some (useDirname :: g.usesMap.getD []),
           wuffsRoot := useRoot env g }

/-- The state that a call leaves behind, whether it returned `nil` or an
error. -/
def Outcome.after? {σ : Type} : Outcome σ → Option σ
  | .ok s => some s
  | .error _ s => some s
  | _ => none

/-- Whether a call returned `nil`. -/
def Outcome.isOk {σ : Type} : Outcome σ → Bool
  | .ok _ => true
  | _ => false

/-- The paths of the use declarations of the files, in source order. -/
def usePathsOf (env : Env) (files : List File) : List Bytes :=
  files.flatten.filterMap fun tld =>
    match tld with
    | .use n => some (usePath env n)
    | _ => none

/-- Wording of the specification: the paths of a list that are not among
`seen`, each one once, in the order of their first occurrence. -/
def firstUses : List Bytes → List Bytes → List Bytes
  | _, [] => []
  | seen, p :: ps =>
    if seen.contains p then firstUses seen ps else p :: firstUses (p :: seen) ps

/-- Wording of the specification: what one inlined copy of the artifact of
the path `p` looks like: the `BEGIN USE` marker, the inlined text and the
`END USE` marker. -/
def useBlock (env : Env) (root p : Bytes) : Bytes :=
  match env.readFile (env.useeFilename root p) with
  | .ok u => beginUse env p ++ (inlinedSpec u).getD [] ++ endUse env p
  | .error _ => []

/-- A small artifact: the text `A`, an implementation region, the text `B`,
a base region and the text `C`. -/
def demoUsee : Bytes :=
  ascii "A" ++ wiStart ++ ascii "impl" ++ wiEnd ++ ascii "B" ++ wigbpStart ++ ascii "base" ++
    wigbpEnd ++ ascii "C"

/-- A small artifact with two implementation regions and two base regions. -/
def demoUseeTwice : Bytes :=
  ascii "A" ++ wiStart ++ ascii "impl" ++ wiEnd ++ ascii "B" ++ wigbpStart ++ ascii "base" ++
    wigbpEnd ++ ascii "C" ++ wiStart ++ ascii "impl2" ++ wiEnd ++ ascii "D" ++ wigbpStart ++
    ascii "base2" ++ wigbpEnd ++ ascii "E"

/-- The environment of the package `demo` with a token `40` for the path
`"std/lzw"`, whose artifact is `demoUsee`, and a token `41` for the path
`"std/gif"`, whose artifact is `demoUseeTwice`. -/
def demoUseEnv : Env :=
  { demoEnv with
    byID := fun id =>
      if id = 40 then ascii "\"std/lzw\"" else if id = 41 then ascii "\"std/gif\"" else demoStr id
    readFile := fun f =>
      if f = ascii "/wuffs/gen/c/std/lzw.h" then .ok demoUsee
      else if f = ascii "/wuffs/gen/c/std/gif.h" then .ok demoUseeTwice
      else .error (.external 2) }

/-- A package that names the path `"std/lzw"` in two use declarations. -/
def demoUseGen : gen :=
  { demoGen with files := [[.use { path := 40 }, .use { path := 40 }]] }

/-- The text that `writeUse` appends for the path `"std/lzw"`: the artifact
`demoUsee` without its implementation region and its base region, between
the markers of the path. -/
def demoUseText : Bytes :=
  beginUse demoUseEnv (ascii "std/lzw") ++ ascii "A\nBC" ++ endUse demoUseEnv (ascii "std/lzw")

/-- The text that `writeUse` appends for the path `"std/gif"`: what follows
the first base region of `demoUseeTwice` is inlined as it is. -/
def demoUseTwiceText : Bytes :=
  beginUse demoUseEnv (ascii "std/gif") ++ ascii "A\nB" ++
    (ascii "C" ++ wiStart ++ ascii "impl2" ++ wiEnd ++ ascii "D" ++ wigbpStart ++ ascii "base2" ++
      wigbpEnd ++ ascii "E") ++ endUse demoUseEnv (ascii "std/gif")

/-! ## The wording of the specification for the artifact as a used package -/

/-- The first two lines of the artifact: the include guard of the package. -/
def guardOpen (env : Env) (g : gen) : Bytes :=
  ascii "#ifndef " ++ (ascii "WUFFS_INCLUDE_GUARD__" ++ env.toUpper g.pkgName) ++ ascii "\n#define " ++
    (ascii "WUFFS_INCLUDE_GUARD__" ++ env.toUpper g.pkgName) ++ ascii "\n\n"

/-- The artifact up to its line `Use Declarations`: the include guard, what
`insertBasePublicH` adds to it, and that line. -/
def artifactHead (env : Env) (g : gen) : Bytes :=
  match insertBasePublicH env (guardOpen env g) with
  | .ok b => b ++ ascii "// ---------------- Use Declarations\n\n"
  | _ => []

/-! ## The emitted initializer as a C function -/

/-- The statements of the function body that `writeInitializerImpl` emits,
in the order of its `writes` and `printf` calls; `subStruct` is the block
that its loop emits for a field. -/
inductive CStmt where
  | checkReceiver
  | checkSizeof
  | checkVersion
  | checkMagic
  | subStruct (pre : Bytes) (typeName : Bytes) (fieldName : Bytes)
  | setMagic
  | returnNull
deriving DecidableEq, Repr

/-- The C text of a statement, as `writeInitializerImpl` writes it. -/
def CStmt.render : CStmt → Bytes
  | .checkReceiver => ascii "if (!self) \x7b return wuffs_base__error__bad_receiver; \x7d\n"
  | .checkSizeof =>
    ascii "if (sizeof(*self) != sizeof_star_self) \x7b\n" ++
      ascii "return wuffs_base__error__bad_sizeof_receiver;\n" ++ ascii "\x7d\n"
  | .checkVersion =>
    ascii ("if (((wuffs_version >> 32) != WUFFS_VERSION_MAJOR) || " ++
      "(((wuffs_version >> 16) & 0xFFFF) > WUFFS_VERSION_MINOR)) \x7b\n") ++
      ascii "return wuffs_base__error__bad_wuffs_version;\n" ++ ascii "\x7d\n"
  | .checkMagic =>
    ascii "if (self->private_impl.magic != 0) \x7b\n" ++
      ascii "return wuffs_base__error__check_wuffs_version_not_applicable;\n" ++ ascii "\x7d\n"
  | .subStruct pre typeName fieldName =>
    ascii "\x7b\n" ++
      (ascii "wuffs_base__status z = " ++ pre ++ typeName ++
        ascii "__check_wuffs_version(&self->private_impl." ++ fPrefix ++ fieldName ++
        ascii ", sizeof(self->private_impl." ++ fPrefix ++ fieldName ++
        ascii "), WUFFS_VERSION);\n") ++
      ascii "if (z) \x7b return z; \x7d\n" ++ ascii "\x7d\n"
  | .setMagic => ascii "self->private_impl.magic = WUFFS_BASE__MAGIC;\n"
  | .returnNull => ascii "return NULL;\n"

/-- The statement that the loop of `writeInitializerImpl` emits for the field
`f`, or `none` when it goes on to the next field. -/
def subStructStmt (env : Env) (g : gen) (f : Field) : Option CStmt :=
  if !f.xType.isInnermost then none
  else
    match subStructPrefix env g f.xType.qid with
    | none => none
    | some pre => some (.subStruct pre (env.idStr f.xType.qid.2) (env.idStr f.name))

/-- The statements of the initializer that `writeInitializerImpl` emits for
the struct `n`. -/
def initializerBody (env : Env) (g : gen) (n : Struct) : List CStmt :=
  [.checkReceiver, .checkSizeof, .checkVersion, .checkMagic] ++
    n.fields.filterMap (subStructStmt env g) ++ [.setMagic, .returnNull]

/-- The text that `writeInitializerSignature` appends for the struct `n`. -/
def signatureText (env : Env) (g : gen) (n : Struct) ( isPublic : Bool) : Bytes :=
  (writtenOf (fun s => writeInitializerSignature env s n isPublic) g).text

/-- The value of a `wuffs_base__status`, a `const char*`: `NULL`, the value
of one of the four variables `wuffs_base__error__...` that the emitted text
names (they point to different messages, so they differ from each other and
from `NULL`), or another value.  The initializer of a sub-struct can return
any of them. -/
inductive CStatus where
  | null
  | badReceiver
  | badSizeofReceiver
  | badWuffsVersion
  | checkWuffsVersionNotApplicable
  | other (value : Nat)
deriving DecidableEq, Repr

/-- What the C compiler and the base headers fix for an emitted initializer:
`sizeof(*self)`, the macros `WUFFS_VERSION_MAJOR`, `WUFFS_VERSION_MINOR` and
`WUFFS_BASE__MAGIC`, and the functions that the sub-struct blocks call: for
the name of the function and the contents of the field it is given, the
status it returns and the contents of the field afterwards.  Such a function
is itself an initializer, of this package or of another one, and may return
any status, the errors that the emitted text names included. -/
structure CEnv where
  sizeofSelf : Nat
  versionMajor : Nat
  versionMinor : Nat
  magic : Nat
  callee : Bytes → Nat → CStatus × Nat

/-- An instance of a classy struct, as far as its initializer touches it: the
field `private_impl.magic`, a `uint32_t`, and the contents of the fields
`private_impl.f_...` that hold sub-structs. -/
structure Instance where
  magic : Nat
  field : Bytes → Nat

/-- Where a call stands after a statement: it goes on, it has returned, or
it has dereferenced a `NULL` receiver. -/
inductive CStep where
  | next (self : Option Instance)
  | ret (status : CStatus) (self : Option Instance)
  | undefined

/-- One statement of the emitted initializer, run with the arguments
`sizeof_star_self` and `wuffs_version` on the instance that `self` points to
(`none` when `self` is `NULL`). -/
def CStmt.exec (c : CEnv) (sizeofStarSelf wuffsVersion : Nat) (st : CStmt)
    (self : Option Instance) : CStep :=
  match st with
  | .checkReceiver => if self.isNone then .ret .badReceiver self else .next self
  | .checkSizeof =>
    if c.sizeofSelf ≠ sizeofStarSelf then .ret .badSizeofReceiver self else .next self
  | .checkVersion =>
    if (wuffsVersion >>> 32 ≠ c.versionMajor) ∨ ((wuffsVersion >>> 16) &&& 0xFFFF > c.versionMinor)
    then .ret .badWuffsVersion self else .next self
  | .checkMagic =>
    match self with
    | none => .undefined
    | some i =>
      if i.magic ≠ 0 then .ret .checkWuffsVersionNotApplicable (some i) else .next (some i)
  | .subStruct pre typeName fieldName =>
    match self with
    | none => .undefined
    | some i =>
      let r := c.callee (pre ++ typeName ++ ascii "__check_wuffs_version") (i.field fieldName)
      let i' : Instance := { i with field := Function.update i.field fieldName r.2 }
      if r.1 ≠ .null then .ret r.1 (some i') else .next (some i')
  | .setMagic =>
    match self with
    | none => .undefined
    | some i => .next (some { i with magic := c.magic % 2 ^ 32 })
  | .returnNull => .ret .null self

/-- The statements of a body, one after another, up to the first `return`. -/
def runBody (c : CEnv) (sizeofStarSelf wuffsVersion : Nat) :
    List CStmt → Option Instance → CStep
  | [], self => .next self
  | st :: rest, self =>
    match st.exec c sizeofStarSelf wuffsVersion self with
    | .next self' => runBody c sizeofStarSelf wuffsVersion rest self'
    | r => r

/-- A call of the emitted initializer of the struct `n`: the parameter
`wuffs_version` is a `uint64_t`. -/
def initializerCall (env : Env) (g : gen) (n : Struct) (c : CEnv) (self : Option Instance)
    (sizeofStarSelf wuffsVersion : Nat) : CStep :=
  runBody c sizeofStarSelf (wuffsVersion % 2 ^ 64) (initializerBody env g n) self

/-- The status that a call returned, if it returned. -/
def CStep.status? : CStep → Option CStatus
  | .ret z _ => some z
  | _ => none

/-- The sub-struct blocks of a body, one after another: the first status
other than `NULL` that the initializer of a sub-struct returns, which
`if (z) { return z; }` passes on, or `none` when each of them returns
`NULL`. -/
def firstSubStatus (c : CEnv) : List CStmt → Instance → Option CStatus
  | [], _ => none
  | .subStruct pre typeName fieldName :: rest, i =>
    let r := c.callee (pre ++ typeName ++ ascii "__check_wuffs_version") (i.field fieldName)
    if r.1 ≠ .null then some r.1
    else firstSubStatus c rest { i with field := Function.update i.field fieldName r.2 }
  | _ :: rest, i => firstSubStatus c rest i

/-- The struct map of the package `demo` after `generate` has filled it. -/
def demoInitGen : gen :=
  { demoGen with
    structList := [demoInner, demoTable]
    structMap := [((0, 31), demoInner), ((0, 21), demoTable)] }

/-- A C environment for the initializer of `table`: the struct has 16 bytes,
the library has version 0.1, and the initializer of a sub-struct does what
an emitted initializer does with the magic field: it sets a zeroed field to
`1` and returns `NULL`, and it returns
`wuffs_base__error__check_wuffs_version_not_applicable` for a field that is
not zero. -/
def demoCEnv : CEnv :=
  { sizeofSelf := 16, versionMajor := 0, versionMinor := 1, magic := 0x3CCB6C71,
    callee := fun _ m =>
      if m = 0 then (.null, 1) else (.checkWuffsVersionNotApplicable, m) }

/-- A zeroed instance. -/
def demoInstance : Instance := { magic := 0, field := fun _ => 0 }

/-- An instance whose magic field holds `1`, which is neither zero nor the
`WUFFS_BASE__MAGIC` of `demoCEnv`. -/
def demoStaleInstance : Instance := { magic := 1, field := fun _ => 0 }

/-- An instance whose magic field is zero and whose sub-structs are not. -/
def demoStaleSubInstance : Instance := { magic := 0, field := fun _ => 5 }

/-- The environment of the package `demo` with a token `50` for the package
`lzw`. -/
def demoLibEnv : Env :=
  { demoEnv with byID := fun id => if id = 50 then ascii "lzw" else demoStr id }

/-- A public classy struct `table` whose field `inner` holds a `decoder` of
the package `lzw`. -/
def demoLibTable : Struct :=
  { qid := (0, 21), isPublic := true, classy := true,
    fields := [{ name := 31, xType := .leaf 0 (50, 20) }] }

/-- The C environment `demoCEnv` with an initializer of the sub-struct that
was built against another major version: it returns
`wuffs_base__error__bad_wuffs_version` for the `WUFFS_VERSION` it is given. -/
def demoSkewCEnv : CEnv :=
  { demoCEnv with callee := fun _ m => (.badWuffsVersion, m) }

/-- The private struct `state` of the package `demo`, which is not classy. -/
def demoState : Struct :=
  { qid := (0, 30), isPublic := false, classy := false, fields := [] }

/-- The field `state` of type `state`. -/
def demoStateField : Field := { name := 30, xType := .leaf 0 (0, 30) }

/-- The public classy struct `decoder` of the package `demo` with a field
whose type is the struct `state`. -/
def demoHolder : Struct :=
  { qid := (0, 20), isPublic := true, classy := true, fields := [demoStateField] }

/-- The receiver of the package `demo` with the structs `state` and
`decoder`, after `generate` has filled the struct list and the struct map. -/
def demoHolderGen : gen :=
  { demoGen with
    files := [[.struct demoState, .struct demoHolder]]
    structList := [demoState, demoHolder]
    structMap := [((0, 30), demoState), ((0, 20), demoHolder)] }

/-! ## The wording of the specification for templates -/

/-- Wording of the specification: the lines of a template, each one with its
newline; the last line has none when the template does not end in one. -/
def splitLines : Bytes → List Bytes
  | [] => []
  | c :: rest =>
    if c = 10 then [c] :: splitLines rest
    else
      match splitLines rest with
      | [] => [[c]]
      | l :: ls => (c :: l) :: ls

/-- The first line of a template and what remains of it: the values of `s`
and `remaining` after the first statement of the loop of
`expandBangBangInsert`. -/
def cutLine (s0 : Bytes) : Bytes × Bytes :=
  match indexByte s0 10 with
  | some i => (s0.take (i + 1), s0.drop (i + 1))
  | none => (s0, [])

/-- Wording of the specification: a template is expanded line by line; a
line that does not begin with `// !! INSERT ` is copied, a line that does is
replaced by what the function of the map for this line writes, and a line
that is no key of the map is an error. -/
def expandLines (m : GoMap Bytes (buffer → Outcome buffer)) : List Bytes → buffer → Outcome buffer
  | [], b => .ok b
  | l :: ls, b =>
    if !hasPrefix l (ascii "// !! INSERT ") then expandLines m ls (b ++ l)
    else
      match m.get l with
      | none => .error (.unrecognizedLine l (sortStrings (m.map Prod.fst))) b
      | some f => (f b).andThen (expandLines m ls)

/-- A template of two `INSERT` lines. -/
def demoTemplate : Bytes := ascii "// !! INSERT a.\n// !! INSERT b.\n"

/-- A map that knows the first line of `demoTemplate` only; its function
returns an error. -/
def demoFailingMap : GoMap Bytes (buffer → Outcome buffer) :=
  [(ascii "// !! INSERT a.\n", fun b => .error (.external 1) b)]

/-! ## The wording of the specification for the status lines -/

/-- Wording of the specification: the declaration line of a status in the
header. -/
def statusDeclarationSpec (z : status) : Bytes :=
  ascii "extern const char* " ++ z.cName ++ ascii ";\n"

/-- Wording of the specification: the definition line of a status in the
implementation. -/
def statusDefinitionSpec (pkgName : Bytes) (z : status) : Bytes :=
  ascii "const char* " ++ z.cName ++ ascii " = \"" ++ z.msg.take 1 ++ pkgName ++ ascii ": " ++
    z.msg.drop 1 ++ ascii "\";\n"

/-! ## Theorems -/

theorem firstInfo_some {b0 sz lo hi : Nat} (h : firstInfo b0 = some (sz, lo, hi)) :
    128 ≤ lo ∧ 194 ≤ b0 ∧ (sz = 2 ∨ sz = 3 ∨ sz = 4) ∧
    (sz = 2 → 2 ≤ b0 % 32) ∧
    (sz = 3 → 1 ≤ b0 % 16 ∨ 160 ≤ lo) ∧ (sz = 4 → 1 ≤ b0 % 8 ∨ 144 ≤ lo) ∧ hi ≤ 191 := by
  unfold firstInfo at h
  split_ifs at h <;> simp only [Option.some.injEq, Prod.mk.injEq] at h <;>
    (obtain ⟨rfl, rfl, rfl⟩ := h; omega)

theorem decodeRune_cases (b0 : Nat) (rest : Bytes) :
    (b0 < 128 ∧ decodeRune (b0 :: rest) = (b0, 1)) ∨
    (128 ≤ b0 ∧ 128 ≤ (decodeRune (b0 :: rest)).1 ∧ 1 ≤ (decodeRune (b0 :: rest)).2 ∧
      (decodeRune (b0 :: rest)).2 ≤ rest.length + 1 ∧
      ∀ b ∈ (b0 :: rest).take (decodeRune (b0 :: rest)).2, 128 ≤ b) := by
  by_cases h0 : b0 < 128
  · left; simp [decodeRune, h0]
  · right
    refine ⟨by omega, ?_⟩
    simp only [decodeRune, h0, if_false]
    cases hf : firstInfo b0 with
    | none => simp [RuneError]; omega
    | some t =>
      obtain ⟨sz, lo, hi⟩ := t
      have hs := firstInfo_some hf
      simp only
      rcases rest with _ | ⟨b1, rest1⟩
      · simp only [List.length_nil]
        split_ifs <;> simp [RuneError] <;> omega
      · by_cases h1 : rest1.length + 1 + 1 < sz
        · simp [h1, RuneError]; omega
        · by_cases h2 : b1 < lo ∨ hi < b1
          · simp [h1, h2, RuneError]; omega
          · by_cases h3 : sz ≤ 2
            · simp only [List.length_cons, h1, h2, h3, if_true, if_false]
              simp
              omega
            · rcases rest1 with _ | ⟨b2, rest2⟩ <;> simp only [List.length_cons, List.length_nil] at h1
              · simp only [List.length_cons, h1, h2, h3, if_true, if_false]
                simp [RuneError]; omega
              · by_cases h4 : b2 < 128 ∨ 191 < b2
                · simp only [List.length_cons, h1, h2, h3, h4, if_true, if_false]
                  simp [RuneError]; omega
                · by_cases h5 : sz ≤ 3
                  · simp only [List.length_cons, h1, h2, h3, h4, h5, if_true, if_false]
                    simp
                    omega
                  · rcases rest2 with _ | ⟨b3, rest3⟩ <;> simp only [List.length_cons, List.length_nil] at h1
                    · simp only [List.length_cons, h1, h2, h3, h4, h5, if_true, if_false]
                      simp [RuneError]; omega
                    · by_cases h6 : b3 < 128 ∨ 191 < b3
                      · simp only [List.length_cons, h1, h2, h3, h4, h5, h6, if_true, if_false]
                        simp [RuneError]; omega
                      · simp only [List.length_cons, h1, h2, h3, h4, h5, h6, if_true, if_false]
                        simp
                        omega

theorem cNameStep_of_not_alnum (st : Bytes × Bool) {r : Nat} (h : isAlnum r = false) :
    cNameStep st r = cNameOther st := by
  simp only [isAlnum, Bool.or_eq_false_iff, Bool.and_eq_false_iff, decide_eq_false_iff_not] at h
  unfold cNameStep cNameOther
  rw [if_neg (by omega), if_neg (by omega)]

theorem isAlnum_of_ge {r : Nat} (h : 128 ≤ r) : isAlnum r = false := by
  simp only [isAlnum, Bool.or_eq_false_iff, Bool.and_eq_false_iff, decide_eq_false_iff_not]
  omega

theorem cNameOther_idem (st : Bytes × Bool) : cNameOther (cNameOther st) = cNameOther st := by
  unfold cNameOther
  cases h : st.2 <;> simp [h]

theorem foldl_cNameStep_high (l : Bytes) (h : ∀ b ∈ l, 128 ≤ b) (st : Bytes × Bool) :
    l.foldl cNameStep (cNameOther st) = cNameOther st := by
  induction l with
  | nil => rfl
  | cons b l ih =>
    rw [List.foldl_cons, cNameStep_of_not_alnum _ (isAlnum_of_ge (h b (List.mem_cons_self _ _))),
      cNameOther_idem]
    exact ih (fun c hc => h c (List.mem_cons_of_mem _ hc))

theorem foldl_runesAux (fuel : Nat) : ∀ (s : Bytes), s.length ≤ fuel → ∀ st : Bytes × Bool,
    (runesAux fuel s).foldl cNameStep st = s.foldl cNameStep st := by
  induction fuel with
  | zero =>
    intro s hs st
    have : s = [] := List.length_eq_zero.mp (Nat.le_zero.mp hs)
    subst this; rfl
  | succ fuel ih =>
    intro s hs st
    rcases s with _ | ⟨b0, rest⟩
    · rfl
    · simp only [runesAux, List.foldl_cons]
      rcases decodeRune_cases b0 rest with ⟨_, hd⟩ | ⟨_, hr, hw1, hw2, hall⟩
      · rw [hd]
        simp only [List.drop_succ_cons, List.drop_zero]
        exact ih rest (by simpa using hs) _
      · rw [ih _ (by simp only [List.length_drop, List.length_cons] at hs ⊢; omega)]
        obtain ⟨w, hw⟩ : ∃ w, (decodeRune (b0 :: rest)).2 = w + 1 := ⟨_, (Nat.succ_pred_eq_of_pos hw1).symm⟩
        rw [hw] at hall ⊢
        simp only [List.drop_succ_cons, List.take_succ_cons, List.mem_cons, forall_eq_or_imp] at hall ⊢
        conv_rhs => rw [← List.take_append_drop w rest, List.foldl_append]
        rw [cNameStep_of_not_alnum _ (isAlnum_of_ge hr), cNameStep_of_not_alnum _ (isAlnum_of_ge hall.1),
          foldl_cNameStep_high _ hall.2]

theorem cNameLoop_eq_foldl (name pkgPrefix : Bytes) :
    cNameLoop name pkgPrefix = name.foldl cNameStep (pkgPrefix, true) :=
  foldl_runesAux _ _ (Nat.le_refl _) _

theorem bodyInv_init (p : Bytes) : BodyInv p (p, true) [] :=
  ⟨by simp, by simp, by simp, List.chain'_nil, by simp⟩

theorem bodyInv_push {p : Bytes} {st : Bytes × Bool} {body : Bytes} (h : BodyInv p st body)
    (c : Nat) (hc : isBodyByte c = true) (hne : c ≠ 95) :
    BodyInv p (st.1 ++ [c], false) (body ++ [c]) := by
  refine ⟨by simp [h.eq], ?_, ?_, ?_, ?_⟩
  · intro x hx
    rcases List.mem_append.mp hx with hx | hx
    · exact h.chars x hx
    · simp only [List.mem_singleton] at hx; subst hx; exact hc
  · rcases body with _ | ⟨a, l⟩
    · simpa using hne
    · simpa using h.head
  · refine List.chain'_append.mpr ⟨h.chain, List.chain'_singleton _, ?_⟩
    intro x _ y hy
    simp only [List.head?_cons, Option.mem_def, Option.some.injEq] at hy
    subst hy
    exact fun hxy => hne hxy.2
  · simp [hne]

theorem bodyInv_step {p : Bytes} {st : Bytes × Bool} {body : Bytes} (h : BodyInv p st body)
    (r : Nat) : ∃ body', BodyInv p (cNameStep st r) body' ∧
      (body ≠ [] → body' ≠ []) ∧ (isAlnum r = true → body' ≠ []) := by
  unfold cNameStep
  split_ifs with h1 h2 h3
  · exact ⟨_, bodyInv_push h _ (by simp only [isBodyByte, Bool.or_eq_true, Bool.and_eq_true,
      decide_eq_true_eq, beq_iff_eq]; omega) (by omega), by simp, by simp⟩
  · exact ⟨_, bodyInv_push h _ (by simp only [isBodyByte, Bool.or_eq_true, Bool.and_eq_true,
      decide_eq_true_eq, beq_iff_eq]; omega) (by omega), by simp, by simp⟩
  · have hf : st.2 = false := by simpa using h3
    have hb : ¬ (body = [] ∨ body.getLast? = some 95) := by
      rw [← h.flag, hf]; simp
    push_neg at hb
    refine ⟨body ++ [95], ⟨by simp [h.eq], ?_, ?_, ?_, by simp⟩, by simp, by simp⟩
    · intro x hx
      rcases List.mem_append.mp hx with hx | hx
      · exact h.chars x hx
      · simp only [List.mem_singleton] at hx; subst hx; rfl
    · rcases body with _ | ⟨a, l⟩
      · exact absurd rfl hb.1
      · simpa using h.head
    · refine List.chain'_append.mpr ⟨h.chain, List.chain'_singleton _, ?_⟩
      intro x hx y _ hxy
      exact hb.2 (by rw [Option.mem_def.mp hx, hxy.1])
  · refine ⟨body, h, id, ?_⟩
    intro ha
    simp only [isAlnum, Bool.or_eq_true, Bool.and_eq_true, decide_eq_true_eq] at ha
    omega

theorem bodyInv_foldl {p : Bytes} (l : Bytes) : ∀ {st : Bytes × Bool} {body : Bytes},
    BodyInv p st body → ∃ body', BodyInv p (l.foldl cNameStep st) body' ∧
      ((body ≠ [] ∨ ∃ b ∈ l, isAlnum b = true) → body' ≠ []) := by
  induction l with
  | nil =>
    intro st body h
    exact ⟨body, h, fun hb => hb.elim id (fun ⟨_, hm, _⟩ => absurd hm (List.not_mem_nil _))⟩
  | cons r l ih =>
    intro st body h
    obtain ⟨b1, h1, hne1, hal1⟩ := bodyInv_step h r
    obtain ⟨b2, h2, hne2⟩ := ih h1
    refine ⟨b2, h2, fun hb => hne2 ?_⟩
    rcases hb with hb | ⟨b, hm, hb⟩
    · exact Or.inl (hne1 hb)
    · rcases List.mem_cons.mp hm with rfl | hm
      · exact Or.inl (hal1 hb)
      · exact Or.inr ⟨b, hm, hb⟩

theorem runesAux_fuel (fuel : Nat) : ∀ (s : Bytes), s.length ≤ fuel →
    runesAux fuel s = runesAux s.length s := by
  induction fuel using Nat.strong_induction_on with
  | _ fuel ih =>
    intro s hs
    rcases s with _ | ⟨b0, rest⟩
    · cases fuel <;> rfl
    · obtain ⟨f, rfl⟩ : ∃ f, fuel = f + 1 := ⟨fuel - 1, by simp at hs; omega⟩
      simp only [runesAux, List.length_cons]
      have hw : 1 ≤ (decodeRune (b0 :: rest)).2 := by
        rcases decodeRune_cases b0 rest with ⟨_, hd⟩ | ⟨_, _, hw1, _, _⟩
        · rw [hd]
        · exact hw1
      have hlen : ((b0 :: rest).drop (decodeRune (b0 :: rest)).2).length ≤ rest.length := by
        simp only [List.length_drop, List.length_cons]; omega
      have e1 := ih f (Nat.lt_succ_self f) _ (show ((b0 :: rest).drop (decodeRune (b0 :: rest)).2).length ≤ f by
        simp only [List.length_cons] at hs; omega)
      have e2 := ih rest.length (by simp only [List.length_cons] at hs; omega) _ hlen
      exact congrArg _ (e1.trans e2.symm)

/-- C2. For a name with at least one ASCII letter or digit, `cName(name, p)`
is `p` followed by a non-empty body of lowercase letters, digits and
underscores that neither begins nor ends with an underscore and has no two
underscores in a row. -/
theorem cName_body (name p : Bytes) (h : ∃ b ∈ name, isAlnum b = true) :
    ∃ body, cName name p = some (p ++ body) ∧ body ≠ [] ∧
      (∀ c ∈ body, isBodyByte c = true) ∧
      body.head? ≠ some 95 ∧ body.getLast? ≠ some 95 ∧
      ¬ (ascii "__" <:+: body) := by
  obtain ⟨body, hinv, hne⟩ := bodyInv_foldl (p := p) name (bodyInv_init p)
  have hne : body ≠ [] := hne (Or.inr h)
  have hloop : cNameLoop name p = name.foldl cNameStep (p, true) := cNameLoop_eq_foldl name p
  have hchain : ∀ l : Bytes, l.Chain' (fun a b => ¬ (a = 95 ∧ b = 95)) → ¬ (ascii "__" <:+: l) := by
    rintro l hl ⟨l1, l2, rfl⟩
    have h1 := (List.chain'_append.mp hl).1
    have h2 := (List.chain'_append.mp h1).2.1
    simp [ascii] at h2
  cases hflag : (List.foldl cNameStep (p, true) name).2
  · -- the last rune was kept: the body does not end in an underscore
    have hlast : ¬ (body = [] ∨ body.getLast? = some 95) := by
      rw [← hinv.flag, hflag]; simp
    push_neg at hlast
    refine ⟨body, ?_, hne, hinv.chars, hinv.head, hlast.2, hchain _ hinv.chain⟩
    simp only [cName, hloop, hflag]
    simp [hinv.eq]
  · -- the body ends in a manufactured underscore, which is cut off
    have hlast : body.getLast? = some 95 := by
      rcases hinv.flag.mp hflag with h0 | h1
      · exact absurd h0 hne
      · exact h1
    obtain ⟨body', rfl⟩ : ∃ body', body = body' ++ [95] := by
      rcases List.eq_nil_or_concat body with h0 | ⟨l, c, rfl⟩
      · exact absurd h0 hne
      · refine ⟨l, ?_⟩
        simp only [List.concat_eq_append] at hlast ⊢
        simp at hlast
        rw [hlast]
    have hc := List.chain'_append.mp hinv.chain
    have hb' : body' ≠ [] := by
      rintro rfl
      exact hinv.head (by simp)
    have hlast' : body'.getLast? ≠ some 95 := by
      intro h95
      exact hc.2.2 95 (by simpa using h95) 95 (by simp) ⟨rfl, rfl⟩
    refine ⟨body', ?_, hb', fun c hc' => hinv.chars c (List.mem_append_left _ hc'), ?_, hlast',
      hchain _ hc.1⟩
    · have hlen : (List.foldl cNameStep (p, true) name).1.length ≠ 0 := by
        rw [hinv.eq]; simp
      simp only [cName, hloop, hflag, if_true, hlen, if_false]
      rw [hinv.eq, ← List.append_assoc]
      simp only [List.length_append, List.length_singleton, Nat.add_sub_cancel]
      rw [← List.length_append, List.take_left]
    · rcases body' with _ | ⟨a, l⟩
      · exact absurd rfl hb'
      · simpa using hinv.head

/-- A run of C2: the name `?bad  Argument!` with the prefix `p__`. -/
theorem cName_body_witness :
    (∃ b ∈ ascii "?bad  Argument!", isAlnum b = true) ∧
    ∃ body, cName (ascii "?bad  Argument!") (ascii "p__") = some (ascii "p__" ++ body) ∧ body ≠ [] ∧
      (∀ c ∈ body, isBodyByte c = true) ∧
      body.head? ≠ some 95 ∧ body.getLast? ≠ some 95 ∧
      ¬ (ascii "__" <:+: body) :=
  ⟨by decide, cName_body _ _ (by decide)⟩

/-- C1 (failing input). With the empty prefix that `gatherStatuses` passes and
the one-byte name `?`, the slice is still empty when the trailing underscore
is trimmed: `s[:len(s)-1]` is out of range and `cName` panics. -/
theorem cName_marker_only_panics : cName (ascii "?") (ascii "") = none := by decide

/-- C3 (failing input). For the name `_` the trim removes the last byte of
the prefix: `cName("_", "wuffs_jpeg__")` is `wuffs_jpeg_`, which does not
begin with the prefix. -/
theorem cName_cuts_prefix :
    cName (ascii "_") (ascii "wuffs_jpeg__") = some (ascii "wuffs_jpeg_") ∧
    ¬ (ascii "wuffs_jpeg__" <+: ascii "wuffs_jpeg_") := by
  constructor
  · decide
  · decide

theorem foldl_cNameStep_no_alnum (name p : Bytes) (h : ∀ b ∈ name, isAlnum b = false) :
    name.foldl cNameStep (p, true) = (p, true) := by
  induction name with
  | nil => rfl
  | cons b rest ih =>
    rw [List.foldl_cons, cNameStep_of_not_alnum _ (h b (List.mem_cons_self _ _))]
    simp only [cNameOther, Bool.not_true, Bool.false_eq_true, if_false]
    exact ih (fun c hc => h c (List.mem_cons_of_mem _ hc))

theorem cName_of_no_alnum (name p : Bytes) (h : ∀ b ∈ name, isAlnum b = false) :
    cName name p = if p.length = 0 then none else some (p.take (p.length - 1)) := by
  simp only [cName, cNameLoop_eq_foldl, foldl_cNameStep_no_alnum name p h, if_true]

/-- C4. Exactly one of the three status classes holds of a message: error iff
it starts with `?`, suspension iff it starts with `$`, warning otherwise
(the empty message included); the class depends on the first byte only. -/
theorem statusMsg_class (msg : Bytes) :
    (statusMsgIsError msg = true ↔ msg.head? = some 63) ∧
    (statusMsgIsSuspension msg = true ↔ msg.head? = some 36) ∧
    (statusMsgIsWarning msg = true ↔ (msg = [] ∨ (msg.head? ≠ some 36 ∧ msg.head? ≠ some 63))) ∧
    ((statusMsgIsError msg = true ∧ statusMsgIsSuspension msg = false ∧ statusMsgIsWarning msg = false) ∨
     (statusMsgIsError msg = false ∧ statusMsgIsSuspension msg = true ∧ statusMsgIsWarning msg = false) ∨
     (statusMsgIsError msg = false ∧ statusMsgIsSuspension msg = false ∧ statusMsgIsWarning msg = true)) ∧
    (∀ msg' : Bytes, msg.head? = msg'.head? →
      statusMsgIsError msg = statusMsgIsError msg' ∧
      statusMsgIsSuspension msg = statusMsgIsSuspension msg' ∧
      statusMsgIsWarning msg = statusMsgIsWarning msg') := by
  refine ⟨?_, ?_, ?_, ?_, ?_⟩
  · cases msg <;> simp [statusMsgIsError]
  · cases msg <;> simp [statusMsgIsSuspension]
  · cases msg <;> simp [statusMsgIsWarning]
  · rcases msg with _ | ⟨c, l⟩
    · simp [statusMsgIsError, statusMsgIsSuspension, statusMsgIsWarning]
    · simp only [statusMsgIsError, statusMsgIsSuspension, statusMsgIsWarning]
      by_cases h1 : c = 63
      · subst h1; simp
      · by_cases h2 : c = 36
        · subst h2; simp
        · simp [h1, h2]
  · intro msg' h
    rcases msg with _ | ⟨c, l⟩ <;> rcases msg' with _ | ⟨c', l'⟩ <;>
      simp [statusMsgIsError, statusMsgIsSuspension, statusMsgIsWarning] at h ⊢
    subst h
    simp

/-! ### Statuses -/

theorem goMap_get_set_self {κ α : Type} [DecidableEq κ] (m : GoMap κ α) (k : κ) (v : α) :
    (m.set k v).get k = some v := by
  simp [GoMap.set, GoMap.get]

theorem goMap_get_filter_ne {κ α : Type} [DecidableEq κ] (m : GoMap κ α) (k q : κ) (h : q ≠ k) :
    GoMap.get (m.filter (fun e => decide (e.1 ≠ k))) q = GoMap.get m q := by
  induction m with
  | nil => rfl
  | cons e m ih =>
    obtain ⟨k', v⟩ := e
    simp only [ne_eq, decide_not] at ih ⊢
    by_cases hk : k' = k
    · subst hk
      have : k' ≠ q := fun h' => h h'.symm
      simp [List.filter, GoMap.get, this, ih]
    · by_cases hq : k' = q
      · subst hq
        simp [List.filter, GoMap.get, hk]
      · simp [List.filter, GoMap.get, hk, hq, ih]

theorem goMap_get_set_ne {κ α : Type} [DecidableEq κ] (m : GoMap κ α) (k q : κ) (v : α)
    (h : q ≠ k) : (m.set k v).get q = m.get q := by
  have hk : k ≠ q := fun h' => h h'.symm
  simp only [GoMap.set, GoMap.get, hk, if_false]
  exact goMap_get_filter_ne m k q h

/-- C5 (failing input). A status declared with the message `@end of data`, a
warning by `statusMsgIsWarning`, is stored by `gatherStatuses` under the name
`wuffs_demo__error__end_of_data`; the claimed class word and both emitters of
the base package say `warning`. -/
theorem gatherStatuses_warning_named_error :
    (gatherStatuses demoEnv { g := demoGen, b := [] } { qid := (0, 11), isPublic := true }).state?.map
        (fun s => s.g.statusList) =
      some [{ cName := ascii "wuffs_demo__error__end_of_data", msg := ascii "@end of data",
              isPublic := true }] ∧
    statusMsgIsWarning (ascii "@end of data") = true ∧
    classWordSpec (ascii "@end of data") = ascii "warning" ∧
    insertBaseStatusName [] (ascii "@end of data") =
      .ok (ascii "extern const char* wuffs_base__warning__end_of_data;\n") ∧
    insertBaseStatusString [] (ascii "@end of data") =
      .ok (ascii "const char* wuffs_base__warning__end_of_data = \"@base: end of data\";\n") := by
  refine ⟨by decide, by decide, by decide, by decide, by decide⟩

theorem gatherStatuses_ok_eq (env : Env) (s s' : St) (n : Status)
    (h : gatherStatuses env s n = .ok s') :
    ∃ z : status,
      z.msg = (env.unescape (env.idStr n.qid.2)).1 ∧ z.isPublic = n.isPublic ∧
      s'.g.statusList = s.g.statusList ++ [z] ∧
      s'.g.statusMap.get n.qid = some z ∧
      (∀ q, q ≠ n.qid → s'.g.statusMap.get q = s.g.statusMap.get q) ∧
      s' = { s with g := { s.g with statusList := s'.g.statusList, statusMap := s'.g.statusMap } } := by
  unfold gatherStatuses at h
  simp only at h
  split_ifs at h
  rcases hmsg : (env.unescape (env.idStr n.qid.2)).1 with _ | ⟨m0, rest⟩
  · rw [hmsg] at h; simp at h
  · rw [hmsg] at h
    simp only at h
    cases hc : cName (m0 :: rest) (ascii "") with
    | none => rw [hc] at h; simp at h
    | some c =>
      rw [hc] at h
      simp only [Outcome.ok.injEq] at h
      subst h
      exact ⟨_, rfl, rfl, rfl, goMap_get_set_self _ _ _,
        fun q hq => goMap_get_set_ne _ _ _ _ hq, rfl⟩

theorem gatherStatuses_name (env : Env) (s s' : St) (n : Status)
    (h : gatherStatuses env s n = .ok s') :
    ∃ c, cName (env.unescape (env.idStr n.qid.2)).1 (ascii "") = some c ∧
      s'.g.statusList = s.g.statusList ++
        [{ cName := s.g.pkgPrefix ++
             (if (env.unescape (env.idStr n.qid.2)).1.head? = some 36 then ascii "suspension__"
              else ascii "error__") ++ c,
           msg := (env.unescape (env.idStr n.qid.2)).1, isPublic := n.isPublic }] := by
  unfold gatherStatuses at h
  simp only at h
  split_ifs at h
  rcases hmsg : (env.unescape (env.idStr n.qid.2)).1 with _ | ⟨m0, rest⟩
  · rw [hmsg] at h; simp at h
  · rw [hmsg] at h
    simp only at h
    cases hc : cName (m0 :: rest) (ascii "") with
    | none => rw [hc] at h; simp at h
    | some c =>
      rw [hc] at h
      simp only [Outcome.ok.injEq] at h
      subst h
      refine ⟨c, rfl, ?_⟩
      by_cases h36 : m0 = 36 <;> simp [h36]

/-- C6. `gatherStatuses` returns an error exactly when the raw message fails
to unescape or unescapes to the empty string; an error leaves the receiver
and the buffer as they were; a success appends exactly one entry to
`statusList`, stores the same entry in `statusMap` under the declaration's
qualified name and changes nothing else. -/
theorem gatherStatuses_error_iff (env : Env) (s : St) (n : Status) :
    ((gatherStatuses env s n).isError = true ↔
      ((env.unescape (env.idStr n.qid.2)).2 = false ∨ (env.unescape (env.idStr n.qid.2)).1 = [])) ∧
    (∀ e s', gatherStatuses env s n = .error e s' →
      s' = s ∧ e = .errorf "bad status message %q" [env.idStr n.qid.2]) ∧
    (∀ s', gatherStatuses env s n = .ok s' →
      ∃ z : status,
        z.msg = (env.unescape (env.idStr n.qid.2)).1 ∧ z.isPublic = n.isPublic ∧
        s'.g.statusList = s.g.statusList ++ [z] ∧
        s'.g.statusMap.get n.qid = some z ∧
        (∀ q, q ≠ n.qid → s'.g.statusMap.get q = s.g.statusMap.get q) ∧
        s' = { s with g := { s.g with statusList := s'.g.statusList, statusMap := s'.g.statusMap } }) := by
  unfold gatherStatuses
  cases hok : (env.unescape (env.idStr n.qid.2)).2 <;>
    rcases hmsg : (env.unescape (env.idStr n.qid.2)).1 with _ | ⟨m0, rest⟩ <;>
    simp only [hok, hmsg, Bool.not_false, Bool.not_true, Bool.true_or, Bool.false_or, if_true,
      decide_True, decide_False, if_false, List.cons_ne_nil, Outcome.isError, reduceCtorEq,
      false_or, or_false, or_true, true_or, Bool.false_eq_true, false_iff, true_iff, iff_true,
      not_false_eq_true, and_true, true_and, imp_false, not_true_eq_false, forall_const,
      Outcome.error.injEq, Outcome.ok.injEq, IsEmpty.forall_iff, implies_true]
  · rintro e s' ⟨he, hs⟩; exact ⟨hs.symm, he.symm⟩
  · rintro e s' ⟨he, hs⟩; exact ⟨hs.symm, he.symm⟩
  · rintro e s' ⟨he, hs⟩; exact ⟨hs.symm, he.symm⟩
  · cases hc : cName (m0 :: rest) (ascii "") with
    | none => simp [Outcome.isError]
    | some c =>
      simp only [Outcome.isError, reduceCtorEq, Bool.false_eq_true, not_false_eq_true,
        IsEmpty.forall_iff, implies_true, Outcome.ok.injEq, true_and]
      intro s' hs'
      subst hs'
      refine ⟨_, rfl, rfl, rfl, goMap_get_set_self _ _ _, fun q hq => goMap_get_set_ne _ _ _ _ hq, rfl⟩

/-- C7 (counterexample). For the status that `gatherStatuses` stores for the
message `@end of data`, `genImpl` emits the literal `@demo: end of data`: the
first byte, which is neither `?` nor `$`, is taken off the message and put
before the package name.  The literal of the claim takes off a `?` or a `$`
only and keeps this message whole. -/
theorem genImplStatus_unmarked_message :
    genImplStatus (ascii "demo") []
        { cName := ascii "wuffs_demo__error__end_of_data", msg := ascii "@end of data", isPublic := true } =
      ascii "const char* wuffs_demo__error__end_of_data = \"@demo: end of data\";\n" ∧
    statusLiteralSpec (ascii "demo") (ascii "@end of data") = ascii "demo: @end of data" ∧
    genImplStatus (ascii "demo") []
        { cName := ascii "wuffs_demo__error__end_of_data", msg := ascii "@end of data", isPublic := true } ≠
      ascii "const char* wuffs_demo__error__end_of_data = \"" ++
        statusLiteralSpec (ascii "demo") (ascii "@end of data") ++ ascii "\";\n" := by
  refine ⟨by decide, by decide, by decide⟩

theorem foldl_genImplStatus (pkgName : Bytes) (l : List status) (b : buffer) :
    l.foldl (genImplStatus pkgName) b = b ++ (l.map (genImplStatus pkgName [])).flatten := by
  induction l generalizing b with
  | nil => simp
  | cons z l ih =>
    rw [List.foldl_cons, ih, List.map_cons, List.flatten_cons, ← List.append_assoc]
    congr 1
    unfold genImplStatus
    split_ifs <;> simp

/-- C7 (amended). For every status of `statusList`, `genImpl` emits nothing
when the message is empty and otherwise one line whose string literal is the
first byte of the message, the package name, `: ` and the message after its
first byte; for a message that starts with `?` or `$` this is the literal
`<class-marker><package-name>: <message-without-marker>`, and for
`?bad argument` in the package `pkg` it is `?pkg: bad argument`. -/
theorem genImplStatus_literal (pkgName : Bytes) (l : List status) (b : buffer) (z : status) :
    l.foldl (genImplStatus pkgName) b = b ++ (l.map (genImplStatus pkgName [])).flatten ∧
    (z.msg = [] → genImplStatus pkgName [] z = []) ∧
    (∀ c rest, z.msg = c :: rest →
      genImplStatus pkgName [] z =
        ascii "const char* " ++ z.cName ++ ascii " = \"" ++ ([c] ++ pkgName ++ ascii ": " ++ rest) ++
          ascii "\";\n") ∧
    (statusMsgIsError z.msg = true ∨ statusMsgIsSuspension z.msg = true →
      genImplStatus pkgName [] z =
        ascii "const char* " ++ z.cName ++ ascii " = \"" ++ statusLiteralSpec pkgName z.msg ++
          ascii "\";\n") ∧
    statusLiteralSpec (ascii "pkg") (ascii "?bad argument") = ascii "?pkg: bad argument" := by
  refine ⟨foldl_genImplStatus pkgName l b, ?_, ?_, ?_, by decide⟩
  · intro h
    simp [genImplStatus, h]
  · intro c rest h
    simp [genImplStatus, h]
  · intro h
    rcases hm : z.msg with _ | ⟨c, rest⟩
    · simp [hm, statusMsgIsError, statusMsgIsSuspension] at h
    · have hc : c = 63 ∨ c = 36 := by
        simpa [hm, statusMsgIsError, statusMsgIsSuspension] using h
      simp [genImplStatus, hm, statusLiteralSpec, classMarker, withoutClassMarker, hc]

/-! ### Outcomes, loops and writers -/

theorem andThen_eq_ok {σ : Type} {o : Outcome σ} {k : σ → Outcome σ} {s' : σ} :
    o.andThen k = .ok s' ↔ ∃ s1, o = .ok s1 ∧ k s1 = .ok s' := by
  cases o <;> simp [Outcome.andThen]

theorem loop_append {σ α : Type} (body : σ → α → Outcome σ) (xs ys : List α) (s : σ) :
    loop body (xs ++ ys) s = (loop body xs s).andThen (loop body ys) := by
  induction xs generalizing s with
  | nil => rfl
  | cons x xs ih =>
    simp only [List.cons_append, loop]
    cases body s x <;> simp [Outcome.andThen, ih]

theorem loop_flatten {σ α : Type} (body : σ → α → Outcome σ) (xss : List (List α)) (s : σ) :
    loop (fun s xs => loop body xs s) xss s = loop body xss.flatten s := by
  induction xss generalizing s with
  | nil => rfl
  | cons xs xss ih =>
    simp only [List.flatten_cons, loop_append, loop]
    cases loop body xs s <;> simp [Outcome.andThen, ih]

theorem loop_invariant {σ α : Type} (body : σ → α → Outcome σ) (P : σ → Prop)
    (hbody : ∀ s x s', body s x = .ok s' → P s → P s') :
    ∀ (xs : List α) (s s' : σ), loop body xs s = .ok s' → P s → P s' := by
  intro xs
  induction xs with
  | nil =>
    intro s s' h hp
    simp only [loop, Outcome.ok.injEq] at h
    exact h ▸ hp
  | cons x xs ih =>
    intro s s' h hp
    simp only [loop] at h
    obtain ⟨s1, h1, h2⟩ := andThen_eq_ok.mp h
    exact ih s1 s' h2 (hbody s x s1 h1 hp)

theorem gatherStatuses_files (env : Env) (s : St) (n : Status) (s' : St)
    (h : gatherStatuses env s n = .ok s') : s'.g.files = s.g.files := by
  obtain ⟨z, _, _, _, _, _, hs⟩ := gatherStatuses_ok_eq env s s' n h
  rw [hs]

theorem forEachStatus_gather_files (env : Env) (s s' : St)
    (h : forEachStatus s .bothPubPri (gatherStatuses env) = .ok s') : s'.g.files = s.g.files := by
  unfold forEachStatus at h
  rw [loop_flatten] at h
  refine loop_invariant _ (fun t => t.g.files = s.g.files) ?_ _ s s' h rfl
  intro t tld t' ht hp
  cases tld with
  | status n =>
    simp only at ht
    split_ifs at ht
    · simp only [Outcome.ok.injEq] at ht; rw [← ht]; exact hp
    · rw [gatherStatuses_files env t n t' ht]; exact hp
  | _ => simp only [Outcome.ok.injEq] at ht; rw [← ht]; exact hp

/-- C8. Whenever `generate` returns a non-nil error the byte slice it returns
is nil; and when the statuses are gathered and the struct sort reports a
cycle, `generate` returns the error `cyclical struct definitions` and no
bytes. -/
theorem generate_error_no_bytes (env : Env) (g : gen) :
    (∀ bytes e, generate env g = .ret bytes (some e) → bytes = none) ∧
    (∀ s, forEachStatus { g := { g with statusMap := [] }, b := [] } .bothPubPri
          (gatherStatuses env) = .ok s →
      (env.topologicalSortStructs (unsortedStructs g.files)).2 = false →
      generate env g = .ret none (some (.errorf "cyclical struct definitions" []))) := by
  constructor
  · intro bytes e h
    unfold generate at h
    cases hg : generateSt env g <;> rw [hg] at h <;> simp at h
    exact h.1.symm
  · intro s hs hcyc
    have hfiles : s.g.files = g.files := forEachStatus_gather_files env _ s hs
    unfold generate generateSt
    simp only [hs, Outcome.andThen, hfiles, hcyc, Bool.not_false, if_true]

/-- A run of C8: the struct sort reports a cycle for the package whose two
structs embed each other, and `generate` returns the cycle error and no
bytes. -/
theorem generate_error_no_bytes_witness :
    generate demoCyclicEnv demoCyclicProgram =
      .ret none (some (.errorf "cyclical struct definitions" [])) :=
  (generate_error_no_bytes demoCyclicEnv demoCyclicProgram).2
    { g := { demoCyclicProgram with statusMap := [] }, b := [] } rfl rfl

theorem call_eq_ok {s s' : St} {w : Written} (h : s.call w = .ok s') :
    w.err = none ∧ s' = { s with b := s.b ++ w.text } := by
  unfold St.call at h
  cases he : w.err <;> rw [he] at h <;> simp at h
  exact ⟨rfl, h.symm⟩

theorem writtenOf_of_eq (w : St → Outcome St) (t : gen → Written)
    (h : ∀ s, w s = s.call (t s.g)) (g : gen) : writtenOf w g = t g := by
  unfold writtenOf
  rw [h]
  unfold St.call
  cases he : (t g).err with
  | none =>
    simp only [List.nil_append]
    cases htg : t g
    simp_all
  | some e =>
    simp only [List.nil_append]
    cases htg : t g
    simp_all

theorem isWriter_of_eq (w : St → Outcome St) (t : gen → Written)
    (h : ∀ s, w s = s.call (t s.g)) : IsWriter w := by
  intro s
  rw [writtenOf_of_eq w t h, h]

theorem isWriter_call (t : St → Written) (ht : ∀ s, t s = t { g := s.g, b := [] }) :
    IsWriter (fun s => s.call (t s)) :=
  isWriter_of_eq _ (fun g => t { g := g, b := [] }) (fun s => by simp only; rw [ht s])

theorem isWriter_writes (t : St → Bytes) (ht : ∀ s, t s = t { g := s.g, b := [] }) :
    IsWriter (fun s => s.writes (t s)) :=
  isWriter_of_eq _ (fun g => { text := t { g := g, b := [] }, err := none })
    (fun s => by simp only [St.writes, St.call, buffer.writes]; rw [ht s])

theorem isWriter_ok : IsWriter (fun s => Outcome.ok s) :=
  isWriter_of_eq _ (fun _ => { text := [], err := none }) (fun s => by simp [St.call])

theorem isWriter_seq {w1 w2 : St → Outcome St} (h1 : IsWriter w1) (h2 : IsWriter w2) :
    IsWriter (fun s => (w1 s).andThen w2) := by
  refine isWriter_of_eq _ (fun g => (writtenOf w1 g).seq (writtenOf w2 g)) ?_
  intro s
  simp only
  rw [h1 s]
  unfold St.call Written.seq
  cases he1 : (writtenOf w1 s.g).err with
  | none =>
    simp only [Outcome.andThen]
    rw [h2]
    unfold St.call
    cases he2 : (writtenOf w2 s.g).err <;> simp
  | some e => simp [Outcome.andThen]

theorem isWriter_ite (c : St → Bool) (hc : ∀ s, c s = c { g := s.g, b := [] })
    {w1 w2 : St → Outcome St} (h1 : IsWriter w1) (h2 : IsWriter w2) :
    IsWriter (fun s => if c s = true then w1 s else w2 s) := by
  refine isWriter_of_eq _ (fun g => if c { g := g, b := [] } = true then writtenOf w1 g else writtenOf w2 g) ?_
  intro s
  simp only
  rw [← hc s]
  split_ifs
  · exact h1 s
  · exact h2 s

theorem isWriter_iteProp (c : St → Prop) [∀ s, Decidable (c s)]
    (hc : ∀ s, c s = c { g := s.g, b := [] })
    {w1 w2 : St → Outcome St} (h1 : IsWriter w1) (h2 : IsWriter w2) :
    IsWriter (fun s => if c s then w1 s else w2 s) := by
  classical
  refine isWriter_of_eq _ (fun g => if c { g := g, b := [] } then writtenOf w1 g else writtenOf w2 g) ?_
  intro s
  simp only
  by_cases h : c s
  · have h' : c { g := s.g, b := [] } := (hc s) ▸ h
    rw [if_pos h, if_pos h']; exact h1 s
  · have h' : ¬ c { g := s.g, b := [] } := (hc s) ▸ h
    rw [if_neg h, if_neg h']; exact h2 s

theorem isWriter_gdep (w : gen → St → Outcome St) (h : ∀ g0, IsWriter (w g0)) :
    IsWriter (fun s => w s.g s) :=
  isWriter_of_eq _ (fun g => writtenOf (w g) g) (fun s => h s.g s)

theorem isWriter_loop {α : Type} (body : St → α → Outcome St)
    (h : ∀ x, IsWriter (fun s => body s x)) : ∀ xs : List α, IsWriter (loop body xs) := by
  intro xs
  induction xs with
  | nil => exact isWriter_ok
  | cons x xs ih => exact isWriter_seq (h x) ih

theorem isWriter_eq_ok {w : St → Outcome St} (hw : IsWriter w) {s s' : St} (h : w s = .ok s') :
    s' = { s with b := s.b ++ (writtenOf w s.g).text } := by
  rw [hw s] at h
  exact (call_eq_ok h).2

theorem loop_writer_text {α : Type} (body : St → α → Outcome St)
    (hb : ∀ x, IsWriter (fun s => body s x)) :
    ∀ (xs : List α) (s s' : St), loop body xs s = .ok s' →
      s' = { s with b := s.b ++ (xs.map fun x => (writtenOf (fun s => body s x) s.g).text).flatten } := by
  intro xs
  induction xs with
  | nil =>
    intro s s' h
    simp only [loop, Outcome.ok.injEq] at h
    simp [← h]
  | cons x xs ih =>
    intro s s' h
    simp only [loop] at h
    obtain ⟨s1, h1, h2⟩ := andThen_eq_ok.mp h
    have e1 := isWriter_eq_ok (hb x) h1
    have e2 := ih s1 s' h2
    rw [e2, e1]
    simp

/-! ### The writers of this file -/

theorem isWriter_writeStructField (env : Env) (o : Field) :
    IsWriter (fun s => writeStructField env s o) := by
  unfold writeStructField
  exact isWriter_seq (isWriter_call _ (by intro _; rfl)) (isWriter_writes _ (by intro _; rfl))

theorem isWriter_writeCoroState (env : Env) (o : Func) (k : funk) :
    IsWriter (writeCoroState env o k) := by
  unfold writeCoroState
  refine isWriter_seq (isWriter_writes _ (by intro _; rfl)) ?_
  refine isWriter_seq ?_ ?_
  · refine isWriter_iteProp (fun _ => k.coroSuspPoint ≠ 0) (by intro _; rfl) ?_ isWriter_ok
    exact isWriter_seq (isWriter_writes _ (by intro _; rfl)) (isWriter_call _ (by intro _; rfl))
  · refine isWriter_seq ?_ (isWriter_writes _ (by intro _; rfl))
    exact isWriter_ite (fun _ => k.usesScratch) (by intro _; rfl)
      (isWriter_writes _ (by intro _; rfl)) isWriter_ok

theorem isWriter_writeStructCoro (env : Env) (n : Struct) (tld : TopLevelDecl) :
    IsWriter (fun s => writeStructCoro env n s tld) := by
  cases tld with
  | func o =>
    simp only [writeStructCoro]
    by_cases h1 : (o.receiver ≠ n.qid || !o.coroutine) = true
    · simp only [h1, if_true]; exact isWriter_ok
    · simp only [h1, if_false]
      refine isWriter_gdep (fun g0 s =>
        if ((funkOf g0 o.qqid).coroSuspPoint = 0 && !(funkOf g0 o.qqid).usesScratch) = true then .ok s
        else writeCoroState env o (funkOf g0 o.qqid) s) ?_
      intro g0
      by_cases hc : ((funkOf g0 o.qqid).coroSuspPoint = 0 && !(funkOf g0 o.qqid).usesScratch) = true
      · simp only [hc, if_true]; exact isWriter_ok
      · simp only [hc, if_false]; exact isWriter_writeCoroState env o _
  | _ => exact isWriter_ok

theorem isWriter_writeCppPrototype (env : Env) (n : Struct) (tld : TopLevelDecl) :
    IsWriter (fun s => writeCppPrototype env n s tld) := by
  cases tld with
  | func f =>
    simp only [writeCppPrototype]
    by_cases h1 : (!(TopLevelDecl.func f).isPublic) = true
    · simp only [h1, if_true]; exact isWriter_ok
    · simp only [h1, if_false]
      by_cases h2 : f.qqid.2.1 ≠ n.qid.2
      · simp only [if_pos h2]; exact isWriter_ok
      · simp only [if_neg h2]
        exact isWriter_seq (isWriter_call _ (by intro _; rfl)) (isWriter_writes _ (by intro _; rfl))
  | _ => exact isWriter_ok

theorem isWriter_writeCppPrototypes (env : Env) (n : Struct) :
    IsWriter (fun s => writeCppPrototypes env s n) := by
  unfold writeCppPrototypes
  refine isWriter_seq (isWriter_writes _ (by intro _; rfl)) ?_
  refine isWriter_seq (isWriter_writes _ (by intro _; rfl)) ?_
  refine isWriter_seq ?_ (isWriter_writes _ (by intro _; rfl))
  refine isWriter_gdep (fun g0 s => loop (fun s file => loop (writeCppPrototype env n) file s) g0.files s) ?_
  intro g0
  exact isWriter_loop _ (fun file => isWriter_loop _ (isWriter_writeCppPrototype env n) file) _

theorem isWriter_writeStructHead (env : Env) (n : Struct) :
    IsWriter (fun s => writeStructHead env s n) := by
  unfold writeStructHead
  simp only
  refine isWriter_seq (isWriter_writes _ (by intro _; rfl)) ?_
  refine isWriter_seq (isWriter_writes _ (by intro _; rfl)) ?_
  refine isWriter_seq (isWriter_writes _ (by intro _; rfl)) ?_
  refine isWriter_seq (isWriter_writes _ (by intro _; rfl)) ?_
  refine isWriter_seq (isWriter_writes _ (by intro _; rfl)) ?_
  refine isWriter_seq (isWriter_writes _ (by intro _; rfl)) ?_
  refine isWriter_seq (isWriter_writes _ (by intro _; rfl)) ?_
  refine isWriter_seq (isWriter_writes _ (by intro _; rfl)) ?_
  refine isWriter_seq (isWriter_writes _ (by intro _; rfl)) ?_
  refine isWriter_seq ?_ (isWriter_loop _ (isWriter_writeStructField env) _)
  refine isWriter_ite (fun _ => n.classy) (by intro _; rfl) ?_ isWriter_ok
  exact isWriter_seq (isWriter_writes _ (by intro _; rfl)) (isWriter_writes _ (by intro _; rfl))

theorem isWriter_coroLoop (env : Env) (n : Struct) (files : List File) :
    IsWriter (loop (fun s file => loop (writeStructCoro env n) file s) files) :=
  isWriter_loop _ (fun file => isWriter_loop _ (isWriter_writeStructCoro env n) file) _

theorem isWriter_writeStructCoros (env : Env) (n : Struct) :
    IsWriter (fun s => writeStructCoros env s n) := by
  unfold writeStructCoros
  refine isWriter_ite (fun _ => n.classy) (by intro _; rfl) ?_ isWriter_ok
  refine isWriter_seq (isWriter_writes _ (by intro _; rfl)) ?_
  exact isWriter_gdep (fun g0 s => loop (fun s file => loop (writeStructCoro env n) file s) g0.files s)
    (fun g0 => isWriter_coroLoop env n g0.files)

theorem isWriter_writeStructTail (env : Env) (n : Struct) :
    IsWriter (fun s => writeStructTail env s n) := by
  unfold writeStructTail
  simp only
  refine isWriter_seq (isWriter_writes _ (by intro _; rfl)) ?_
  refine isWriter_seq ?_ (isWriter_writes _ (by intro _; rfl))
  exact isWriter_ite (fun _ => n.isPublic) (by intro _; rfl) (isWriter_writeCppPrototypes env n) isWriter_ok

theorem isWriter_writeStruct (env : Env) (n : Struct) :
    IsWriter (fun s => writeStruct env s n) := by
  unfold writeStruct
  exact isWriter_seq (isWriter_writeStructHead env n)
    (isWriter_seq (isWriter_writeStructCoros env n) (isWriter_writeStructTail env n))

/-! ### The coroutine states of a struct -/

theorem loop_writer_each_ok {α : Type} (body : St → α → Outcome St)
    (hb : ∀ x, IsWriter (fun s => body s x)) :
    ∀ (xs : List α) (s s' : St), loop body xs s = .ok s' →
      ∀ x ∈ xs, (writtenOf (fun s => body s x) s.g).err = none := by
  intro xs
  induction xs with
  | nil => intro s s' _ x hx; exact absurd hx (List.not_mem_nil _)
  | cons y ys ih =>
    intro s s' h x hx
    simp only [loop] at h
    obtain ⟨s1, h1, h2⟩ := andThen_eq_ok.mp h
    have e1 := isWriter_eq_ok (hb y) h1
    have hy : (writtenOf (fun s => body s y) s.g).err = none := by
      have := hb y s
      simp only at this
      rw [this] at h1
      exact (call_eq_ok h1).1
    rcases List.mem_cons.mp hx with rfl | hx'
    · exact hy
    · have := ih s1 s' h2 x hx'
      rw [e1] at this
      exact this

theorem coroText_eq_spec (env : Env) (g : gen) (n : Struct) (tld : TopLevelDecl)
    (hok : (writtenOf (fun s => writeStructCoro env n s tld) g).err = none) :
    coroText env g n tld = coroRecordSpec env g n tld := by
  cases tld with
  | func o =>
    unfold coroText coroRecordSpec
    unfold writtenOf writeStructCoro at *
    by_cases hr : o.receiver = n.qid <;> cases hco : o.coroutine <;>
      by_cases hcs : (funkOf g o.qqid).coroSuspPoint = 0 <;>
      cases hsc : (funkOf g o.qqid).usesScratch <;>
      cases hv : (env.writeVars g o.body true true).err <;>
      simp_all [writeCoroState, St.writes, St.call, Outcome.andThen, buffer.writes]
  | _ => rfl

theorem coroRecordSpec_ne_nil (env : Env) (g : gen) (n : Struct) (o : Func) :
    coroRecordSpec env g n (.func o) ≠ [] ↔
      (o.receiver = n.qid ∧ o.coroutine = true ∧
        ((funkOf g o.qqid).coroSuspPoint ≠ 0 ∨ (funkOf g o.qqid).usesScratch = true)) := by
  simp only [coroRecordSpec]
  by_cases h : o.receiver = n.qid ∧ o.coroutine = true ∧
      ((funkOf g o.qqid).coroSuspPoint ≠ 0 ∨ (funkOf g o.qqid).usesScratch = true)
  · simp [if_pos h, h, ascii]
  · simp [if_neg h, h]

set_option maxRecDepth 8000

theorem isWriter_ok_of_err_none {w : St → Outcome St} (hw : IsWriter w) (s : St)
    (h : (writtenOf w s.g).err = none) :
    w s = .ok { s with b := s.b ++ (writtenOf w s.g).text } := by
  rw [hw s]
  unfold St.call
  rw [h]

/-- C10 (counterexample). The public function `reset` of the public struct
`decoder` has no suspension point and uses no scratch, and yet the struct
that `writeStruct` writes is longer with it than without it: its C++
prototype stands in the struct. -/
theorem writeStruct_plain_function_adds_text :
    (funkOf (demoGenWith [.struct demoStruct, .func (demoFunc 23)]) (demoFunc 23).qqid).coroSuspPoint = 0 ∧
    (funkOf (demoGenWith [.struct demoStruct, .func (demoFunc 23)]) (demoFunc 23).qqid).usesScratch = false ∧
    structText demoEnv (demoGenWith [.struct demoStruct, .func (demoFunc 23)]) demoStruct ≠
      structText demoEnv (demoGenWith [.struct demoStruct]) demoStruct ∧
    (structText demoEnv (demoGenWith [.struct demoStruct, .func (demoFunc 23)]) demoStruct).length =
      (structText demoEnv (demoGenWith [.struct demoStruct]) demoStruct).length +
        (ascii "void sig();\n").length := by
  refine ⟨by decide, by decide, by decide, by decide⟩

/-- C10 (amended). When `writeStruct` returns `nil` for the struct `n`, what
it wrote is its head (up to the fields), the coroutine states and its tail
(from the end of `private_impl`).  The coroutine states are, for a classy
struct, a newline and one record per declaration of the files, in source
order: `struct { ... } c_<funcName>[1];` exactly for a function whose
receiver is `n`, that has the coroutine effect and whose metadata has
`coroSuspPoint != 0` or `usesScratch`, with `uint32_t coro_susp_point;` and
the variables exactly when `coroSuspPoint != 0` and `uint64_t scratch;`
exactly when `usesScratch`; any other declaration adds nothing to them, and a
struct that is not classy has none. -/
theorem writeStruct_coroutine_state (env : Env) (s s' : St) (n : Struct)
    (h : writeStruct env s n = .ok s') :
    s'.g = s.g ∧
    s'.b = s.b ++ (writtenOf (fun s => writeStructHead env s n) s.g).text ++
        coroStatesSpec env s.g n ++
        (writtenOf (fun s => writeStructTail env s n) s.g).text ∧
    (n.classy = true → ∀ tld ∈ allDecls s.g, coroText env s.g n tld = coroRecordSpec env s.g n tld) ∧
    (∀ o : Func, coroRecordSpec env s.g n (.func o) ≠ [] ↔
      (o.receiver = n.qid ∧ o.coroutine = true ∧
        ((funkOf s.g o.qqid).coroSuspPoint ≠ 0 ∨ (funkOf s.g o.qqid).usesScratch = true))) := by
  unfold writeStruct at h
  obtain ⟨s1, h1, h'⟩ := andThen_eq_ok.mp h
  obtain ⟨s2, h2, h3⟩ := andThen_eq_ok.mp h'
  have e1 := isWriter_eq_ok (isWriter_writeStructHead env n) h1
  have e3 := isWriter_eq_ok (isWriter_writeStructTail env n) h3
  have hg1 : s1.g = s.g := by rw [e1]
  have key : s2 = { s1 with b := s1.b ++ coroStatesSpec env s.g n } ∧
      (n.classy = true → ∀ tld ∈ allDecls s.g, coroText env s.g n tld = coroRecordSpec env s.g n tld) := by
    unfold writeStructCoros at h2
    by_cases hc : n.classy = true
    · simp only [hc, if_true] at h2
      obtain ⟨s1', hw, hl⟩ := andThen_eq_ok.mp h2
      simp only [St.writes, Outcome.ok.injEq, buffer.writes] at hw
      rw [loop_flatten] at hl
      have hg1' : s1'.g = s.g := by rw [← hw]; exact hg1
      rw [hg1'] at hl
      change loop (writeStructCoro env n) (allDecls s.g) s1' = Outcome.ok s2 at hl
      have heach := loop_writer_each_ok _ (isWriter_writeStructCoro env n) _ _ _ hl
      have htext := loop_writer_text _ (isWriter_writeStructCoro env n) _ _ _ hl
      rw [hg1'] at heach htext
      have hspec : ∀ tld ∈ allDecls s.g, coroText env s.g n tld = coroRecordSpec env s.g n tld :=
        fun tld htld => coroText_eq_spec env s.g n tld (heach tld htld)
      refine ⟨?_, fun _ => hspec⟩
      rw [htext, ← hw]
      have hmap : (allDecls s.g).map (fun x => (writtenOf (fun s => writeStructCoro env n s x) s.g).text) =
          (allDecls s.g).map (coroRecordSpec env s.g n) :=
        List.map_congr_left hspec
      simp only [coroStatesSpec, hc, if_true, hmap, List.append_assoc, hg1]
    · have hcf : n.classy = false := by simpa using hc
      simp only [hcf, Bool.false_eq_true, if_false, Outcome.ok.injEq] at h2
      refine ⟨?_, fun h' => absurd h' hc⟩
      subst h2
      simp [coroStatesSpec, hcf]
  refine ⟨?_, ?_, key.2, fun o => coroRecordSpec_ne_nil env s.g n o⟩
  · rw [e3, key.1, hg1]
  · rw [e3, key.1, e1]

/-- A run of C10: the struct `decoder` with the coroutines `decode` (three
suspension points), `reset` (none, no scratch) and `fill` (scratch). -/
theorem writeStruct_coroutine_state_witness :
    writeStruct demoEnv
        { g := demoGenWith [.struct demoStruct, .func (demoFunc 22), .func (demoFunc 23),
            .func (demoFunc 25)], b := [] } demoStruct =
      .ok { g := demoGenWith [.struct demoStruct, .func (demoFunc 22), .func (demoFunc 23),
              .func (demoFunc 25)],
            b := [] ++ structText demoEnv (demoGenWith [.struct demoStruct, .func (demoFunc 22),
              .func (demoFunc 23), .func (demoFunc 25)]) demoStruct } ∧
    coroStatesSpec demoEnv (demoGenWith [.struct demoStruct, .func (demoFunc 22),
        .func (demoFunc 23), .func (demoFunc 25)]) demoStruct =
      ascii ("\nstruct \x7b\nuint32_t coro_susp_point;\nuint32_t v_i;\n\x7d c_decode[1];\n" ++
        "struct \x7b\nuint64_t scratch;\n\x7d c_fill[1];\n") ∧
    (structText demoEnv (demoGenWith [.struct demoStruct, .func (demoFunc 22),
        .func (demoFunc 23), .func (demoFunc 25)]) demoStruct =
      (writtenOf (fun s => writeStructHead demoEnv s demoStruct) (demoGenWith [.struct demoStruct,
          .func (demoFunc 22), .func (demoFunc 23), .func (demoFunc 25)])).text ++
        coroStatesSpec demoEnv (demoGenWith [.struct demoStruct, .func (demoFunc 22),
          .func (demoFunc 23), .func (demoFunc 25)]) demoStruct ++
        (writtenOf (fun s => writeStructTail demoEnv s demoStruct) (demoGenWith [.struct demoStruct,
          .func (demoFunc 22), .func (demoFunc 23), .func (demoFunc 25)])).text) := by
  have hrun := isWriter_ok_of_err_none (isWriter_writeStruct demoEnv demoStruct)
    { g := demoGenWith [.struct demoStruct, .func (demoFunc 22), .func (demoFunc 23),
        .func (demoFunc 25)], b := [] } (by decide)
  refine ⟨hrun, by decide, ?_⟩
  have h := (writeStruct_coroutine_state demoEnv _ _ demoStruct hrun).2.1
  simpa using h

/-! ### Initializers are writers -/

theorem isWriter_writeInitializerSignature (env : Env) (n : Struct) (p : Bool) :
    IsWriter (fun s => writeInitializerSignature env s n p) := by
  unfold writeInitializerSignature
  simp only
  refine isWriter_seq ?_ (isWriter_writes _ (by intro _; rfl))
  refine isWriter_ite (fun _ => p) (by intro _; rfl) ?_ isWriter_ok
  refine isWriter_seq (isWriter_writes _ (by intro _; rfl)) ?_
  refine isWriter_seq (isWriter_writes _ (by intro _; rfl)) ?_
  refine isWriter_seq (isWriter_writes _ (by intro _; rfl)) ?_
  exact isWriter_seq (isWriter_writes _ (by intro _; rfl)) (isWriter_writes _ (by intro _; rfl))

theorem isWriter_writeInitializerPrototype (env : Env) (n : Struct) :
    IsWriter (fun s => writeInitializerPrototype env s n) := by
  unfold writeInitializerPrototype
  refine isWriter_ite (fun _ => !n.classy) (by intro _; rfl) isWriter_ok ?_
  exact isWriter_seq (isWriter_writeInitializerSignature env n n.isPublic)
    (isWriter_writes _ (by intro _; rfl))

theorem isWriter_writeSubStructCall (env : Env) (pre : Bytes) (f : Field) :
    IsWriter (writeSubStructCall env pre f) := by
  unfold writeSubStructCall
  refine isWriter_seq (isWriter_writes _ (by intro _; rfl)) ?_
  refine isWriter_seq (isWriter_writes _ (by intro _; rfl)) ?_
  exact isWriter_seq (isWriter_writes _ (by intro _; rfl)) (isWriter_writes _ (by intro _; rfl))

theorem isWriter_writeInitializerField (env : Env) (f : Field) :
    IsWriter (fun s => writeInitializerField env s f) := by
  unfold writeInitializerField
  refine isWriter_ite (fun _ => !f.xType.isInnermost) (by intro _; rfl) isWriter_ok ?_
  refine isWriter_gdep (fun g0 s =>
    match subStructPrefix env g0 f.xType.qid with
    | none => .ok s
    | some pre => writeSubStructCall env pre f s) ?_
  intro g0
  show IsWriter (fun s =>
    match subStructPrefix env g0 f.xType.qid with
    | none => .ok s
    | some pre => writeSubStructCall env pre f s)
  cases subStructPrefix env g0 f.xType.qid with
  | none => exact isWriter_ok
  | some pre => exact isWriter_writeSubStructCall env pre f

theorem isWriter_writeInitializerImpl (env : Env) (n : Struct) :
    IsWriter (fun s => writeInitializerImpl env s n) := by
  unfold writeInitializerImpl
  refine isWriter_ite (fun _ => !n.classy) (by intro _; rfl) isWriter_ok ?_
  refine isWriter_seq (isWriter_writeInitializerSignature env n false) ?_
  refine isWriter_seq (isWriter_writes _ (by intro _; rfl)) ?_
  refine isWriter_seq (isWriter_writes _ (by intro _; rfl)) ?_
  refine isWriter_seq (isWriter_writes _ (by intro _; rfl)) ?_
  refine isWriter_seq (isWriter_writes _ (by intro _; rfl)) ?_
  refine isWriter_seq (isWriter_writes _ (by intro _; rfl)) ?_
  refine isWriter_seq (isWriter_writes _ (by intro _; rfl)) ?_
  refine isWriter_seq (isWriter_writes _ (by intro _; rfl)) ?_
  refine isWriter_seq (isWriter_writes _ (by intro _; rfl)) ?_
  refine isWriter_seq (isWriter_writes _ (by intro _; rfl)) ?_
  refine isWriter_seq (isWriter_writes _ (by intro _; rfl)) ?_
  refine isWriter_seq (isWriter_writes _ (by intro _; rfl)) ?_
  refine isWriter_seq (isWriter_loop _ (isWriter_writeInitializerField env) _) ?_
  refine isWriter_seq (isWriter_writes _ (by intro _; rfl)) ?_
  exact isWriter_seq (isWriter_writes _ (by intro _; rfl)) (isWriter_writes _ (by intro _; rfl))

/-! ### Methods that keep the receiver and append to the buffer -/

theorem keeps_of_isWriter {w : St → Outcome St} (hw : IsWriter w) : Keeps w := by
  intro s s' h
  have e := isWriter_eq_ok hw h
  rw [e]
  exact ⟨rfl, _, rfl⟩

theorem keeps_seq {w1 w2 : St → Outcome St} (h1 : Keeps w1) (h2 : Keeps w2) :
    Keeps (fun s => (w1 s).andThen w2) := by
  intro s s' h
  obtain ⟨s1, e1, e2⟩ := andThen_eq_ok.mp h
  obtain ⟨g1, t1, b1⟩ := h1 s s1 e1
  obtain ⟨g2, t2, b2⟩ := h2 s1 s' e2
  exact ⟨g2.trans g1, t1 ++ t2, by rw [b2, b1, List.append_assoc]⟩

theorem keeps_loop {α : Type} (body : St → α → Outcome St) (h : ∀ x, Keeps (fun s => body s x)) :
    ∀ xs : List α, Keeps (loop body xs) := by
  intro xs
  induction xs with
  | nil =>
    intro s s' hs
    simp only [loop, Outcome.ok.injEq] at hs
    exact ⟨by rw [hs], [], by rw [hs]; simp⟩
  | cons x xs ih => exact keeps_seq (h x) ih

theorem keeps_files_loop (body : St → TopLevelDecl → Outcome St)
    (h : ∀ x, Keeps (fun s => body s x)) :
    Keeps (fun s => loop (fun s file => loop body file s) s.g.files s) := by
  intro s s' hs
  exact keeps_loop _ (fun file => keeps_loop body h file) _ s s' hs

mutual
theorem keeps_writeConstList (env : Env) : ∀ (e : Expr) (s s' : St),
    writeConstList env e s = .ok s' → s'.g = s.g ∧ ∃ t, s'.b = s.b ++ t
  | .mk h op args cv, s, s', hs => by
    unfold writeConstList at hs
    split_ifs at hs with hop
    · obtain ⟨s1, e1, e2⟩ := andThen_eq_ok.mp hs
      obtain ⟨g1, t1, b1⟩ := keeps_writeConstListArgs env args _ s1 e1
      simp only [Outcome.ok.injEq] at e2
      subst e2
      exact ⟨g1, [123] ++ t1 ++ [125], by simp [b1, buffer.writeb]⟩
    · cases cv with
      | none => simp at hs
      | some v =>
        simp only [St.writes, Outcome.ok.injEq] at hs
        subst hs
        exact ⟨rfl, _, rfl⟩
theorem keeps_writeConstListArgs (env : Env) : ∀ (es : List Expr) (s s' : St),
    writeConstListArgs env es s = .ok s' → s'.g = s.g ∧ ∃ t, s'.b = s.b ++ t
  | [], s, s', hs => by
    simp only [writeConstListArgs, Outcome.ok.injEq] at hs
    subst hs
    exact ⟨rfl, [], by simp⟩
  | o :: rest, s, s', hs => by
    unfold writeConstListArgs at hs
    obtain ⟨s1, e1, e2⟩ := andThen_eq_ok.mp hs
    obtain ⟨g1, t1, b1⟩ := keeps_writeConstList env o s s1 e1
    obtain ⟨g2, t2, b2⟩ := keeps_writeConstListArgs env rest _ s' e2
    exact ⟨g2.trans g1, t1 ++ [44] ++ t2, by simp [b2, b1, buffer.writeb]⟩
end

theorem keeps_writeConst (env : Env) (n : Const) : Keeps (fun s => writeConst env s n) := by
  unfold writeConst
  refine keeps_seq (keeps_of_isWriter (isWriter_writes _ (by intro _; rfl))) ?_
  refine keeps_seq (keeps_of_isWriter (isWriter_writes _ (by intro _; rfl))) ?_
  refine keeps_seq (keeps_of_isWriter (isWriter_call _ (by intro _; rfl))) ?_
  refine keeps_seq (keeps_of_isWriter (isWriter_writes _ (by intro _; rfl))) ?_
  refine keeps_seq (fun s s' h => keeps_writeConstList env n.value s s' h) ?_
  exact keeps_of_isWriter (isWriter_writes _ (by intro _; rfl))

theorem keeps_ok : Keeps (fun s => Outcome.ok s) := keeps_of_isWriter isWriter_ok

theorem keeps_forEachConst (v : visibility) (f : St → Const → Outcome St)
    (hf : ∀ n, Keeps (fun s => f s n)) : Keeps (fun s => forEachConst s v f) := by
  unfold forEachConst
  refine keeps_files_loop _ ?_
  intro tld
  cases tld with
  | const n =>
    simp only
    by_cases h : skipped v (TopLevelDecl.const n).isPublic = true
    · simp only [h, if_true]; exact keeps_ok
    · simp only [h, if_false]; exact hf n
  | _ => exact keeps_ok

theorem keeps_forEachFunc (v : visibility) (f : St → Func → Outcome St)
    (hf : ∀ n, Keeps (fun s => f s n)) : Keeps (fun s => forEachFunc s v f) := by
  unfold forEachFunc
  refine keeps_files_loop _ ?_
  intro tld
  cases tld with
  | func n =>
    simp only
    by_cases h : skipped v (TopLevelDecl.func n).isPublic = true
    · simp only [h, if_true]; exact keeps_ok
    · simp only [h, if_false]; exact hf n
  | _ => exact keeps_ok

theorem writeCppImplStruct_keeps (env : Env) (sp sp' : St × List ID) (tld : TopLevelDecl)
    (h : writeCppImplStruct env sp tld = .ok sp') :
    sp'.1.g = sp.1.g ∧ ∃ t, sp'.1.b = sp.1.b ++ t := by
  cases tld with
  | struct n =>
    simp only [writeCppImplStruct] at h
    split_ifs at h
    · simp only [Outcome.ok.injEq] at h; subst h; exact ⟨rfl, [], by simp⟩
    · simp only [Outcome.ok.injEq] at h
      subst h
      exact ⟨rfl, _, by simp only [buffer.writes, List.append_assoc]; rfl⟩
  | _ =>
    simp only [writeCppImplStruct, Outcome.ok.injEq] at h
    subst h
    exact ⟨rfl, [], by simp⟩

theorem keeps_writeCppImplFunc (env : Env) (ps : List ID) (tld : TopLevelDecl) :
    Keeps (fun s => writeCppImplFunc env ps s tld) := by
  cases tld with
  | func n =>
    simp only [writeCppImplFunc]
    by_cases h1 : (!(TopLevelDecl.func n).isPublic) = true
    · simp only [h1, if_true]; exact keeps_ok
    · simp only [h1, if_false]
      by_cases h2 : (!(ps.contains n.qqid.2.1)) = true
      · simp only [h2, if_true]; exact keeps_ok
      · simp only [h2, if_false]
        refine keeps_seq (keeps_of_isWriter (isWriter_call _ (by intro _; rfl))) ?_
        refine keeps_seq (keeps_of_isWriter (isWriter_writes _ (by intro _; rfl))) ?_
        refine keeps_seq (keeps_of_isWriter (isWriter_writes _ (by intro _; rfl))) ?_
        refine keeps_seq (keeps_of_isWriter (isWriter_writes _ (by intro _; rfl))) ?_
        refine keeps_seq ?_ (keeps_of_isWriter (isWriter_writes _ (by intro _; rfl)))
        intro s s' hs
        simp only [Outcome.ok.injEq] at hs
        subst hs
        refine ⟨rfl, ?_⟩
        simp only [writeCppImplArgs]
        generalize s.b = b
        induction n.inFields generalizing b with
        | nil => exact ⟨[], by simp⟩
        | cons o rest ih =>
          obtain ⟨t, ht⟩ := ih (((b.writeb 44).writes aPrefix).writes (env.idStr o.name))
          exact ⟨_, by rw [List.foldl_cons, ht]; simp only [buffer.writes, buffer.writeb,
            List.append_assoc]; rfl⟩
  | _ => exact keeps_ok

theorem keeps_writeCppImpls (env : Env) : Keeps (writeCppImpls env) := by
  intro s s' h
  unfold writeCppImpls at h
  obtain ⟨s1, e1, e2⟩ := andThen_eq_ok.mp h
  simp only [St.writes, Outcome.ok.injEq] at e1
  cases hl : loop (fun sp file => loop (writeCppImplStruct env) file sp) s1.g.files (s1, []) with
  | ok sp =>
    rw [hl] at e2
    simp only at e2
    have hinv : sp.1.g = s1.g ∧ ∃ t, sp.1.b = s1.b ++ t := by
      rw [loop_flatten] at hl
      refine loop_invariant (writeCppImplStruct env)
        (fun q => q.1.g = s1.g ∧ ∃ t, q.1.b = s1.b ++ t) ?_ _ _ _ hl ⟨rfl, [], by simp⟩
      intro q x q' hq hp
      obtain ⟨g1, t1, b1⟩ := writeCppImplStruct_keeps env q q' x hq
      obtain ⟨g0, t0, b0⟩ := hp
      exact ⟨g1.trans g0, t0 ++ t1, by rw [b1, b0, List.append_assoc]⟩
    obtain ⟨s2, e3, e4⟩ := andThen_eq_ok.mp e2
    obtain ⟨g2, t2, b2⟩ := keeps_files_loop _ (keeps_writeCppImplFunc env sp.2) _ _ e3
    simp only [St.writes, Outcome.ok.injEq] at e4
    obtain ⟨gp, tp, bp⟩ := hinv
    subst e4
    subst e1
    refine ⟨by simp only; rw [g2, gp],
      ascii "\n#ifdef __cplusplus\n\n" ++ tp ++ t2 ++ ascii "#endif  // __cplusplus\n\n", ?_⟩
    simp only [buffer.writes, b2, bp, List.append_assoc]
  | error e sp => rw [hl] at e2; simp at e2
  | panic => rw [hl] at e2; simp at e2
  | timeout => rw [hl] at e2; simp at e2

/-! ### The base header and the use declarations extend the state -/

theorem goMap_get_mem {κ α : Type} [DecidableEq κ] (m : GoMap κ α) (k : κ) (v : α)
    (h : m.get k = some v) : (k, v) ∈ m := by
  induction m with
  | nil => simp [GoMap.get] at h
  | cons e m ih =>
    obtain ⟨k', v'⟩ := e
    unfold GoMap.get at h
    split_ifs at h with hk
    · simp only [Option.some.injEq] at h
      subst hk; subst h
      exact List.mem_cons_self _ _
    · exact List.mem_cons_of_mem _ (ih h)

theorem expandBangBangInsertAux_appends (m : GoMap Bytes (buffer → Outcome buffer))
    (hm : ∀ k f, (k, f) ∈ m → ∀ b b', f b = .ok b' → ∃ t, b' = b ++ t) :
    ∀ (fuel : Nat) (b : buffer) (s : Bytes) (b' : buffer),
      expandBangBangInsertAux m fuel b s = .ok b' → ∃ t, b' = b ++ t := by
  intro fuel
  induction fuel with
  | zero => intro b s b' h; simp [expandBangBangInsertAux] at h
  | succ fuel ih =>
    intro b s b' h
    unfold expandBangBangInsertAux at h
    simp only at h
    obtain ⟨b1, h1, h2⟩ := andThen_eq_ok.mp h
    have hb1 : ∃ t, b1 = b ++ t := by
      split_ifs at h1 with hp
      · simp only [Outcome.ok.injEq] at h1
        exact ⟨_, h1.symm⟩
      · cases hg : m.get (match indexByte s 10 with
            | some i => (List.take (i + 1) s, List.drop (i + 1) s)
            | none => (s, [])).1 with
        | none => rw [hg] at h1; simp at h1
        | some f =>
          rw [hg] at h1
          exact hm _ f (goMap_get_mem _ _ _ hg) b b1 h1
    obtain ⟨t1, rfl⟩ := hb1
    split_ifs at h2 with hr
    · simp only [Outcome.ok.injEq] at h2
      exact ⟨t1, h2.symm⟩
    · obtain ⟨t2, ht2⟩ := ih _ _ _ h2
      exact ⟨t1 ++ t2, by rw [ht2, List.append_assoc]⟩

theorem loop_insertBaseStatusName_appends (zs : List Bytes) (b b' : buffer)
    (h : loop insertBaseStatusName zs b = .ok b') : ∃ t, b' = b ++ t := by
  refine loop_invariant insertBaseStatusName (fun q => ∃ t, q = b ++ t) ?_ zs b b' h ⟨[], by simp⟩
  intro q z q' hq hp
  obtain ⟨t, rfl⟩ := hp
  unfold insertBaseStatusName at hq
  cases hc : cName z (ascii "") with
  | none => rw [hc] at hq; simp at hq
  | some c =>
    rw [hc] at hq
    simp only [Outcome.ok.injEq] at hq
    exact ⟨_, by rw [← hq]; simp only [List.append_assoc]; rfl⟩

theorem insertBasePublicH_appends (env : Env) (b b' : buffer)
    (h : insertBasePublicH env b = .ok b') : ∃ t, b' = b ++ t := by
  unfold insertBasePublicH at h
  simp only at h
  obtain ⟨b1, h1, h2⟩ := andThen_eq_ok.mp h
  obtain ⟨t1, ht1⟩ := expandBangBangInsertAux_appends _ (by
    intro k f hkf q q' hq
    simp only [List.mem_singleton, Prod.mk.injEq] at hkf
    obtain ⟨_, rfl⟩ := hkf
    exact loop_insertBaseStatusName_appends _ _ _ hq) _ _ _ _ h1
  simp only [Outcome.ok.injEq] at h2
  exact ⟨_, by rw [← h2, ht1]; simp only [buffer.writes, buffer.writeb, List.append_assoc]; rfl⟩

theorem usesOnly_refl (g : gen) : UsesOnly g g := ⟨rfl, rfl, rfl, rfl, rfl, rfl, rfl, rfl⟩

theorem usesOnly_trans {g1 g2 g3 : gen} (h12 : UsesOnly g1 g2) (h23 : UsesOnly g2 g3) :
    UsesOnly g1 g3 := by
  obtain ⟨a1, a2, a3, a4, a5, a6, a7, a8⟩ := h12
  obtain ⟨b1, b2, b3, b4, b5, b6, b7, b8⟩ := h23
  exact ⟨b1.trans a1, b2.trans a2, b3.trans a3, b4.trans a4, b5.trans a5, b6.trans a6,
    b7.trans a7, b8.trans a8⟩

theorem extends_refl (s : St) : Extends s s := ⟨usesOnly_refl _, [], by simp⟩

theorem extends_trans {s1 s2 s3 : St} (h12 : Extends s1 s2) (h23 : Extends s2 s3) :
    Extends s1 s3 := by
  obtain ⟨u1, t1, b1⟩ := h12
  obtain ⟨u2, t2, b2⟩ := h23
  exact ⟨usesOnly_trans u1 u2, t1 ++ t2, by rw [b2, b1, List.append_assoc]⟩

theorem extends_of_keeps {w : St → Outcome St} (hw : Keeps w) {s s' : St} (h : w s = .ok s') :
    Extends s s' := by
  obtain ⟨hg, t, hb⟩ := hw s s' h
  exact ⟨by rw [hg]; exact usesOnly_refl _, t, hb⟩

theorem extends_writes {s s' : St} {t : Bytes} (h : s.writes t = .ok s') : Extends s s' := by
  simp only [St.writes, Outcome.ok.injEq] at h
  subst h
  exact ⟨usesOnly_refl _, t, rfl⟩

theorem writeUseNew_extends (env : Env) (s s' : St) (d : Bytes)
    (h : writeUseNew env s d = .ok s') : Extends s s' := by
  unfold writeUseNew at h
  simp only at h
  obtain ⟨s1, h1, h2⟩ := andThen_eq_ok.mp h
  have e1 : Extends s s1 := by
    split_ifs at h1
    · rcases hr : env.wuffsRootFn with ⟨root, _ | e⟩ <;> rw [hr] at h1 <;>
        simp only [Outcome.ok.injEq, reduceCtorEq] at h1
      subst h1
      exact ⟨⟨rfl, rfl, rfl, rfl, rfl, rfl, rfl, rfl⟩, [], by simp⟩
    · simp only [Outcome.ok.injEq] at h1
      subst h1
      exact ⟨⟨rfl, rfl, rfl, rfl, rfl, rfl, rfl, rfl⟩, [], by simp⟩
  refine extends_trans e1 ?_
  cases hf : env.readFile (env.useeFilename s1.g.wuffsRoot d) with
  | error e => rw [hf] at h2; simp at h2
  | ok usee0 =>
    rw [hf] at h2
    simp only at h2
    split_ifs at h2
    obtain ⟨s2, h3, h4⟩ := andThen_eq_ok.mp h2
    refine extends_trans (extends_writes h3) ?_
    cases hi : bytesIndex (trimImplementation usee0) wigbpStart with
    | none => rw [hi] at h4; simp at h4
    | some i =>
      rw [hi] at h4
      simp only at h4
      obtain ⟨s3, h5, h6⟩ := andThen_eq_ok.mp h4
      refine extends_trans (extends_writes h5) ?_
      cases hj : bytesIndex (List.drop (i + wigbpStart.length) (trimImplementation usee0)) wigbpEnd with
      | none => rw [hj] at h6; simp at h6
      | some j =>
        rw [hj] at h6
        simp only at h6
        obtain ⟨s4, h7, h8⟩ := andThen_eq_ok.mp h6
        exact extends_trans (extends_writes h7) (extends_writes h8)

theorem writeUse_extends (env : Env) (s s' : St) (n : Use)
    (h : writeUse env s n = .ok s') : Extends s s' := by
  unfold writeUse at h
  simp only at h
  cases hm : s.g.usesMap with
  | none =>
    rw [hm] at h
    simp only at h
    have h0 : Extends s { s with g := { s.g with usesMap := some [] } } :=
      ⟨⟨rfl, rfl, rfl, rfl, rfl, rfl, rfl, rfl⟩, [], by simp⟩
    exact extends_trans h0 (writeUseNew_extends env _ _ _ h)
  | some m =>
    rw [hm] at h
    simp only at h
    split_ifs at h
    · simp only [Outcome.ok.injEq] at h
      subst h
      exact extends_refl _
    · exact writeUseNew_extends env _ _ _ h

theorem forEachUse_extends (env : Env) (s s' : St)
    (h : forEachUse s (writeUse env) = .ok s') : Extends s s' := by
  unfold forEachUse at h
  rw [loop_flatten] at h
  refine loop_invariant _ (fun q => Extends s q) ?_ _ s s' h (extends_refl s)
  intro q tld q' hq hp
  cases tld with
  | use n => exact extends_trans hp (writeUse_extends env q q' n hq)
  | _ =>
    simp only [Outcome.ok.injEq] at hq
    subst hq
    exact hp

/-! ### The order of the structs in the artifact -/

theorem foldl_genHeaderStatus (l : List status) (b : buffer) :
    l.foldl genHeaderStatus b = b ++ (l.map (genHeaderStatus [])).flatten := by
  induction l generalizing b with
  | nil => simp
  | cons z l ih =>
    rw [List.foldl_cons, ih, List.map_cons, List.flatten_cons, ← List.append_assoc]
    congr 1
    unfold genHeaderStatus
    split_ifs <;> simp

theorem st_insertBasePublicH_extends (env : Env) (s s' : St)
    (h : s.insertBasePublicH env = .ok s') : Extends s s' := by
  unfold St.insertBasePublicH at h
  cases hb : insertBasePublicH env s.b with
  | ok b =>
    rw [hb] at h
    simp only [Outcome.ok.injEq] at h
    subst h
    exact ⟨usesOnly_refl _, insertBasePublicH_appends env _ _ hb⟩
  | error e b => rw [hb] at h; simp at h
  | panic => rw [hb] at h; simp at h
  | timeout => rw [hb] at h; simp at h

theorem keeps_step_writes {s s' : St} {t : Bytes} (h : s.writes t = .ok s') :
    s'.g = s.g ∧ ∃ u, s'.b = s.b ++ u := by
  simp only [St.writes, Outcome.ok.injEq] at h
  subst h
  exact ⟨rfl, t, rfl⟩

theorem isWriter_publicPrototype (env : Env) (n : Struct) :
    IsWriter (fun s => if n.isPublic = true then writeInitializerPrototype env s n else .ok s) :=
  isWriter_ite (fun _ => n.isPublic) (by intro _; rfl) (isWriter_writeInitializerPrototype env n)
    isWriter_ok

theorem isWriter_privatePrototype (env : Env) (n : Struct) :
    IsWriter (fun s => if (!n.isPublic) = true then writeInitializerPrototype env s n else .ok s) :=
  isWriter_ite (fun _ => !n.isPublic) (by intro _; rfl) (isWriter_writeInitializerPrototype env n)
    isWriter_ok

theorem writtenOf_ok (g : gen) : (writtenOf (fun s => Outcome.ok s) g).text = [] := rfl

theorem flatten_map_ite {α : Type} (p : α → Bool) (f : α → Bytes) (l : List α) :
    (l.map fun x => if p x = true then f x else []).flatten = ((l.filter p).map f).flatten := by
  induction l with
  | nil => rfl
  | cons x l ih =>
    cases hp : p x <;> simp [List.filter, hp, ih]

theorem publicPrototype_text (env : Env) (g : gen) (l : List Struct) :
    (l.map fun n => (writtenOf (fun s => if n.isPublic = true then writeInitializerPrototype env s n
        else .ok s) g).text).flatten =
      ((l.filter (fun n => n.isPublic)).map (prototypeText env g)).flatten := by
  rw [← flatten_map_ite]
  congr 1
  refine List.map_congr_left (fun n _ => ?_)
  cases hp : n.isPublic <;> simp [prototypeText, writtenOf_ok]

theorem privatePrototype_text (env : Env) (g : gen) (l : List Struct) :
    (l.map fun n => (writtenOf (fun s => if (!n.isPublic) = true then writeInitializerPrototype env s n
        else .ok s) g).text).flatten =
      ((l.filter (fun n => !n.isPublic)).map (prototypeText env g)).flatten := by
  rw [← flatten_map_ite]
  congr 1
  refine List.map_congr_left (fun n _ => ?_)
  cases hp : n.isPublic <;> simp [prototypeText, writtenOf_ok]

theorem genHeader_ok (env : Env) (s s' : St) (h : genHeader env s = .ok s') :
    UsesOnly s.g s'.g ∧ ∃ p1 p3 : Bytes,
      s'.b = s.b ++ p1 ++ (s'.g.structList.map (structText env s'.g)).flatten ++
        ascii "// ---------------- Public Initializer Prototypes\n\n" ++
        ((s'.g.structList.filter (fun n => n.isPublic)).map (prototypeText env s'.g)).flatten ++ p3 := by
  unfold genHeader at h
  obtain ⟨s1, h1, h'⟩ := andThen_eq_ok.mp h
  clear h
  rename' h' => h
  obtain ⟨s2, h2, h'⟩ := andThen_eq_ok.mp h
  clear h
  rename' h' => h
  obtain ⟨s3, h3, h'⟩ := andThen_eq_ok.mp h
  clear h
  rename' h' => h
  obtain ⟨s4, h4, h'⟩ := andThen_eq_ok.mp h
  clear h
  rename' h' => h
  obtain ⟨s5, h5, h'⟩ := andThen_eq_ok.mp h
  clear h
  rename' h' => h
  obtain ⟨s6, h6, h'⟩ := andThen_eq_ok.mp h
  clear h
  rename' h' => h
  obtain ⟨s7, h7, h'⟩ := andThen_eq_ok.mp h
  clear h
  rename' h' => h
  obtain ⟨s8, h8, h'⟩ := andThen_eq_ok.mp h
  clear h
  rename' h' => h
  obtain ⟨s9, h9, h'⟩ := andThen_eq_ok.mp h
  clear h
  rename' h' => h
  obtain ⟨s10, h10, h'⟩ := andThen_eq_ok.mp h
  clear h
  rename' h' => h
  obtain ⟨s11, h11, h'⟩ := andThen_eq_ok.mp h
  clear h
  rename' h' => h
  obtain ⟨s12, h12, h'⟩ := andThen_eq_ok.mp h
  clear h
  rename' h' => h
  obtain ⟨s13, h13, h'⟩ := andThen_eq_ok.mp h
  clear h
  rename' h' => h
  obtain ⟨s14, h14, h'⟩ := andThen_eq_ok.mp h
  clear h
  rename' h' => h
  obtain ⟨s15, h15, h'⟩ := andThen_eq_ok.mp h
  clear h
  rename' h' => h
  obtain ⟨s16, h16, h'⟩ := andThen_eq_ok.mp h
  clear h
  rename' h' => h
  obtain ⟨s17, h17, h18⟩ := andThen_eq_ok.mp h
  clear h
  -- up to the structs the state is extended
  have e6 : Extends s5 s6 := by
    simp only [Outcome.ok.injEq] at h6
    subst h6
    exact ⟨usesOnly_refl _, _, foldl_genHeaderStatus _ _⟩
  have e10 : Extends s s10 :=
    extends_trans (st_insertBasePublicH_extends env _ _ h1) <|
    extends_trans (extends_writes h2) <|
    extends_trans (forEachUse_extends env _ _ h3) <|
    extends_trans (extends_writes h4) <|
    extends_trans (extends_writes h5) <|
    extends_trans e6 <|
    extends_trans (extends_writes h7) <|
    extends_trans (extends_writes h8) <|
    extends_trans (extends_of_keeps (keeps_forEachConst .pubOnly _ (keeps_writeConst env)) h9)
      (extends_writes h10)
  -- the structs and the public prototypes
  have e11 := loop_writer_text _ (isWriter_writeStruct env) _ _ _ h11
  have e12 : s12 = { s11 with b := s11.b ++ ascii "// ---------------- Public Initializer Prototypes\n\n" } := by
    simp only [St.writes, Outcome.ok.injEq, buffer.writes] at h12
    exact h12.symm
  have e13 := loop_writer_text _ (isWriter_publicPrototype env) _ _ _ h13
  -- after them the receiver is kept
  obtain ⟨g14, t14, b14⟩ := keeps_step_writes h14
  obtain ⟨g15, t15, b15⟩ := keeps_forEachFunc .pubOnly _
    (fun n => keeps_of_isWriter (isWriter_call _ (by intro _; rfl))) _ _ h15
  obtain ⟨g16, t16, b16⟩ := keeps_step_writes h16
  obtain ⟨g17, t17, b17⟩ := keeps_writeCppImpls env _ _ h17
  obtain ⟨g18, t18, b18⟩ := keeps_step_writes h18
  have hg11 : s11.g = s10.g := by rw [e11]
  have hg12 : s12.g = s10.g := by rw [e12]; exact hg11
  have hg13 : s13.g = s10.g := by rw [e13]; exact hg12
  have hg : s'.g = s10.g := by rw [g18, g17, g16, g15, g14, hg13]
  obtain ⟨u10, t10, b10⟩ := e10
  have hb11 : s11.b = s10.b ++ (s10.g.structList.map (structText env s10.g)).flatten :=
    congrArg St.b e11
  have hb12 : s12.b = s11.b ++ ascii "// ---------------- Public Initializer Prototypes\n\n" :=
    congrArg St.b e12
  have hb13 : s13.b = s12.b ++
      ((s10.g.structList.filter (fun n => n.isPublic)).map (prototypeText env s10.g)).flatten := by
    have := congrArg St.b e13
    rw [hg12, publicPrototype_text] at this
    exact this
  refine ⟨by rw [hg]; exact u10, t10, t14 ++ t15 ++ t16 ++ t17 ++ t18, ?_⟩
  rw [hg, b18, b17, b16, b15, b14, hb13, hb12, hb11, b10]
  simp only [List.append_assoc]

theorem genImpl_ok (env : Env) (s s' : St) (h : genImpl env s = .ok s') :
    s'.g = s.g ∧ ∃ q1 q2 q3 : Bytes,
      s'.b = s.b ++ q1 ++
        ((s.g.structList.filter (fun n => !n.isPublic)).map (prototypeText env s.g)).flatten ++ q2 ++
        (s.g.structList.map (implText env s.g)).flatten ++ q3 := by
  unfold genImpl at h
  obtain ⟨s1, h1, h'⟩ := andThen_eq_ok.mp h
  clear h
  rename' h' => h
  obtain ⟨s2, h2, h'⟩ := andThen_eq_ok.mp h
  clear h
  rename' h' => h
  obtain ⟨s3, h3, h'⟩ := andThen_eq_ok.mp h
  clear h
  rename' h' => h
  obtain ⟨s4, h4, h'⟩ := andThen_eq_ok.mp h
  clear h
  rename' h' => h
  obtain ⟨s5, h5, h'⟩ := andThen_eq_ok.mp h
  clear h
  rename' h' => h
  obtain ⟨s6, h6, h'⟩ := andThen_eq_ok.mp h
  clear h
  rename' h' => h
  obtain ⟨s7, h7, h'⟩ := andThen_eq_ok.mp h
  clear h
  rename' h' => h
  obtain ⟨s8, h8, h'⟩ := andThen_eq_ok.mp h
  clear h
  rename' h' => h
  obtain ⟨s9, h9, h'⟩ := andThen_eq_ok.mp h
  clear h
  rename' h' => h
  obtain ⟨s10, h10, h'⟩ := andThen_eq_ok.mp h
  clear h
  rename' h' => h
  obtain ⟨s11, h11, h'⟩ := andThen_eq_ok.mp h
  clear h
  rename' h' => h
  obtain ⟨s12, h12, h'⟩ := andThen_eq_ok.mp h
  clear h
  rename' h' => h
  obtain ⟨s13, h13, h'⟩ := andThen_eq_ok.mp h
  clear h
  rename' h' => h
  obtain ⟨s14, h14, h'⟩ := andThen_eq_ok.mp h
  clear h
  rename' h' => h
  obtain ⟨s15, h15, h'⟩ := andThen_eq_ok.mp h
  clear h
  rename' h' => h
  obtain ⟨s16, h16, h17⟩ := andThen_eq_ok.mp h
  clear h
  obtain ⟨g1, t1, b1⟩ := keeps_step_writes h1
  obtain ⟨g2, t2, b2⟩ := keeps_step_writes h2
  obtain ⟨g3, t3, b3⟩ := keeps_step_writes h3
  obtain ⟨g4, t4, b4⟩ := keeps_step_writes h4
  have e5 : s5.g = s4.g ∧ ∃ u, s5.b = s4.b ++ u := by
    simp only [Outcome.ok.injEq] at h5
    subst h5
    exact ⟨rfl, _, foldl_genImplStatus _ _ _⟩
  obtain ⟨g5, t5, b5⟩ := e5
  obtain ⟨g6, t6, b6⟩ := keeps_step_writes h6
  obtain ⟨g7, t7, b7⟩ := keeps_step_writes h7
  obtain ⟨g8, t8, b8⟩ := keeps_forEachConst .priOnly _ (keeps_writeConst env) _ _ h8
  obtain ⟨g9, t9, b9⟩ := keeps_step_writes h9
  have e10 := loop_writer_text _ (isWriter_privatePrototype env) _ _ _ h10
  obtain ⟨g11, t11, b11⟩ := keeps_step_writes h11
  obtain ⟨g12, t12, b12⟩ := keeps_forEachFunc .priOnly _
    (fun n => keeps_of_isWriter (isWriter_call _ (by intro _; rfl))) _ _ h12
  obtain ⟨g13, t13, b13⟩ := keeps_step_writes h13
  have e14 := loop_writer_text _ (isWriter_writeInitializerImpl env) _ _ _ h14
  obtain ⟨g15, t15, b15⟩ := keeps_step_writes h15
  obtain ⟨g16, t16, b16⟩ := keeps_forEachFunc .bothPubPri _
    (fun n => keeps_of_isWriter (isWriter_call _ (by intro _; rfl))) _ _ h16
  obtain ⟨g17, t17, b17⟩ := keeps_step_writes h17
  have hg9 : s9.g = s.g := by rw [g9, g8, g7, g6, g5, g4, g3, g2, g1]
  have hg10 : s10.g = s.g := by rw [e10]; exact hg9
  have hg13 : s13.g = s.g := by rw [g13, g12, g11, hg10]
  have hg14 : s14.g = s.g := by rw [e14]; exact hg13
  have hb10 : s10.b = s9.b ++
      ((s.g.structList.filter (fun n => !n.isPublic)).map (prototypeText env s.g)).flatten := by
    have := congrArg St.b e10
    rw [hg9, privatePrototype_text] at this
    exact this
  have hb14 : s14.b = s13.b ++ (s.g.structList.map (implText env s.g)).flatten := by
    have := congrArg St.b e14
    rw [hg13] at this
    exact this
  refine ⟨by rw [g17, g16, g15, hg14],
    t1 ++ t2 ++ t3 ++ t4 ++ t5 ++ t6 ++ t7 ++ t8 ++ t9, t11 ++ t12 ++ t13, t15 ++ t16 ++ t17, ?_⟩
  rw [b17, b16, b15, hb14, b13, b12, b11, hb10, b9, b8, b7, b6, b5, b4, b3, b2, b1]
  simp only [List.append_assoc]

theorem gatherFuncImpl_structList (env : Env) (s s' : St)
    (h : forEachFunc s .bothPubPri (gatherFuncImpl env) = .ok s') :
    s'.g.structList = s.g.structList := by
  unfold forEachFunc at h
  rw [loop_flatten] at h
  refine loop_invariant _ (fun q => q.g.structList = s.g.structList) ?_ _ s s' h rfl
  intro q tld q' hq hp
  cases tld with
  | func n =>
    simp only at hq
    split_ifs at hq
    · simp only [Outcome.ok.injEq] at hq; rw [← hq]; exact hp
    · unfold gatherFuncImpl at hq
      cases hk : env.gatherFuncImpl q.g n with
      | ok k =>
        rw [hk] at hq
        simp only [Outcome.ok.injEq] at hq
        rw [← hq]; exact hp
      | error e => rw [hk] at hq; simp at hq
  | _ => simp only [Outcome.ok.injEq] at hq; rw [← hq]; exact hp

theorem gatherFuncs_structList (env : Env) (st : St) (b0 : buffer) (s4 : St)
    (h : (match forEachFunc st .bothPubPri (gatherFuncImpl env) with
      | .ok s' => Outcome.ok ({ g := s'.g, b := b0 } : St)
      | .error e s' => Outcome.error e ({ g := s'.g, b := b0 } : St)
      | .panic => Outcome.panic
      | .timeout => Outcome.timeout) = .ok s4) :
    s4.g.structList = st.g.structList := by
  cases hf : forEachFunc st .bothPubPri (gatherFuncImpl env) with
  | ok sf =>
    rw [hf] at h
    simp only [Outcome.ok.injEq] at h
    rw [← h]
    exact gatherFuncImpl_structList env _ sf hf
  | error e sf => rw [hf] at h; simp at h
  | panic => rw [hf] at h; simp at h
  | timeout => rw [hf] at h; simp at h

theorem generateSt_ok (env : Env) (g : gen) (s : St) (h : generateSt env g = .ok s) :
    s.g.structList = (env.topologicalSortStructs (unsortedStructs g.files)).1 ∧
    ∃ p1 p2 p3 p4 : Bytes,
      s.b = p1 ++ (s.g.structList.map (structText env s.g)).flatten ++
        ascii "// ---------------- Public Initializer Prototypes\n\n" ++
        ((s.g.structList.filter (fun n => n.isPublic)).map (prototypeText env s.g)).flatten ++ p2 ++
        ((s.g.structList.filter (fun n => !n.isPublic)).map (prototypeText env s.g)).flatten ++ p3 ++
        (s.g.structList.map (implText env s.g)).flatten ++ p4 := by
  unfold generateSt at h
  simp only at h
  obtain ⟨s1, h1, h'⟩ := andThen_eq_ok.mp h
  clear h
  have hfiles : s1.g.files = g.files := forEachStatus_gather_files env _ s1 h1
  rw [hfiles] at h'
  split_ifs at h' with hcyc
  obtain ⟨s4, h4, h''⟩ := andThen_eq_ok.mp h'
  clear h'
  obtain ⟨s5, h5, h'⟩ := andThen_eq_ok.mp h''
  clear h''
  obtain ⟨s6, h6, h''⟩ := andThen_eq_ok.mp h'
  clear h'
  obtain ⟨s7, h7, h'⟩ := andThen_eq_ok.mp h''
  clear h''
  obtain ⟨s8, h8, h''⟩ := andThen_eq_ok.mp h'
  clear h'
  obtain ⟨s9, h9, h10⟩ := andThen_eq_ok.mp h''
  clear h''
  -- the receiver after the metadata of the functions has been gathered
  have hs4 : s4.g.structList = (env.topologicalSortStructs (unsortedStructs g.files)).1 := by
    have := gatherFuncs_structList env _ _ s4 h4
    exact this
  obtain ⟨g5, t5, b5⟩ := keeps_step_writes h5
  obtain ⟨u6, pa, pb, b6⟩ := genHeader_ok env s5 s6 h6
  obtain ⟨g7, t7, b7⟩ := keeps_step_writes h7
  obtain ⟨g8, qa, qb, qc, b8⟩ := genImpl_ok env s7 s8 h8
  obtain ⟨g9, t9, b9⟩ := keeps_step_writes h9
  obtain ⟨g10, t10, b10⟩ := keeps_step_writes h10
  have hg : s.g = s6.g := by rw [g10, g9, g8, g7]
  have hl : s6.g.structList = (env.topologicalSortStructs (unsortedStructs g.files)).1 := by
    rw [u6.2.2.2.2.2.1, g5, hs4]
  refine ⟨by rw [hg, hl], s5.b ++ pa, pb ++ t7 ++ qa, qb, qc ++ t9 ++ t10, ?_⟩
  rw [hg, b10, b9, b8, g7, b7, b6]
  simp only [List.append_assoc]

theorem flatten_map_split {α : Type} (f : α → Bytes) (l l1 l2 l3 : List α) (a b : α)
    (h : l = l1 ++ a :: l2 ++ b :: l3) :
    ∃ x y z, (l.map f).flatten = x ++ f a ++ y ++ f b ++ z :=
  ⟨(l1.map f).flatten, (l2.map f).flatten, (l3.map f).flatten, by
    subst h; simp [List.append_assoc]⟩

/-- C9. When `generate` succeeds, the artifact holds the struct definitions
in exactly the order of the list that the struct sort returned, then the
initializer prototypes of the public structs, later those of the private
structs and later the initializer implementations, each in the order of that
list; so the definition of a struct that the sort places before another one
stands before it in the artifact. -/
theorem generate_struct_order (env : Env) (g : gen) (out : Bytes)
    (h : generate env g = .ret (some out) none) :
    ∃ (s : St) (p1 p2 p3 p4 : Bytes),
      generateSt env g = .ok s ∧ s.b = out ∧
      s.g.structList = (env.topologicalSortStructs (unsortedStructs g.files)).1 ∧
      out = p1 ++ (s.g.structList.map (structText env s.g)).flatten ++
        ascii "// ---------------- Public Initializer Prototypes\n\n" ++
        ((s.g.structList.filter (fun n => n.isPublic)).map (prototypeText env s.g)).flatten ++ p2 ++
        ((s.g.structList.filter (fun n => !n.isPublic)).map (prototypeText env s.g)).flatten ++ p3 ++
        (s.g.structList.map (implText env s.g)).flatten ++ p4 ∧
      (∀ (l1 l2 l3 : List Struct) (a b : Struct), s.g.structList = l1 ++ a :: l2 ++ b :: l3 →
        ∃ x y z, out = x ++ structText env s.g a ++ y ++ structText env s.g b ++ z) := by
  unfold generate at h
  cases hs : generateSt env g with
  | ok s =>
    rw [hs] at h
    simp only [Returned.ret.injEq, Option.some.injEq, and_true] at h
    obtain ⟨hl, p1, p2, p3, p4, hb⟩ := generateSt_ok env g s hs
    refine ⟨s, p1, p2, p3, p4, rfl, h, hl, by rw [← h]; exact hb, ?_⟩
    intro l1 l2 l3 a b hsplit
    obtain ⟨x, y, z, hxyz⟩ := flatten_map_split (structText env s.g) _ l1 l2 l3 a b hsplit
    refine ⟨p1 ++ x, y, z ++ (ascii "// ---------------- Public Initializer Prototypes\n\n" ++
      ((s.g.structList.filter (fun n => n.isPublic)).map (prototypeText env s.g)).flatten ++ p2 ++
      ((s.g.structList.filter (fun n => !n.isPublic)).map (prototypeText env s.g)).flatten ++ p3 ++
      (s.g.structList.map (implText env s.g)).flatten ++ p4), ?_⟩
    rw [← h, hb, hxyz]
    simp only [List.append_assoc]
  | error e s => rw [hs] at h; simp at h
  | panic => rw [hs] at h; simp at h
  | timeout => rw [hs] at h; simp at h

theorem returned_of_isArtifact (r : Returned) (h : r.isArtifact = true) :
    r = .ret (some r.bytes) none := by
  cases r with
  | ret bytes err =>
    cases bytes <;> cases err <;> simp_all [Returned.isArtifact, Returned.bytes]
  | panic => simp [Returned.isArtifact] at h
  | timeout => simp [Returned.isArtifact] at h

/-- A run of C9: the package `demo`, whose structs `inner` and `table` the
sort returns in this order. -/
theorem generate_struct_order_witness :
    generate demoEnv demoProgram = .ret (some demoArtifact) none ∧
    ∃ (s : St) (p1 p2 p3 p4 : Bytes),
      generateSt demoEnv demoProgram = .ok s ∧ s.b = demoArtifact ∧
      s.g.structList = (demoEnv.topologicalSortStructs (unsortedStructs demoProgram.files)).1 ∧
      demoArtifact = p1 ++ (s.g.structList.map (structText demoEnv s.g)).flatten ++
        ascii "// ---------------- Public Initializer Prototypes\n\n" ++
        ((s.g.structList.filter (fun n => n.isPublic)).map (prototypeText demoEnv s.g)).flatten ++ p2 ++
        ((s.g.structList.filter (fun n => !n.isPublic)).map (prototypeText demoEnv s.g)).flatten ++ p3 ++
        (s.g.structList.map (implText demoEnv s.g)).flatten ++ p4 ∧
      (∀ (l1 l2 l3 : List Struct) (a b : Struct), s.g.structList = l1 ++ a :: l2 ++ b :: l3 →
        ∃ x y z, demoArtifact = x ++ structText demoEnv s.g a ++ y ++ structText demoEnv s.g b ++ z) :=
  have hrun : generate demoEnv demoProgram = .ret (some demoArtifact) none :=
    returned_of_isArtifact _ (by decide)
  ⟨hrun, generate_struct_order demoEnv demoProgram demoArtifact hrun⟩

/-! ### The passes over the declarations -/

theorem visited_cons {α : Type} (v : visibility) (p : α → Bool) (x : α) (l : List α) :
    visited v p (x :: l) = if skipped v (p x) = true then visited v p l else x :: visited v p l := by
  cases v <;> cases hp : p x <;> simp [visited, skipped, List.filter, hp]

theorem loop_funcs_visited (v : visibility) (step : St → Func → St) :
    ∀ (decls : List TopLevelDecl) (s : St),
      loop (fun s tld =>
        match tld with
        | .func n => if skipped v tld.isPublic then .ok s else Outcome.ok (step s n)
        | _ => .ok s) decls s =
      .ok ((visited v Func.isPublic (decls.filterMap fun tld =>
        match tld with
        | .func n => some n
        | _ => none)).foldl step s) := by
  intro decls
  induction decls with
  | nil => intro s; cases v <;> rfl
  | cons tld rest ih =>
    intro s
    cases tld with
    | func n =>
      simp only [loop, List.filterMap_cons, visited_cons, TopLevelDecl.isPublic]
      by_cases hs : skipped v n.isPublic = true
      · simp only [hs, if_true, Outcome.andThen]; exact ih s
      · simp only [hs, if_false, Outcome.andThen, List.foldl_cons]; exact ih _
    | _ => simp only [loop, List.filterMap_cons, Outcome.andThen]; exact ih s

theorem loop_consts_visited (v : visibility) (step : St → Const → St) :
    ∀ (decls : List TopLevelDecl) (s : St),
      loop (fun s tld =>
        match tld with
        | .const n => if skipped v tld.isPublic then .ok s else Outcome.ok (step s n)
        | _ => .ok s) decls s =
      .ok ((visited v Const.isPublic (decls.filterMap fun tld =>
        match tld with
        | .const n => some n
        | _ => none)).foldl step s) := by
  intro decls
  induction decls with
  | nil => intro s; cases v <;> rfl
  | cons tld rest ih =>
    intro s
    cases tld with
    | const n =>
      simp only [loop, List.filterMap_cons, visited_cons, TopLevelDecl.isPublic]
      by_cases hs : skipped v n.isPublic = true
      · simp only [hs, if_true, Outcome.andThen]; exact ih s
      · simp only [hs, if_false, Outcome.andThen, List.foldl_cons]; exact ih _
    | _ => simp only [loop, List.filterMap_cons, Outcome.andThen]; exact ih s

theorem loop_statuses_visited (v : visibility) (step : St → Status → St) :
    ∀ (decls : List TopLevelDecl) (s : St),
      loop (fun s tld =>
        match tld with
        | .status n => if skipped v tld.isPublic then .ok s else Outcome.ok (step s n)
        | _ => .ok s) decls s =
      .ok ((visited v Status.isPublic (decls.filterMap fun tld =>
        match tld with
        | .status n => some n
        | _ => none)).foldl step s) := by
  intro decls
  induction decls with
  | nil => intro s; cases v <;> rfl
  | cons tld rest ih =>
    intro s
    cases tld with
    | status n =>
      simp only [loop, List.filterMap_cons, visited_cons, TopLevelDecl.isPublic]
      by_cases hs : skipped v n.isPublic = true
      · simp only [hs, if_true, Outcome.andThen]; exact ih s
      · simp only [hs, if_false, Outcome.andThen, List.foldl_cons]; exact ih _
    | _ => simp only [loop, List.filterMap_cons, Outcome.andThen]; exact ih s

/-- C11. With a callback that never fails, `forEachFunc`, `forEachConst` and
`forEachStatus` call it once on each declaration of their kind that the
visibility selects, in source order: all of them for `bothPubPri`, the public
ones for `pubOnly`, the private ones for `priOnly`.  The public and the
private ones of a list have no declaration in common and together are the
declarations of the list. -/
theorem forEach_visits (s : St) (v : visibility) :
    (∀ step : St → Func → St,
      forEachFunc s v (fun s n => .ok (step s n)) =
        .ok ((visited v Func.isPublic (funcsOf s.g.files)).foldl step s)) ∧
    (∀ step : St → Const → St,
      forEachConst s v (fun s n => .ok (step s n)) =
        .ok ((visited v Const.isPublic (constsOf s.g.files)).foldl step s)) ∧
    (∀ step : St → Status → St,
      forEachStatus s v (fun s n => .ok (step s n)) =
        .ok ((visited v Status.isPublic (statusesOf s.g.files)).foldl step s)) ∧
    (∀ (α : Type) (p : α → Bool) (l : List α),
      visited .bothPubPri p l = l ∧
      (∀ n ∈ visited .pubOnly p l, p n = true) ∧
      (∀ n ∈ visited .priOnly p l, p n = false) ∧
      List.Disjoint (visited .pubOnly p l) (visited .priOnly p l) ∧
      List.Perm (visited .pubOnly p l ++ visited .priOnly p l) (visited .bothPubPri p l)) := by
  refine ⟨?_, ?_, ?_, ?_⟩
  · intro step
    unfold forEachFunc funcsOf
    rw [loop_flatten]
    exact loop_funcs_visited v step _ s
  · intro step
    unfold forEachConst constsOf
    rw [loop_flatten]
    exact loop_consts_visited v step _ s
  · intro step
    unfold forEachStatus statusesOf
    rw [loop_flatten]
    exact loop_statuses_visited v step _ s
  · intro α p l
    refine ⟨rfl, ?_, ?_, ?_, ?_⟩
    · intro n hn
      exact (List.mem_filter.mp hn).2
    · intro n hn
      simpa using (List.mem_filter.mp hn).2
    · intro n h1 h2
      have a := (List.mem_filter.mp h1).2
      have b := (List.mem_filter.mp h2).2
      simp [a] at b
    · exact List.filter_append_perm p l

/-! ### Searching a marker -/

theorem startsWith_iff (sep s : Bytes) :
    sep.isPrefixOf s = true ↔ ∃ t, s = sep ++ t := by
  rw [List.isPrefixOf_iff_prefix]
  constructor
  · rintro ⟨t, rfl⟩; exact ⟨t, rfl⟩
  · rintro ⟨t, rfl⟩; exact ⟨t, rfl⟩

theorem bytesIndex_some (sep : Bytes) : ∀ (s : Bytes) (i : Nat), bytesIndex s sep = some i →
    s = s.take i ++ sep ++ s.drop (i + sep.length) ∧
    ∀ a b, s = a ++ sep ++ b → i ≤ a.length := by
  intro s
  induction s with
  | nil =>
    intro i h
    unfold bytesIndex at h
    split_ifs at h with hs
    simp only [Option.some.injEq] at h
    subst h; subst hs
    simp
  | cons c rest ih =>
    intro i h
    unfold bytesIndex at h
    split_ifs at h with hp
    · simp only [Option.some.injEq] at h
      subst h
      obtain ⟨t, ht⟩ := (startsWith_iff sep (c :: rest)).mp hp
      refine ⟨?_, fun a b _ => Nat.zero_le _⟩
      simp only [List.take_zero, List.nil_append, Nat.zero_add]
      rw [ht, List.drop_left]
    · cases hr : bytesIndex rest sep with
      | none => rw [hr] at h; simp at h
      | some j =>
        rw [hr] at h
        simp only [Option.map_some', Option.some.injEq] at h
        subst h
        obtain ⟨h1, h2⟩ := ih j hr
        refine ⟨?_, ?_⟩
        · have e : j + 1 + sep.length = (j + sep.length) + 1 := by omega
          rw [List.take_succ_cons, e, List.drop_succ_cons, List.cons_append, List.cons_append, ← h1]
        · intro a b hab
          rcases a with _ | ⟨a0, a'⟩
          · exfalso
            apply hp
            exact (startsWith_iff sep (c :: rest)).mpr ⟨b, by simpa using hab⟩
          · simp only [List.cons_append, List.cons.injEq] at hab
            have := h2 a' b hab.2
            simp only [List.length_cons]
            omega

theorem bytesIndex_of_infix (sep : Bytes) : ∀ (s a b : Bytes), s = a ++ sep ++ b →
    ∃ i, bytesIndex s sep = some i ∧ i ≤ a.length := by
  intro s
  induction s with
  | nil =>
    intro a b h
    have h' := congrArg List.length h
    simp only [List.length_nil, List.length_append] at h'
    have ha : a = [] := List.length_eq_zero.mp (by omega)
    have hs : sep = [] := List.length_eq_zero.mp (by omega)
    subst ha; subst hs
    exact ⟨0, by simp [bytesIndex], Nat.le_refl _⟩
  | cons c rest ih =>
    intro a b h
    unfold bytesIndex
    by_cases hp : sep.isPrefixOf (c :: rest) = true
    · exact ⟨0, by simp [hp], Nat.zero_le _⟩
    · rcases a with _ | ⟨a0, a'⟩
      · exfalso
        apply hp
        exact (startsWith_iff sep (c :: rest)).mpr ⟨b, by simpa using h⟩
      · simp only [List.cons_append, List.cons.injEq] at h
        obtain ⟨i, hi, hle⟩ := ih a' b h.2
        refine ⟨i + 1, by simp [hp, hi], by simp only [List.length_cons]; omega⟩

theorem bytesIndex_none (sep s : Bytes) (h : bytesIndex s sep = none) (a b : Bytes) :
    s ≠ a ++ sep ++ b := by
  intro hs
  obtain ⟨i, hi, _⟩ := bytesIndex_of_infix sep s a b hs
  rw [h] at hi
  exact absurd hi (by simp)

theorem cutFirst_some {s sep a r : Bytes} (h : cutFirst s sep = some (a, r)) :
    s = a ++ sep ++ r ∧ ∀ a' r', s = a' ++ sep ++ r' → a.length ≤ a'.length := by
  unfold cutFirst at h
  cases hi : bytesIndex s sep with
  | none => rw [hi] at h; simp at h
  | some i =>
    rw [hi] at h
    simp only [Option.map_some', Option.some.injEq, Prod.mk.injEq] at h
    obtain ⟨h1, h2⟩ := bytesIndex_some sep s i hi
    obtain ⟨ha, hr⟩ := h
    subst ha; subst hr
    refine ⟨h1, fun a' r' h' => ?_⟩
    have := h2 a' r' h'
    rw [List.length_take]
    omega

theorem cutFirst_none {s sep : Bytes} (h : cutFirst s sep = none) (a b : Bytes) :
    s ≠ a ++ sep ++ b := by
  unfold cutFirst at h
  cases hi : bytesIndex s sep with
  | none => exact bytesIndex_none sep s hi a b
  | some i => rw [hi] at h; simp at h

theorem cutFirst_of_infix {s sep a b : Bytes} (h : s = a ++ sep ++ b) :
    ∃ a' r', cutFirst s sep = some (a', r') ∧ a'.length ≤ a.length := by
  obtain ⟨i, hi, hle⟩ := bytesIndex_of_infix sep s a b h
  refine ⟨s.take i, s.drop (i + sep.length), by simp [cutFirst, hi], ?_⟩
  rw [List.length_take]
  omega

/-! ### Use declarations: what `writeUse` returns -/

theorem trimImplementation_eq (u : Bytes) :
    trimImplementation u = (implementationCut u).getD [] := by
  unfold trimImplementation implementationCut cutFirst
  cases bytesIndex u wiStart with
  | none => rfl
  | some i =>
    simp only [Option.map_some']
    cases bytesIndex (u.drop (i + wiStart.length)) wiEnd with
    | none => rfl
    | some j => rfl

theorem implementationCut_ne_nil {u t : Bytes} (h : implementationCut u = some t) :
    t.length ≠ 0 := by
  unfold implementationCut at h
  cases h1 : cutFirst u wiStart with
  | none => rw [h1] at h; simp at h
  | some p =>
    obtain ⟨a, r⟩ := p
    rw [h1] at h
    simp only at h
    cases h2 : cutFirst r wiEnd with
    | none => rw [h2] at h; simp at h
    | some q =>
      obtain ⟨b, c⟩ := q
      rw [h2] at h
      simp only [Option.some.injEq] at h
      subst h
      simp

theorem writeUseNew_eq (env : Env) (s : St) (d u : Bytes)
    (hroot : s.g.wuffsRoot = [] → env.wuffsRootFn.2 = none)
    (hread : env.readFile (env.useeFilename (useRoot env s.g) d) = .ok u) :
    (∀ inl, inlinedSpec u = some inl →
      writeUseNew env s d =
        .ok { g := genWithUse env s.g d, b := s.b ++ (beginUse env d ++ inl ++ endUse env d) }) ∧
    (inlinedSpec u = none →
      ∃ s', writeUseNew env s d =
        .error (couldNotBeInlined d (env.useeFilename (useRoot env s.g) d)) s' ∧
        s'.g = genWithUse env s.g d) := by
  have hstart : ∃ root, useRoot env s.g = root ∧
      writeUseNew env s d =
        (Outcome.ok ({ g := genWithUse env s.g d, b := s.b } : St)).andThen fun s =>
          match env.readFile (env.useeFilename root d) with
          | .error e => .error e s
          | .ok usee0 =>
            if (trimImplementation usee0).length = 0 then
              .error (couldNotBeInlined d (env.useeFilename root d)) s
            else
              (s.writes (ascii "// ---------------- BEGIN USE " ++ env.quote d ++
                  ascii "\n\n")).andThen fun s =>
              match bytesIndex (trimImplementation usee0) wigbpStart with
              | none => .error (couldNotBeInlined d (env.useeFilename root d)) s
              | some i =>
                (s.writes ((trimImplementation usee0).take i)).andThen fun s =>
                match bytesIndex ((trimImplementation usee0).drop (i + wigbpStart.length))
                    wigbpEnd with
                | none => .error (couldNotBeInlined d (env.useeFilename root d)) s
                | some j =>
                  (s.writes (((trimImplementation usee0).drop (i + wigbpStart.length)).drop
                      (j + wigbpEnd.length))).andThen fun s =>
                  s.writes (ascii "\n\n// ---------------- END   USE " ++ env.quote d ++
                    ascii "\n\n") := by
    refine ⟨useRoot env s.g, rfl, ?_⟩
    unfold writeUseNew
    by_cases h0 : s.g.wuffsRoot = []
    · have h2 := hroot h0
      rcases hw : env.wuffsRootFn with ⟨root, e⟩
      rw [hw] at h2
      simp only at h2
      subst h2
      simp only [h0, if_true, genWithUse, useRoot, hw]
      rfl
    · simp only [h0, if_false, genWithUse, useRoot]
      rfl
  obtain ⟨root, hr, hstart⟩ := hstart
  rw [hstart, hr]
  rw [hr] at hread
  simp only [Outcome.andThen, hread]
  rw [trimImplementation_eq]
  unfold inlinedSpec
  cases ht : implementationCut u with
  | none =>
    refine ⟨fun inl h => by simp at h, fun _ => ⟨{ g := genWithUse env s.g d, b := s.b }, ?_, rfl⟩⟩
    simp only [Option.getD_none, List.length_nil, if_true]
  | some t =>
    have hne := implementationCut_ne_nil ht
    simp only [Option.getD_some, hne, if_false]
    unfold basePublicCut cutFirst
    cases h1 : bytesIndex t wigbpStart with
    | none =>
      refine ⟨fun inl h => by simp at h, fun _ => ?_⟩
      simp only [St.writes, Outcome.andThen]
      exact ⟨_, rfl, rfl⟩
    | some i =>
      simp only [Option.map_some']
      cases h2 : bytesIndex (t.drop (i + wigbpStart.length)) wigbpEnd with
      | none =>
        refine ⟨fun inl h => by simp at h, fun _ => ?_⟩
        simp only [St.writes, Outcome.andThen]
        exact ⟨_, rfl, rfl⟩
      | some j =>
        refine ⟨fun inl h => ?_, fun h => by simp at h⟩
        simp only [Option.map_some', Option.some.injEq] at h
        subst h
        simp only [St.writes, Outcome.andThen, buffer.writes, beginUse, endUse,
          List.append_assoc]

/-- A use declaration whose path is new runs `writeUse` as for a new path. -/
theorem writeUse_new (env : Env) (s : St) (n : Use)
    (hseen : pathSeen s.g (usePath env n) = false) :
    ∃ s0 : St, writeUse env s n = writeUseNew env s0 (usePath env n) ∧
      s0.b = s.b ∧ s0.g.wuffsRoot = s.g.wuffsRoot ∧ useRoot env s0.g = useRoot env s.g ∧
      genWithUse env s0.g (usePath env n) = genWithUse env s.g (usePath env n) := by
  unfold writeUse
  unfold pathSeen at hseen
  cases hm : s.g.usesMap with
  | none =>
    refine ⟨{ s with g := { s.g with usesMap := some [] } }, rfl, rfl, rfl, rfl, ?_⟩
    simp only [genWithUse, hm, Option.getD_some, Option.getD_none, useRoot]
  | some m =>
    rw [hm] at hseen
    simp only at hseen
    refine ⟨s, ?_, rfl, rfl, rfl, rfl⟩
    unfold usePath at hseen
    simp only [usePath, hseen]
    rfl

theorem pathSeen_eq (g : gen) (p : Bytes) : pathSeen g p = (g.usesMap.getD []).contains p := by
  unfold pathSeen
  cases g.usesMap with
  | none => rfl
  | some m => rfl

theorem writeUse_seen (env : Env) (s : St) (n : Use)
    (hseen : pathSeen s.g (usePath env n) = true) : writeUse env s n = .ok s := by
  unfold writeUse
  unfold pathSeen usePath at hseen
  cases hm : s.g.usesMap with
  | none => rw [hm] at hseen; simp at hseen
  | some m =>
    rw [hm] at hseen
    simp only at hseen
    simp only [hseen, if_true]

/-- A call of `writeUse` for a new path that returns `nil` has obtained the
root and read the artifact. -/
theorem writeUseNew_ok_reads (env : Env) (s s' : St) (d : Bytes)
    (h : writeUseNew env s d = .ok s') :
    (s.g.wuffsRoot = [] → env.wuffsRootFn.2 = none) ∧
    ∃ u, env.readFile (env.useeFilename (useRoot env s.g) d) = .ok u := by
  unfold writeUseNew at h
  simp only at h
  obtain ⟨s1, h1, h2⟩ := andThen_eq_ok.mp h
  clear h
  have hs1 : (s.g.wuffsRoot = [] → env.wuffsRootFn.2 = none) ∧ s1.g.wuffsRoot = useRoot env s.g := by
    unfold useRoot
    by_cases h0 : s.g.wuffsRoot = []
    · simp only [h0, if_true] at h1 ⊢
      rcases hr : env.wuffsRootFn with ⟨root, _ | e⟩ <;> rw [hr] at h1 <;>
        simp only [Outcome.ok.injEq, reduceCtorEq] at h1
      subst h1
      exact ⟨fun _ => rfl, rfl⟩
    · simp only [h0, if_false, Outcome.ok.injEq] at h1 ⊢
      subst h1
      exact ⟨fun hc => hc.elim, rfl⟩
  refine ⟨hs1.1, ?_⟩
  rw [← hs1.2]
  cases hf : env.readFile (env.useeFilename s1.g.wuffsRoot d) with
  | error e => rw [hf] at h2; simp at h2
  | ok usee0 => exact ⟨usee0, rfl⟩

/-- What a call of `writeUse` for a new path does when it returns `nil`. -/
theorem writeUse_ok_new (env : Env) (s s' : St) (n : Use)
    (hseen : pathSeen s.g (usePath env n) = false)
    (h : writeUse env s n = .ok s') :
    (s.g.wuffsRoot = [] → env.wuffsRootFn.2 = none) ∧
    ∃ u inl, env.readFile (env.useeFilename (useRoot env s.g) (usePath env n)) = .ok u ∧
      inlinedSpec u = some inl ∧
      s' = { g := genWithUse env s.g (usePath env n),
             b := s.b ++ (beginUse env (usePath env n) ++ inl ++ endUse env (usePath env n)) } := by
  obtain ⟨s0, h0, hb, hw, hr, hg⟩ := writeUse_new env s n hseen
  rw [h0] at h
  obtain ⟨hroot, u, hread⟩ := writeUseNew_ok_reads env s0 s' _ h
  have hroot' : s.g.wuffsRoot = [] → env.wuffsRootFn.2 = none := by rw [← hw]; exact hroot
  refine ⟨hroot', u, ?_⟩
  obtain ⟨hok, herr⟩ := writeUseNew_eq env s0 _ u hroot hread
  cases hi : inlinedSpec u with
  | none =>
    obtain ⟨e, he, _⟩ := herr hi
    rw [he] at h
    simp at h
  | some inl =>
    have := hok inl hi
    rw [this, hg, hb] at h
    simp only [Outcome.ok.injEq] at h
    exact ⟨inl, by rw [← hr]; exact hread, rfl, h.symm⟩

/-- What a call of `writeUse` for a new path returns once the root is known
and the artifact is read. -/
theorem writeUse_new_eq (env : Env) (s : St) (n : Use) (u : Bytes)
    (hseen : pathSeen s.g (usePath env n) = false)
    (hroot : s.g.wuffsRoot = [] → env.wuffsRootFn.2 = none)
    (hread : env.readFile (env.useeFilename (useRoot env s.g) (usePath env n)) = .ok u) :
    (∀ inl, inlinedSpec u = some inl →
      writeUse env s n =
        .ok { g := genWithUse env s.g (usePath env n),
              b := s.b ++ (beginUse env (usePath env n) ++ inl ++ endUse env (usePath env n)) }) ∧
    (inlinedSpec u = none →
      ∃ s', writeUse env s n =
        .error (couldNotBeInlined (usePath env n)
          (env.useeFilename (useRoot env s.g) (usePath env n))) s' ∧
        s'.g = genWithUse env s.g (usePath env n)) := by
  obtain ⟨s0, h0, hb, hw, hr, hg⟩ := writeUse_new env s n hseen
  have hroot0 : s0.g.wuffsRoot = [] → env.wuffsRootFn.2 = none := by rw [hw]; exact hroot
  have hread0 : env.readFile (env.useeFilename (useRoot env s0.g) (usePath env n)) = .ok u := by
    rw [hr]; exact hread
  obtain ⟨hok, herr⟩ := writeUseNew_eq env s0 _ u hroot0 hread0
  rw [h0]
  refine ⟨fun inl hi => ?_, fun hi => ?_⟩
  · rw [hok inl hi, hg, hb]
  · obtain ⟨s', he, hg'⟩ := herr hi
    exact ⟨s', by rw [he, hr], by rw [hg', hg]⟩

theorem cutFirst_eq_none_iff (s sep : Bytes) : cutFirst s sep = none ↔ ¬ sep <:+: s := by
  constructor
  · intro h ⟨a, b, hab⟩
    exact cutFirst_none h a b hab.symm
  · intro h
    cases hc : cutFirst s sep with
    | none => rfl
    | some p =>
      exfalso
      obtain ⟨a, r⟩ := p
      exact h ⟨a, r, (cutFirst_some hc).1.symm⟩

theorem implementationCut_some {u t : Bytes} (h : implementationCut u = some t) :
    ∃ a r b c, cutFirst u wiStart = some (a, r) ∧ cutFirst r wiEnd = some (b, c) ∧
      t = a ++ [10] ++ c := by
  unfold implementationCut at h
  cases h1 : cutFirst u wiStart with
  | none => rw [h1] at h; simp at h
  | some p =>
    obtain ⟨a, r⟩ := p
    rw [h1] at h
    simp only at h
    cases h2 : cutFirst r wiEnd with
    | none => rw [h2] at h; simp at h
    | some q =>
      obtain ⟨b, c⟩ := q
      rw [h2] at h
      simp only [Option.some.injEq] at h
      exact ⟨a, r, b, c, rfl, h2, h.symm⟩

theorem basePublicCut_some {t inl : Bytes} (h : basePublicCut t = some inl) :
    ∃ x r y z, cutFirst t wigbpStart = some (x, r) ∧ cutFirst r wigbpEnd = some (y, z) ∧
      inl = x ++ z := by
  unfold basePublicCut at h
  cases h1 : cutFirst t wigbpStart with
  | none => rw [h1] at h; simp at h
  | some p =>
    obtain ⟨x, r⟩ := p
    rw [h1] at h
    simp only at h
    cases h2 : cutFirst r wigbpEnd with
    | none => rw [h2] at h; simp at h
    | some q =>
      obtain ⟨y, z⟩ := q
      rw [h2] at h
      simp only [Option.some.injEq] at h
      exact ⟨x, r, y, z, rfl, h2, h.symm⟩

theorem inlinedSpec_some {u inl : Bytes} (h : inlinedSpec u = some inl) :
    ∃ a r b c x r' y z, cutFirst u wiStart = some (a, r) ∧ cutFirst r wiEnd = some (b, c) ∧
      cutFirst (a ++ [10] ++ c) wigbpStart = some (x, r') ∧ cutFirst r' wigbpEnd = some (y, z) ∧
      inl = x ++ z := by
  unfold inlinedSpec at h
  cases ht : implementationCut u with
  | none => rw [ht] at h; simp at h
  | some t =>
    rw [ht] at h
    simp only at h
    obtain ⟨a, r, b, c, h1, h2, h3⟩ := implementationCut_some ht
    obtain ⟨x, r', y, z, h4, h5, h6⟩ := basePublicCut_some h
    subst h3
    exact ⟨a, r, b, c, x, r', y, z, h1, h2, h4, h5, h6⟩

theorem inlinedSpec_eq_none_iff (u : Bytes) :
    inlinedSpec u = none ↔
      (¬ wiStart <:+: u ∨
       (∃ a r, cutFirst u wiStart = some (a, r) ∧ ¬ wiEnd <:+: r) ∨
       (∃ t, implementationCut u = some t ∧ ¬ wigbpStart <:+: t) ∨
       (∃ t x r, implementationCut u = some t ∧ cutFirst t wigbpStart = some (x, r) ∧
          ¬ wigbpEnd <:+: r)) := by
  constructor
  · intro h
    unfold inlinedSpec at h
    cases ht : implementationCut u with
    | none =>
      unfold implementationCut at ht
      cases h1 : cutFirst u wiStart with
      | none => exact Or.inl ((cutFirst_eq_none_iff _ _).mp h1)
      | some p =>
        obtain ⟨a, r⟩ := p
        rw [h1] at ht
        simp only at ht
        cases h2 : cutFirst r wiEnd with
        | none => exact Or.inr (Or.inl ⟨a, r, rfl, (cutFirst_eq_none_iff _ _).mp h2⟩)
        | some q => rw [h2] at ht; simp at ht
    | some t =>
      rw [ht] at h
      simp only at h
      unfold basePublicCut at h
      cases h1 : cutFirst t wigbpStart with
      | none => exact Or.inr (Or.inr (Or.inl ⟨t, rfl, (cutFirst_eq_none_iff _ _).mp h1⟩))
      | some p =>
        obtain ⟨x, r⟩ := p
        rw [h1] at h
        simp only at h
        cases h2 : cutFirst r wigbpEnd with
        | none =>
          exact Or.inr (Or.inr (Or.inr ⟨t, x, r, rfl, h1, (cutFirst_eq_none_iff _ _).mp h2⟩))
        | some q => rw [h2] at h; simp at h
  · intro h
    rcases h with h | ⟨a, r, h1, h2⟩ | ⟨t, h1, h2⟩ | ⟨t, x, r, h1, h2, h3⟩
    · have := (cutFirst_eq_none_iff _ _).mpr h
      simp only [inlinedSpec, implementationCut, this]
    · have := (cutFirst_eq_none_iff _ _).mpr h2
      simp only [inlinedSpec, implementationCut, h1, this]
    · have := (cutFirst_eq_none_iff _ _).mpr h2
      simp only [inlinedSpec, h1, basePublicCut, this]
    · have := (cutFirst_eq_none_iff _ _).mpr h3
      simp only [inlinedSpec, h1, basePublicCut, h2, this]

/-- C13. For a use declaration whose path is new, once the root is known and
the artifact text `u` is read, `writeUse` returns the error `could not be
inlined` exactly when `u` lacks `wiStart`, or lacks `wiEnd` after the first
`wiStart`, or, with that span replaced by a newline, lacks `wigbpStart`, or
lacks `wigbpEnd` after the first `wigbpStart`; and it returns either that
error or `nil`. -/
theorem writeUse_error_iff (env : Env) (s : St) (n : Use) (u : Bytes)
    (hseen : pathSeen s.g (usePath env n) = false)
    (hroot : s.g.wuffsRoot = [] → env.wuffsRootFn.2 = none)
    (hread : env.readFile (env.useeFilename (useRoot env s.g) (usePath env n)) = .ok u) :
    ((∃ s', writeUse env s n =
        .error (couldNotBeInlined (usePath env n)
          (env.useeFilename (useRoot env s.g) (usePath env n))) s') ↔
      (¬ wiStart <:+: u ∨
       (∃ a r, cutFirst u wiStart = some (a, r) ∧ ¬ wiEnd <:+: r) ∨
       (∃ t, implementationCut u = some t ∧ ¬ wigbpStart <:+: t) ∨
       (∃ t x r, implementationCut u = some t ∧ cutFirst t wigbpStart = some (x, r) ∧
          ¬ wigbpEnd <:+: r))) ∧
    ((∃ s', writeUse env s n = .ok s') ∨
      (∃ s', writeUse env s n =
        .error (couldNotBeInlined (usePath env n)
          (env.useeFilename (useRoot env s.g) (usePath env n))) s')) := by
  obtain ⟨hok, herr⟩ := writeUse_new_eq env s n u hseen hroot hread
  rw [← inlinedSpec_eq_none_iff]
  cases hi : inlinedSpec u with
  | none =>
    obtain ⟨s', he, _⟩ := herr hi
    exact ⟨⟨fun _ => rfl, fun _ => ⟨s', he⟩⟩, Or.inr ⟨s', he⟩⟩
  | some inl =>
    have h := hok inl hi
    refine ⟨⟨fun ⟨s', he⟩ => ?_, fun hc => by simp at hc⟩, Or.inl ⟨_, h⟩⟩
    rw [h] at he
    simp at he

theorem writeUse_error_iff_witness :
    pathSeen demoUseGen (usePath demoUseEnv { path := 40 }) = false ∧
    demoUseEnv.readFile (demoUseEnv.useeFilename (useRoot demoUseEnv demoUseGen)
      (usePath demoUseEnv { path := 40 })) = .ok demoUsee ∧
    ((∃ s', writeUse demoUseEnv { g := demoUseGen, b := [] } { path := 40 } =
        .error (couldNotBeInlined (usePath demoUseEnv { path := 40 })
          (demoUseEnv.useeFilename (useRoot demoUseEnv demoUseGen)
            (usePath demoUseEnv { path := 40 }))) s') ↔
      (¬ wiStart <:+: demoUsee ∨
       (∃ a r, cutFirst demoUsee wiStart = some (a, r) ∧ ¬ wiEnd <:+: r) ∨
       (∃ t, implementationCut demoUsee = some t ∧ ¬ wigbpStart <:+: t) ∨
       (∃ t x r, implementationCut demoUsee = some t ∧ cutFirst t wigbpStart = some (x, r) ∧
          ¬ wigbpEnd <:+: r))) :=
  ⟨rfl, rfl,
    (writeUse_error_iff demoUseEnv { g := demoUseGen, b := [] } { path := 40 } demoUsee rfl
      (fun _ => rfl) rfl).1⟩

/-- C15. When `writeUse` returns `nil` for a use declaration whose path `p`
is new, it has read an artifact text `u` and appended to the buffer exactly
the `BEGIN USE` marker of `p`, then `x`, then `z`, then the `END USE` marker
of `p`, where `t` is `u` with its first `wiStart ... wiEnd` span replaced by
one newline, `x` is the part of `t` before the first `wigbpStart` and `z` the
part of `t` after the first `wigbpEnd` that follows it; the text `y` between
those two markers is left out. -/
theorem writeUse_appended (env : Env) (s s' : St) (n : Use)
    (hseen : pathSeen s.g (usePath env n) = false)
    (h : writeUse env s n = .ok s') :
    ∃ u a r b c t x r' y z,
      env.readFile (env.useeFilename (useRoot env s.g) (usePath env n)) = .ok u ∧
      cutFirst u wiStart = some (a, r) ∧ cutFirst r wiEnd = some (b, c) ∧
      t = a ++ [10] ++ c ∧
      cutFirst t wigbpStart = some (x, r') ∧ cutFirst r' wigbpEnd = some (y, z) ∧
      t = x ++ wigbpStart ++ y ++ wigbpEnd ++ z ∧
      s'.b = s.b ++ (beginUse env (usePath env n) ++ x ++ z ++ endUse env (usePath env n)) := by
  obtain ⟨_, u, inl, hread, hi, hs⟩ := writeUse_ok_new env s s' n hseen h
  obtain ⟨a, r, b, c, x, r', y, z, h1, h2, h3, h4, h5⟩ := inlinedSpec_some hi
  refine ⟨u, a, r, b, c, a ++ [10] ++ c, x, r', y, z, hread, h1, h2, rfl, h3, h4, ?_, ?_⟩
  · have e1 := (cutFirst_some h3).1
    have e2 := (cutFirst_some h4).1
    rw [e1, e2]
    simp only [List.append_assoc]
  · rw [hs, h5]
    simp only [List.append_assoc]

theorem writeUse_appended_witness :
    pathSeen demoUseGen (usePath demoUseEnv { path := 40 }) = false ∧
    ∃ u a r b c t x r' y z,
      demoUseEnv.readFile (demoUseEnv.useeFilename (useRoot demoUseEnv demoUseGen)
        (usePath demoUseEnv { path := 40 })) = .ok u ∧
      cutFirst u wiStart = some (a, r) ∧ cutFirst r wiEnd = some (b, c) ∧
      t = a ++ [10] ++ c ∧
      cutFirst t wigbpStart = some (x, r') ∧ cutFirst r' wigbpEnd = some (y, z) ∧
      t = x ++ wigbpStart ++ y ++ wigbpEnd ++ z ∧
      beginUse demoUseEnv (ascii "std/lzw") ++ ascii "A\nBC" ++ endUse demoUseEnv (ascii "std/lzw") =
        [] ++ (beginUse demoUseEnv (usePath demoUseEnv { path := 40 }) ++ x ++ z ++
          endUse demoUseEnv (usePath demoUseEnv { path := 40 })) :=
  ⟨rfl, writeUse_appended demoUseEnv { g := demoUseGen, b := [] }
    { g := genWithUse demoUseEnv demoUseGen (ascii "std/lzw"),
      b := beginUse demoUseEnv (ascii "std/lzw") ++ ascii "A\nBC" ++
        endUse demoUseEnv (ascii "std/lzw") }
    { path := 40 } rfl rfl⟩

theorem cutFirst_append {s sep a r : Bytes} (h : cutFirst s sep = some (a, r)) (v : Bytes) :
    cutFirst (s ++ v) sep = some (a, r ++ v) := by
  obtain ⟨hs, hmin⟩ := cutFirst_some h
  have hsv : s ++ v = a ++ sep ++ (r ++ v) := by rw [hs]; simp only [List.append_assoc]
  obtain ⟨a', r', hc, hle⟩ := cutFirst_of_infix hsv
  obtain ⟨hs', _⟩ := cutFirst_some hc
  -- the occurrence found in `s ++ v` ends inside `s`
  have hlen : a'.length + sep.length ≤ s.length := by
    rw [hs]; simp only [List.length_append]; omega
  have htake : s = a' ++ sep ++ (s.drop (a'.length + sep.length)) := by
    have e1 : (s ++ v).take (a'.length + sep.length) = s.take (a'.length + sep.length) :=
      List.take_append_of_le_length hlen
    have e2 : (a' ++ sep ++ r').take (a'.length + sep.length) = a' ++ sep := by
      rw [← List.length_append]; exact List.take_left' rfl
    have e3 : s.take (a'.length + sep.length) = a' ++ sep := by rw [← e1, hs', e2]
    calc s = s.take (a'.length + sep.length) ++ s.drop (a'.length + sep.length) :=
          (List.take_append_drop _ _).symm
      _ = a' ++ sep ++ s.drop (a'.length + sep.length) := by rw [e3]
  have hge := hmin a' _ htake
  have hlen_eq : a'.length = a.length := by omega
  have e : a' ++ (sep ++ r') = a ++ (sep ++ (r ++ v)) := by
    rw [← List.append_assoc, ← List.append_assoc, ← hs', hsv]
  have ha : a' = a := List.append_inj_left e hlen_eq
  subst ha
  have hr : r' = r ++ v := by
    have := List.append_cancel_left e
    exact List.append_cancel_left this
  rw [hc, hr]

theorem inlinedSpec_append {u inl : Bytes} (h : inlinedSpec u = some inl) (v : Bytes) :
    inlinedSpec (u ++ v) = some (inl ++ v) := by
  obtain ⟨a, r, b, c, x, r', y, z, h1, h2, h3, h4, h5⟩ := inlinedSpec_some h
  have g1 := cutFirst_append h1 v
  have g2 := cutFirst_append h2 v
  have g3 := cutFirst_append h3 v
  have g4 := cutFirst_append h4 v
  have e : a ++ [10] ++ (c ++ v) = a ++ [10] ++ c ++ v := by simp only [List.append_assoc]
  have hcut : implementationCut (u ++ v) = some (a ++ [10] ++ c ++ v) := by
    simp only [implementationCut, g1, g2, e]
  have hbase : basePublicCut (a ++ [10] ++ c ++ v) = some (x ++ (z ++ v)) := by
    simp only [basePublicCut, g3, g4]
  unfold inlinedSpec
  rw [hcut]
  simp only
  rw [hbase, h5, List.append_assoc]

/-- C14 (the claim as stated fails). The artifact `demoUseeTwice` holds two
implementation regions and two base regions, and `writeUse` returns `nil`
for it. -/
theorem writeUse_accepts_two_regions :
    demoUseeTwice =
      ascii "A" ++ wiStart ++ ascii "impl" ++ wiEnd ++ ascii "B" ++ wigbpStart ++ ascii "base" ++
        wigbpEnd ++ ascii "C" ++ wiStart ++ ascii "impl2" ++ wiEnd ++ ascii "D" ++ wigbpStart ++
        ascii "base2" ++ wigbpEnd ++ ascii "E" ∧
    demoUseEnv.readFile (demoUseEnv.useeFilename (useRoot demoUseEnv demoUseGen)
      (usePath demoUseEnv { path := 41 })) = .ok demoUseeTwice ∧
    writeUse demoUseEnv { g := demoUseGen, b := [] } { path := 41 } =
      .ok { g := genWithUse demoUseEnv demoUseGen (ascii "std/gif"), b := demoUseTwiceText } :=
  ⟨rfl, rfl, rfl⟩

/-- C14 (amended). When `writeUse` returns `nil` for a use declaration whose
path is new, the artifact `u` it read contains an implementation region
(`wiStart`, later `wiEnd`) and, with that span replaced by a newline, a base
region (`wigbpStart`, later `wigbpEnd`).  That either region is the only one
is not checked: whatever text `v` follows such an artifact, further regions
included, `writeUse` returns `nil` for `u ++ v` as well. -/
theorem writeUse_regions (env : Env) (s s' : St) (n : Use)
    (hseen : pathSeen s.g (usePath env n) = false)
    (h : writeUse env s n = .ok s') :
    ∃ u a b c x y z,
      env.readFile (env.useeFilename (useRoot env s.g) (usePath env n)) = .ok u ∧
      u = a ++ wiStart ++ b ++ wiEnd ++ c ∧
      a ++ [10] ++ c = x ++ wigbpStart ++ y ++ wigbpEnd ++ z ∧
      ∀ (v : Bytes) (env' : Env) (q : St) (m : Use),
        pathSeen q.g (usePath env' m) = false →
        (q.g.wuffsRoot = [] → env'.wuffsRootFn.2 = none) →
        env'.readFile (env'.useeFilename (useRoot env' q.g) (usePath env' m)) = .ok (u ++ v) →
        ∃ q', writeUse env' q m = .ok q' := by
  obtain ⟨_, u, inl, hread, hi, hs⟩ := writeUse_ok_new env s s' n hseen h
  obtain ⟨a, r, b, c, x, r', y, z, h1, h2, h3, h4, h5⟩ := inlinedSpec_some hi
  refine ⟨u, a, b, c, x, y, z, hread, ?_, ?_, ?_⟩
  · have e1 := (cutFirst_some h1).1
    have e2 := (cutFirst_some h2).1
    rw [e1, e2]
    simp only [List.append_assoc]
  · have e1 := (cutFirst_some h3).1
    have e2 := (cutFirst_some h4).1
    rw [e1, e2]
    simp only [List.append_assoc]
  · intro v env' q m hq hroot hread'
    exact ⟨_, (writeUse_new_eq env' q m (u ++ v) hq hroot hread').1 _ (inlinedSpec_append hi v)⟩

theorem writeUse_regions_witness :
    pathSeen demoUseGen (usePath demoUseEnv { path := 41 }) = false ∧
    ∃ u a b c x y z,
      demoUseEnv.readFile (demoUseEnv.useeFilename (useRoot demoUseEnv demoUseGen)
        (usePath demoUseEnv { path := 41 })) = .ok u ∧
      u = a ++ wiStart ++ b ++ wiEnd ++ c ∧
      a ++ [10] ++ c = x ++ wigbpStart ++ y ++ wigbpEnd ++ z ∧
      ∀ (v : Bytes) (env' : Env) (q : St) (m : Use),
        pathSeen q.g (usePath env' m) = false →
        (q.g.wuffsRoot = [] → env'.wuffsRootFn.2 = none) →
        env'.readFile (env'.useeFilename (useRoot env' q.g) (usePath env' m)) = .ok (u ++ v) →
        ∃ q', writeUse env' q m = .ok q' :=
  ⟨rfl, writeUse_regions demoUseEnv { g := demoUseGen, b := [] }
    { g := genWithUse demoUseEnv demoUseGen (ascii "std/gif"), b := demoUseTwiceText }
    { path := 41 } rfl rfl⟩

/-- C16 (the claim as stated fails). The artifact `demoUsee` holds `wiStart`
and `wiEnd`; `writeUse` returns `nil` for it, and the text it appended holds
neither. -/
theorem writeUse_cuts_implementation_markers :
    wiStart <:+: demoUsee ∧ wiEnd <:+: demoUsee ∧
    writeUse demoUseEnv { g := demoUseGen, b := [] } { path := 40 } =
      .ok { g := genWithUse demoUseEnv demoUseGen (ascii "std/lzw"), b := demoUseText } ∧
    ¬ wiStart <:+: demoUseText ∧ ¬ wiEnd <:+: demoUseText :=
  ⟨by decide, by decide, rfl, by decide, by decide⟩

/-- C16 (amended). When `writeUse` returns `nil` for a use declaration whose
path is new, the implementation-guard markers of the artifact `u` it read
are not inlined: `u` is `a ++ wiStart ++ b ++ wiEnd ++ c` with the first
`wiStart` of `u` and the first `wiEnd` after it, and the inlined text is
taken from `a`, one newline and `c` alone (less their base region). -/
theorem writeUse_implementation_cut (env : Env) (s s' : St) (n : Use)
    (hseen : pathSeen s.g (usePath env n) = false)
    (h : writeUse env s n = .ok s') :
    ∃ u a b c inl,
      env.readFile (env.useeFilename (useRoot env s.g) (usePath env n)) = .ok u ∧
      u = a ++ wiStart ++ b ++ wiEnd ++ c ∧
      (∀ a' r', u = a' ++ wiStart ++ r' → a.length ≤ a'.length) ∧
      (∀ b' c', b ++ wiEnd ++ c = b' ++ wiEnd ++ c' → b.length ≤ b'.length) ∧
      basePublicCut (a ++ [10] ++ c) = some inl ∧
      s'.b = s.b ++ (beginUse env (usePath env n) ++ inl ++ endUse env (usePath env n)) := by
  obtain ⟨_, u, inl, hread, hi, hs⟩ := writeUse_ok_new env s s' n hseen h
  unfold inlinedSpec at hi
  cases ht : implementationCut u with
  | none => rw [ht] at hi; simp at hi
  | some t =>
    rw [ht] at hi
    simp only at hi
    obtain ⟨a, r, b, c, h1, h2, h3⟩ := implementationCut_some ht
    obtain ⟨e1, m1⟩ := cutFirst_some h1
    obtain ⟨e2, m2⟩ := cutFirst_some h2
    subst h3
    refine ⟨u, a, b, c, inl, hread, ?_, m1, ?_, hi, by rw [hs]⟩
    · rw [e1, e2]
      simp only [List.append_assoc]
    · intro b' c' hb
      exact m2 b' c' (by rw [e2]; exact hb)

theorem writeUse_implementation_cut_witness :
    pathSeen demoUseGen (usePath demoUseEnv { path := 40 }) = false ∧
    ∃ u a b c inl,
      demoUseEnv.readFile (demoUseEnv.useeFilename (useRoot demoUseEnv demoUseGen)
        (usePath demoUseEnv { path := 40 })) = .ok u ∧
      u = a ++ wiStart ++ b ++ wiEnd ++ c ∧
      (∀ a' r', u = a' ++ wiStart ++ r' → a.length ≤ a'.length) ∧
      (∀ b' c', b ++ wiEnd ++ c = b' ++ wiEnd ++ c' → b.length ≤ b'.length) ∧
      basePublicCut (a ++ [10] ++ c) = some inl ∧
      demoUseText = [] ++ (beginUse demoUseEnv (usePath demoUseEnv { path := 40 }) ++ inl ++
        endUse demoUseEnv (usePath demoUseEnv { path := 40 })) :=
  ⟨rfl, writeUse_implementation_cut demoUseEnv { g := demoUseGen, b := [] }
    { g := genWithUse demoUseEnv demoUseGen (ascii "std/lzw"), b := demoUseText }
    { path := 40 } rfl rfl⟩

theorem useRoot_genWithUse (env : Env) (g : gen) (d : Bytes) :
    useRoot env (genWithUse env g d) = useRoot env g := by
  unfold useRoot genWithUse
  by_cases h : g.wuffsRoot = []
  · simp only [h, if_true]
    by_cases h2 : env.wuffsRootFn.1 = []
    · simp only [if_true, useRoot, h, h2]
    · simp only [useRoot, h, if_true, h2, if_false]
  · simp only [useRoot, h, if_false]

theorem firstUses_mem (ps : List Bytes) : ∀ (seen : List Bytes) (p : Bytes),
    p ∈ firstUses seen ps ↔ p ∈ ps ∧ seen.contains p = false := by
  induction ps with
  | nil => intro seen p; simp [firstUses]
  | cons q ps ih =>
    intro seen p
    unfold firstUses
    by_cases hq : seen.contains q = true
    · simp only [hq, if_true, ih, List.mem_cons]
      constructor
      · rintro ⟨h1, h2⟩; exact ⟨Or.inr h1, h2⟩
      · rintro ⟨h1 | h1, h2⟩
        · subst h1; rw [hq] at h2; exact absurd h2 (by simp)
        · exact ⟨h1, h2⟩
    · have hq' : seen.contains q = false := by simpa using hq
      simp only [hq', Bool.false_eq_true, if_false, List.mem_cons, ih]
      constructor
      · rintro (h1 | ⟨h1, h2⟩)
        · subst h1; exact ⟨Or.inl rfl, hq'⟩
        · refine ⟨Or.inr h1, ?_⟩
          simp only [List.contains_cons, Bool.or_eq_false_iff] at h2
          exact h2.2
      · rintro ⟨h1 | h1, h2⟩
        · exact Or.inl h1
        · by_cases hpq : p = q
          · exact Or.inl hpq
          · refine Or.inr ⟨h1, ?_⟩
            simp only [List.contains_cons, Bool.or_eq_false_iff]
            exact ⟨by simpa using hpq, h2⟩

theorem firstUses_nodup (ps : List Bytes) : ∀ seen : List Bytes, (firstUses seen ps).Nodup := by
  induction ps with
  | nil => intro seen; simp [firstUses]
  | cons q ps ih =>
    intro seen
    unfold firstUses
    by_cases hq : seen.contains q = true
    · simp only [hq, if_true]; exact ih seen
    · have hq' : seen.contains q = false := by simpa using hq
      simp only [hq', Bool.false_eq_true, if_false, List.nodup_cons]
      refine ⟨fun hmem => ?_, ih _⟩
      have := ((firstUses_mem ps (q :: seen) q).mp hmem).2
      simp at this

theorem loop_writeUse (env : Env) : ∀ (l : List TopLevelDecl) (s s' : St),
    loop (fun s tld =>
      match tld with
      | .use n => writeUse env s n
      | _ => .ok s) l s = .ok s' →
    s'.b = s.b ++ ((firstUses (s.g.usesMap.getD []) (usePathsOf env [l])).map
      (useBlock env (useRoot env s.g))).flatten ∧
    ∀ p ∈ firstUses (s.g.usesMap.getD []) (usePathsOf env [l]),
      ∃ u inl, env.readFile (env.useeFilename (useRoot env s.g) p) = .ok u ∧
        inlinedSpec u = some inl := by
  intro l
  induction l with
  | nil =>
    intro s s' h
    simp only [loop, Outcome.ok.injEq] at h
    subst h
    simp [usePathsOf, firstUses]
  | cons tld l ih =>
    intro s s' h
    rw [loop] at h
    obtain ⟨s1, h1, h2⟩ := andThen_eq_ok.mp h
    have hskip : (∀ n, tld ≠ .use n) →
        usePathsOf env [tld :: l] = usePathsOf env [l] := by
      intro hne
      cases tld with
      | use n => exact absurd rfl (hne n)
      | _ => simp [usePathsOf]
    cases tld with
    | use n =>
      simp only at h1
      have hpaths : usePathsOf env [.use n :: l] = usePath env n :: usePathsOf env [l] := by
        simp [usePathsOf]
      rw [hpaths]
      by_cases hseen : pathSeen s.g (usePath env n) = true
      · rw [writeUse_seen env s n hseen] at h1
        simp only [Outcome.ok.injEq] at h1
        subst h1
        rw [pathSeen_eq] at hseen
        simp only [firstUses, hseen, if_true]
        exact ih s s' h2
      · have hseen' : pathSeen s.g (usePath env n) = false := by simpa using hseen
        obtain ⟨_, u, inl, hread, hi, hs1⟩ := writeUse_ok_new env s s1 n hseen' h1
        rw [pathSeen_eq] at hseen'
        have hmap : s1.g.usesMap.getD [] = usePath env n :: s.g.usesMap.getD [] := by
          rw [hs1]; rfl
        have hroot : useRoot env s1.g = useRoot env s.g := by
          rw [hs1]; exact useRoot_genWithUse env s.g _
        obtain ⟨hb, hall⟩ := ih s1 s' h2
        rw [hmap, hroot] at hb hall
        have hblock : useBlock env (useRoot env s.g) (usePath env n) =
            beginUse env (usePath env n) ++ inl ++ endUse env (usePath env n) := by
          simp only [useBlock, hread, hi, Option.getD_some]
        simp only [firstUses, hseen', Bool.false_eq_true, if_false, List.map_cons,
          List.flatten_cons, List.mem_cons]
        refine ⟨?_, ?_⟩
        · rw [hb, hblock, hs1]
          simp only [List.append_assoc]
        · rintro p (hp | hp)
          · subst hp
            exact ⟨u, inl, hread, hi⟩
          · exact hall p hp
    | const n =>
      simp only [Outcome.ok.injEq] at h1
      rw [hskip (by intro n; simp)]
      subst h1
      exact ih s s' h2
    | func n =>
      simp only [Outcome.ok.injEq] at h1
      rw [hskip (by intro n; simp)]
      subst h1
      exact ih s s' h2
    | status n =>
      simp only [Outcome.ok.injEq] at h1
      rw [hskip (by intro n; simp)]
      subst h1
      exact ih s s' h2
    | struct n =>
      simp only [Outcome.ok.injEq] at h1
      rw [hskip (by intro n; simp)]
      subst h1
      exact ih s s' h2
    | other p =>
      simp only [Outcome.ok.injEq] at h1
      rw [hskip (by intro n; simp)]
      subst h1
      exact ih s s' h2

theorem writeUseNew_after (env : Env) (s q' : St) (d : Bytes)
    (h : (writeUseNew env s d).after? = some q') :
    q'.g.usesMap = some (d :: s.g.usesMap.getD []) := by
  unfold writeUseNew at h
  simp only [St.writes] at h
  by_cases h0 : s.g.wuffsRoot = []
  · rcases hr : env.wuffsRootFn with ⟨root, _ | e⟩
    · simp only [h0, if_true, hr, Outcome.andThen] at h
      repeat' split at h
      all_goals
        simp only [Outcome.after?, Option.some.injEq, reduceCtorEq] at h
        try subst h
        try rfl
    · simp only [h0, if_true, hr, Outcome.andThen, Outcome.after?, Option.some.injEq] at h
      subst h
      rfl
  · simp only [h0, if_false, Outcome.andThen] at h
    repeat' split at h
    all_goals
      simp only [Outcome.after?, Option.some.injEq, reduceCtorEq] at h
      try subst h
      try rfl

theorem writeUse_after_seen (env : Env) (q q' : St) (n : Use)
    (h : (writeUse env q n).after? = some q') :
    pathSeen q'.g (usePath env n) = true ∧
    ∀ p, pathSeen q.g p = true → pathSeen q'.g p = true := by
  by_cases hseen : pathSeen q.g (usePath env n) = true
  · rw [writeUse_seen env q n hseen] at h
    simp only [Outcome.after?, Option.some.injEq] at h
    subst h
    exact ⟨hseen, fun p hp => hp⟩
  · have hseen' : pathSeen q.g (usePath env n) = false := by simpa using hseen
    obtain ⟨s0, h0, _, _, _, hg⟩ := writeUse_new env q n hseen'
    rw [h0] at h
    have hm := writeUseNew_after env s0 q' _ h
    have hm0 : s0.g.usesMap.getD [] = q.g.usesMap.getD [] := by
      have := congrArg gen.usesMap hg
      simpa [genWithUse] using this
    rw [hm0] at hm
    simp only [pathSeen_eq, hm, Option.getD_some, List.contains_cons, beq_self_eq_true,
      Bool.true_or, true_and]
    intro p hp
    rw [hp, Bool.or_true]

/-- C12. A use declaration whose path `writeUse` has seen makes `writeUse`
return `nil` and leave the receiver and the buffer as they are; every call of
`writeUse` that returns, with `nil` or with an error, leaves its path seen,
and a seen path stays seen.  Hence, when `forEachUse` returns `nil`, what it
appended is one block (the `BEGIN USE` marker, the inlined copy and the
`END USE` marker) for each path that the use declarations name and that was
not seen before, each such path once, in the order of first occurrence. -/
theorem writeUse_once (env : Env) (s s' : St) (h : forEachUse s (writeUse env) = .ok s') :
    (∀ (q : St) (n : Use), pathSeen q.g (usePath env n) = true → writeUse env q n = .ok q) ∧
    (∀ (q q' : St) (n : Use), (writeUse env q n).after? = some q' →
      pathSeen q'.g (usePath env n) = true ∧
      ∀ p, pathSeen q.g p = true → pathSeen q'.g p = true) ∧
    s'.b = s.b ++ ((firstUses (s.g.usesMap.getD []) (usePathsOf env s.g.files)).map
      (useBlock env (useRoot env s.g))).flatten ∧
    (firstUses (s.g.usesMap.getD []) (usePathsOf env s.g.files)).Nodup ∧
    (∀ p, p ∈ firstUses (s.g.usesMap.getD []) (usePathsOf env s.g.files) ↔
      p ∈ usePathsOf env s.g.files ∧ pathSeen s.g p = false) ∧
    (∀ p ∈ firstUses (s.g.usesMap.getD []) (usePathsOf env s.g.files),
      ∃ u inl, env.readFile (env.useeFilename (useRoot env s.g) p) = .ok u ∧
        inlinedSpec u = some inl ∧
        useBlock env (useRoot env s.g) p = beginUse env p ++ inl ++ endUse env p) := by
  unfold forEachUse at h
  rw [loop_flatten] at h
  obtain ⟨hb, hall⟩ := loop_writeUse env _ s s' h
  have hp : usePathsOf env [s.g.files.flatten] = usePathsOf env s.g.files := by
    simp [usePathsOf]
  rw [hp] at hb hall
  refine ⟨writeUse_seen env, writeUse_after_seen env, hb, firstUses_nodup _ _, ?_, ?_⟩
  · intro p
    rw [firstUses_mem, pathSeen_eq]
  · intro p hmem
    obtain ⟨u, inl, hread, hi⟩ := hall p hmem
    exact ⟨u, inl, hread, hi, by simp only [useBlock, hread, hi, Option.getD_some]⟩

theorem writeUse_once_witness :
    forEachUse { g := demoUseGen, b := [] } (writeUse demoUseEnv) =
      .ok { g := genWithUse demoUseEnv demoUseGen (ascii "std/lzw"), b := demoUseText } ∧
    usePathsOf demoUseEnv demoUseGen.files = [ascii "std/lzw", ascii "std/lzw"] ∧
    firstUses [] (usePathsOf demoUseEnv demoUseGen.files) = [ascii "std/lzw"] ∧
    demoUseText = [] ++ ((firstUses (demoUseGen.usesMap.getD [])
      (usePathsOf demoUseEnv demoUseGen.files)).map
        (useBlock demoUseEnv (useRoot demoUseEnv demoUseGen))).flatten :=
  ⟨rfl, by decide, by decide,
    (writeUse_once demoUseEnv { g := demoUseGen, b := [] }
      { g := genWithUse demoUseEnv demoUseGen (ascii "std/lzw"), b := demoUseText } rfl).2.2.1⟩

/-! ### The artifact as a used package -/

theorem occurs_in_head {p q a w r : Bytes} (hout : p ++ q = a ++ w ++ r)
    (hlen : a.length + w.length ≤ p.length) : w <:+: p := by
  rcases List.append_eq_append_iff.mp hout with ⟨a', h1, h2⟩ | ⟨c', h1, h2⟩
  · -- `a ++ w = p ++ a'`, so `a'` is empty
    have hl := congrArg List.length h1
    simp only [List.length_append] at hl
    have : a' = [] := List.length_eq_zero.mp (by omega)
    subst this
    exact ⟨a, [], by rw [h1]; simp⟩
  · exact ⟨a, c', by rw [h1]⟩

theorem head_of_length_le {p q a r : Bytes} (hout : p ++ q = a ++ r)
    (hlen : p.length ≤ a.length) : ∃ a2, a = p ++ a2 := by
  rcases List.append_eq_append_iff.mp hout with ⟨a', h1, h2⟩ | ⟨c', h1, h2⟩
  · exact ⟨a', h1⟩
  · have hl := congrArg List.length h1
    simp only [List.length_append] at hl
    have : c' = [] := List.length_eq_zero.mp (by omega)
    subst this
    exact ⟨[], by rw [h1]; simp⟩

theorem tail_of_length_le {a r a' r' : Bytes} (hout : a ++ r = a' ++ r')
    (hlen : a.length ≤ a'.length) : ∃ r0, r = r0 ++ r' := by
  rcases List.append_eq_append_iff.mp hout with ⟨c, h1, h2⟩ | ⟨c, h1, h2⟩
  · exact ⟨c, h2⟩
  · have hl := congrArg List.length h1
    simp only [List.length_append] at hl
    have : c = [] := List.length_eq_zero.mp (by omega)
    subst this
    exact ⟨[], by rw [h2]; simp⟩

/-- A text that holds an implementation region (after a prefix `p` that is
free of `wiStart` up to `k` bytes further) and whose prefix `p` holds a base
region passes the marker checks. -/
theorem inlinedSpec_of_regions {out p k rest impl tail pre mid post : Bytes}
    (hout : out = p ++ k ++ rest ++ wiStart ++ impl ++ wiEnd ++ tail)
    (hfree : ¬ wiStart <:+: p ++ k) (hk : wiStart.length ≤ k.length)
    (hp : p = pre ++ wigbpStart ++ mid ++ wigbpEnd ++ post) :
    ∃ inl, inlinedSpec out = some inl := by
  -- the first `wiStart`
  have h1 : out = (p ++ k ++ rest) ++ wiStart ++ (impl ++ wiEnd ++ tail) := by
    rw [hout]; simp only [List.append_assoc]
  obtain ⟨a, r, hc1, hle1⟩ := cutFirst_of_infix h1
  obtain ⟨ha, _⟩ := cutFirst_some hc1
  -- it starts after `p`
  have hpa : p.length ≤ a.length := by
    by_contra hcon
    apply hfree
    have e : (p ++ k) ++ (rest ++ wiStart ++ impl ++ wiEnd ++ tail) = a ++ wiStart ++ r := by
      rw [← ha, hout]; simp only [List.append_assoc]
    exact occurs_in_head e (by simp only [List.length_append]; omega)
  obtain ⟨a2, ha2⟩ := head_of_length_le
    (show p ++ (k ++ rest ++ wiStart ++ impl ++ wiEnd ++ tail) = a ++ (wiStart ++ r) by
      rw [← List.append_assoc a, ← ha, hout]; simp only [List.append_assoc]) hpa
  -- the first `wiEnd` after it
  obtain ⟨r0, hr0⟩ := tail_of_length_le
    (show (a ++ wiStart) ++ r = ((p ++ k ++ rest) ++ wiStart) ++ (impl ++ wiEnd ++ tail) by
      rw [← ha, h1])
    (by simp only [List.length_append] at hle1 ⊢; omega)
  obtain ⟨b, c, hc2, _⟩ := cutFirst_of_infix
    (show r = (r0 ++ impl) ++ wiEnd ++ tail by rw [hr0]; simp only [List.append_assoc])
  -- the text without the implementation region starts with `p`
  have ht : a ++ [10] ++ c = pre ++ wigbpStart ++ (mid ++ wigbpEnd ++ (post ++ a2 ++ [10] ++ c)) := by
    rw [ha2, hp]; simp only [List.append_assoc]
  obtain ⟨x, r', hc3, hle3⟩ := cutFirst_of_infix ht
  obtain ⟨hx, _⟩ := cutFirst_some hc3
  obtain ⟨r1, hr1⟩ := tail_of_length_le
    (show (x ++ wigbpStart) ++ r' = (pre ++ wigbpStart) ++ (mid ++ wigbpEnd ++ (post ++ a2 ++ [10] ++ c)) by
      rw [← hx, ht])
    (by simp only [List.length_append]; omega)
  obtain ⟨y, z, hc4, _⟩ := cutFirst_of_infix
    (show r' = (r1 ++ mid) ++ wigbpEnd ++ (post ++ a2 ++ [10] ++ c) by
      rw [hr1]; simp only [List.append_assoc])
  exact ⟨x ++ z, by
    simp only [inlinedSpec, implementationCut, hc1, hc2, basePublicCut, hc3, hc4]⟩

theorem forEachStatus_gather_name (env : Env) (s s' : St)
    (h : forEachStatus s .bothPubPri (gatherStatuses env) = .ok s') :
    s'.b = s.b ∧ s'.g.pkgName = s.g.pkgName := by
  unfold forEachStatus at h
  rw [loop_flatten] at h
  refine loop_invariant _ (fun t => t.b = s.b ∧ t.g.pkgName = s.g.pkgName) ?_ _ s s' h ⟨rfl, rfl⟩
  intro t tld t' ht hp
  cases tld with
  | status n =>
    simp only at ht
    split_ifs at ht
    · simp only [Outcome.ok.injEq] at ht; rw [← ht]; exact hp
    · obtain ⟨z, _, _, _, _, _, hs⟩ := gatherStatuses_ok_eq env t t' n ht
      rw [hs]
      exact hp
  | _ => simp only [Outcome.ok.injEq] at ht; rw [← ht]; exact hp

theorem gatherFuncs_name (env : Env) (st : St) (b0 : buffer) (s4 : St)
    (h : (match forEachFunc st .bothPubPri (gatherFuncImpl env) with
      | .ok s' => Outcome.ok ({ g := s'.g, b := b0 } : St)
      | .error e s' => Outcome.error e ({ g := s'.g, b := b0 } : St)
      | .panic => Outcome.panic
      | .timeout => Outcome.timeout) = .ok s4) :
    s4.b = b0 ∧ s4.g.pkgName = st.g.pkgName := by
  cases hf : forEachFunc st .bothPubPri (gatherFuncImpl env) with
  | ok sf =>
    rw [hf] at h
    simp only [Outcome.ok.injEq] at h
    rw [← h]
    refine ⟨rfl, ?_⟩
    unfold forEachFunc at hf
    rw [loop_flatten] at hf
    refine loop_invariant _ (fun q => q.g.pkgName = st.g.pkgName) ?_ _ st sf hf rfl
    intro q tld q' hq hp
    cases tld with
    | func n =>
      simp only at hq
      split_ifs at hq
      · simp only [Outcome.ok.injEq] at hq; rw [← hq]; exact hp
      · unfold gatherFuncImpl at hq
        cases hk : env.gatherFuncImpl q.g n with
        | ok k =>
          rw [hk] at hq
          simp only [Outcome.ok.injEq] at hq
          rw [← hq]; exact hp
        | error e => rw [hk] at hq; simp at hq
    | _ => simp only [Outcome.ok.injEq] at hq; rw [← hq]; exact hp
  | error e sf => rw [hf] at h; simp at h
  | panic => rw [hf] at h; simp at h
  | timeout => rw [hf] at h; simp at h

/-- What `insertBasePublicH` appends holds a base region. -/
theorem insertBasePublicH_markers (env : Env) (b b' : buffer)
    (h : insertBasePublicH env b = .ok b') :
    ∃ mid, b' = (b ++ ascii "// Code generated by wuffs-c. DO NOT EDIT.\n") ++ wigbpStart ++ mid ++
      wigbpEnd ++ [10] := by
  unfold insertBasePublicH at h
  simp only at h
  obtain ⟨b1, h1, h2⟩ := andThen_eq_ok.mp h
  obtain ⟨t1, ht1⟩ := expandBangBangInsertAux_appends _ (by
    intro k f hkf q q' hq
    simp only [List.mem_singleton, Prod.mk.injEq] at hkf
    obtain ⟨_, rfl⟩ := hkf
    exact loop_insertBaseStatusName_appends _ _ _ hq) _ _ _ _ h1
  simp only [Outcome.ok.injEq] at h2
  refine ⟨ascii "#define WUFFS_INCLUDE_GUARD__BASE_PUBLIC\n\n" ++ t1 ++ [10] ++ env.baseImagePublicH, ?_⟩
  rw [← h2, ht1]
  simp only [buffer.writes, buffer.writeb, List.append_assoc]
  rfl

/-- The head of `genHeader`: the base declarations, then the line
`Use Declarations`, then the rest. -/
theorem genHeader_head (env : Env) (s s' : St) (h : genHeader env s = .ok s') :
    ∃ b1 rest, insertBasePublicH env s.b = .ok b1 ∧
      s'.b = b1 ++ ascii "// ---------------- Use Declarations\n\n" ++ rest := by
  unfold genHeader at h
  obtain ⟨s1, h1, h'⟩ := andThen_eq_ok.mp h
  clear h
  rename' h' => h
  obtain ⟨s2, h2, h'⟩ := andThen_eq_ok.mp h
  clear h
  rename' h' => h
  obtain ⟨s3, h3, h'⟩ := andThen_eq_ok.mp h
  clear h
  rename' h' => h
  obtain ⟨s4, h4, h'⟩ := andThen_eq_ok.mp h
  clear h
  rename' h' => h
  obtain ⟨s5, h5, h'⟩ := andThen_eq_ok.mp h
  clear h
  rename' h' => h
  obtain ⟨s6, h6, h'⟩ := andThen_eq_ok.mp h
  clear h
  rename' h' => h
  obtain ⟨s7, h7, h'⟩ := andThen_eq_ok.mp h
  clear h
  rename' h' => h
  obtain ⟨s8, h8, h'⟩ := andThen_eq_ok.mp h
  clear h
  rename' h' => h
  obtain ⟨s9, h9, h'⟩ := andThen_eq_ok.mp h
  clear h
  rename' h' => h
  obtain ⟨s10, h10, h'⟩ := andThen_eq_ok.mp h
  clear h
  rename' h' => h
  obtain ⟨s11, h11, h'⟩ := andThen_eq_ok.mp h
  clear h
  rename' h' => h
  obtain ⟨s12, h12, h'⟩ := andThen_eq_ok.mp h
  clear h
  rename' h' => h
  obtain ⟨s13, h13, h'⟩ := andThen_eq_ok.mp h
  clear h
  rename' h' => h
  obtain ⟨s14, h14, h'⟩ := andThen_eq_ok.mp h
  clear h
  rename' h' => h
  obtain ⟨s15, h15, h'⟩ := andThen_eq_ok.mp h
  clear h
  rename' h' => h
  obtain ⟨s16, h16, h'⟩ := andThen_eq_ok.mp h
  clear h
  rename' h' => h
  obtain ⟨s17, h17, h18⟩ := andThen_eq_ok.mp h
  clear h
  have e6 : Extends s5 s6 := by
    simp only [Outcome.ok.injEq] at h6
    subst h6
    exact ⟨usesOnly_refl _, _, foldl_genHeaderStatus _ _⟩
  have e : Extends s2 s' :=
    extends_trans (forEachUse_extends env _ _ h3) <|
    extends_trans (extends_writes h4) <|
    extends_trans (extends_writes h5) <|
    extends_trans e6 <|
    extends_trans (extends_writes h7) <|
    extends_trans (extends_writes h8) <|
    extends_trans (extends_of_keeps (keeps_forEachConst .pubOnly _ (keeps_writeConst env)) h9) <|
    extends_trans (extends_writes h10) <|
    extends_trans (extends_of_keeps
      (keeps_loop _ (fun n => keeps_of_isWriter (isWriter_writeStruct env n)) _) h11) <|
    extends_trans (extends_writes h12) <|
    extends_trans (extends_of_keeps
      (keeps_loop _ (fun n => keeps_of_isWriter (isWriter_publicPrototype env n)) _) h13) <|
    extends_trans (extends_writes h14) <|
    extends_trans (extends_of_keeps (keeps_forEachFunc .pubOnly _
      (fun n => keeps_of_isWriter (isWriter_call _ (by intro _; rfl)))) h15) <|
    extends_trans (extends_writes h16) <|
    extends_trans (extends_of_keeps (keeps_writeCppImpls env) h17) (extends_writes h18)
  obtain ⟨_, rest, hrest⟩ := e
  unfold St.insertBasePublicH at h1
  cases hb : insertBasePublicH env s.b with
  | ok b1 =>
    rw [hb] at h1
    simp only [Outcome.ok.injEq] at h1
    subst h1
    simp only [St.writes, Outcome.ok.injEq, buffer.writes] at h2
    subst h2
    exact ⟨b1, rest, rfl, hrest⟩
  | error e b => rw [hb] at h1; simp at h1
  | panic => rw [hb] at h1; simp at h1
  | timeout => rw [hb] at h1; simp at h1

/-- The artifact of `generate`: its head, the rest of the header, the
implementation between `wiStart` and `wiEnd`, and the closing guard. -/
theorem generateSt_head (env : Env) (g : gen) (s : St) (h : generateSt env g = .ok s) :
    ∃ b1 rest impl tail, insertBasePublicH env (guardOpen env g) = .ok b1 ∧
      s.b = b1 ++ ascii "// ---------------- Use Declarations\n\n" ++ rest ++ wiStart ++ impl ++
        wiEnd ++ tail := by
  unfold generateSt at h
  simp only at h
  obtain ⟨s1, h1, h'⟩ := andThen_eq_ok.mp h
  clear h
  obtain ⟨hb1, hn1⟩ := forEachStatus_gather_name env _ s1 h1
  simp only at hb1 hn1
  split_ifs at h' with hcyc
  obtain ⟨s4, h4, h''⟩ := andThen_eq_ok.mp h'
  clear h'
  obtain ⟨s5, h5, h'⟩ := andThen_eq_ok.mp h''
  clear h''
  obtain ⟨s6, h6, h''⟩ := andThen_eq_ok.mp h'
  clear h'
  obtain ⟨s7, h7, h'⟩ := andThen_eq_ok.mp h''
  clear h''
  obtain ⟨s8, h8, h''⟩ := andThen_eq_ok.mp h'
  clear h'
  obtain ⟨s9, h9, h10⟩ := andThen_eq_ok.mp h''
  clear h''
  obtain ⟨hb4, hn4⟩ := gatherFuncs_name env _ _ s4 h4
  simp only at hb4 hn4
  have hb5 : s5.b = guardOpen env g := by
    simp only [St.writes, Outcome.ok.injEq, buffer.writes] at h5
    rw [← h5]
    simp only [hb4, hb1, hn4, hn1, guardOpen, List.nil_append, List.append_assoc]
  obtain ⟨b1, rest, hins, hb6⟩ := genHeader_head env s5 s6 h6
  rw [hb5] at hins
  obtain ⟨g7, t7, b7⟩ := keeps_step_writes h7
  obtain ⟨g8, qa, qb, qc, b8⟩ := genImpl_ok env s7 s8 h8
  obtain ⟨g9, t9, b9⟩ := keeps_step_writes h9
  obtain ⟨g10, t10, b10⟩ := keeps_step_writes h10
  have e7 : t7 = wiStart := by
    simp only [St.writes, Outcome.ok.injEq, buffer.writes] at h7
    rw [← h7] at b7
    exact (List.append_cancel_left b7).symm
  have e9 : t9 = wiEnd := by
    simp only [St.writes, Outcome.ok.injEq, buffer.writes] at h9
    rw [← h9] at b9
    exact (List.append_cancel_left b9).symm
  refine ⟨b1, rest, qa ++
    ((s7.g.structList.filter (fun n => !n.isPublic)).map (prototypeText env s7.g)).flatten ++ qb ++
    (s7.g.structList.map (implText env s7.g)).flatten ++ qc, t10, hins, ?_⟩
  rw [b10, b9, b8, b7, hb6, e7, e9]
  simp only [List.append_assoc]

/-- C17. When `generate` returns an artifact, and no `wiStart` stands in the
artifact before the end of its line `Use Declarations` (the include guard of
the package and the embedded base declarations hold none), the artifact
passes every marker check of `writeUse`: it holds `wiStart` and later
`wiEnd`, and with that span replaced by a newline it holds `wigbpStart` and
later `wigbpEnd`; so `writeUse`, reading this artifact for a new path,
returns `nil`. -/
theorem generate_passes_marker_checks (env : Env) (g : gen) (out : Bytes)
    (h : generate env g = .ret (some out) none)
    (hhead : ¬ wiStart <:+: artifactHead env g) :
    (∃ a r b c x r' y z, cutFirst out wiStart = some (a, r) ∧ cutFirst r wiEnd = some (b, c) ∧
      cutFirst (a ++ [10] ++ c) wigbpStart = some (x, r') ∧
      cutFirst r' wigbpEnd = some (y, z)) ∧
    ∀ (env' : Env) (q : St) (m : Use),
      pathSeen q.g (usePath env' m) = false →
      (q.g.wuffsRoot = [] → env'.wuffsRootFn.2 = none) →
      env'.readFile (env'.useeFilename (useRoot env' q.g) (usePath env' m)) = .ok out →
      ∃ q', writeUse env' q m = .ok q' := by
  have hinl : ∃ inl, inlinedSpec out = some inl := by
    unfold generate at h
    cases hs : generateSt env g with
    | ok s =>
      rw [hs] at h
      simp only [Returned.ret.injEq, Option.some.injEq, and_true] at h
      obtain ⟨b1, rest, impl, tail, hins, hb⟩ := generateSt_head env g s hs
      obtain ⟨mid, hmid⟩ := insertBasePublicH_markers env _ b1 hins
      have hah : artifactHead env g = b1 ++ ascii "// ---------------- Use Declarations\n\n" := by
        simp only [artifactHead, hins]
      rw [hah] at hhead
      exact inlinedSpec_of_regions (by rw [← h, hb]) hhead (by decide) hmid
    | error e s => rw [hs] at h; simp at h
    | panic => rw [hs] at h; simp at h
    | timeout => rw [hs] at h; simp at h
  obtain ⟨inl, hi⟩ := hinl
  refine ⟨?_, fun env' q m hq hroot hread => ⟨_, (writeUse_new_eq env' q m out hq hroot hread).1 inl hi⟩⟩
  obtain ⟨a, r, b, c, x, r', y, z, h1, h2, h3, h4, _⟩ := inlinedSpec_some hi
  exact ⟨a, r, b, c, x, r', y, z, h1, h2, h3, h4⟩

theorem generate_passes_marker_checks_witness :
    generate demoEnv demoProgram = .ret (some demoArtifact) none ∧
    ¬ wiStart <:+: artifactHead demoEnv demoProgram ∧
    ∃ a r b c x r' y z, cutFirst demoArtifact wiStart = some (a, r) ∧
      cutFirst r wiEnd = some (b, c) ∧
      cutFirst (a ++ [10] ++ c) wigbpStart = some (x, r') ∧
      cutFirst r' wigbpEnd = some (y, z) :=
  have hrun : generate demoEnv demoProgram = .ret (some demoArtifact) none :=
    returned_of_isArtifact _ (by decide)
  have hhead : ¬ wiStart <:+: artifactHead demoEnv demoProgram := by decide
  ⟨hrun, hhead, (generate_passes_marker_checks demoEnv demoProgram demoArtifact hrun hhead).1⟩

/-! ### The emitted initializer -/

theorem writeInitializerField_eq (env : Env) (s : St) (f : Field) :
    writeInitializerField env s f =
      .ok { s with b := s.b ++ (((subStructStmt env s.g f).toList).map CStmt.render).flatten } := by
  unfold writeInitializerField subStructStmt
  cases hin : f.xType.isInnermost with
  | false => simp
  | true =>
    simp only [Bool.not_true, Bool.false_eq_true, if_false]
    cases hp : subStructPrefix env s.g f.xType.qid with
    | none => simp
    | some pre =>
      simp only [writeSubStructCall, St.writes, Outcome.andThen, buffer.writes, Option.toList,
        List.map_cons, List.map_nil, List.flatten_cons, List.flatten_nil, CStmt.render,
        List.append_nil, List.append_assoc]

theorem loop_writeInitializerField (env : Env) : ∀ (fs : List Field) (s : St),
    loop (writeInitializerField env) fs s =
      .ok { s with b := s.b ++ ((fs.filterMap (subStructStmt env s.g)).map CStmt.render).flatten } := by
  intro fs
  induction fs with
  | nil => intro s; simp [loop]
  | cons f fs ih =>
    intro s
    rw [loop, writeInitializerField_eq]
    simp only [Outcome.andThen, ih, List.filterMap_cons]
    cases subStructStmt env s.g f with
    | none => simp
    | some st => simp

theorem writeInitializerSignature_eq (env : Env) (s : St) (n : Struct) (p : Bool) :
    writeInitializerSignature env s n p =
      .ok { s with b := s.b ++ signatureText env s.g n p } :=
  isWriter_ok_of_err_none (isWriter_writeInitializerSignature env n p) s (by cases p <;> rfl)

theorem initializerBody_render (env : Env) (g : gen) (n : Struct) :
    ((initializerBody env g n).map CStmt.render).flatten =
      CStmt.render .checkReceiver ++ (CStmt.render .checkSizeof ++ (CStmt.render .checkVersion ++
        (CStmt.render .checkMagic ++ (((n.fields.filterMap (subStructStmt env g)).map
          CStmt.render).flatten ++ (CStmt.render .setMagic ++ CStmt.render .returnNull))))) := by
  unfold initializerBody
  simp only [List.map_append, List.flatten_append, List.map_cons, List.map_nil, List.flatten_cons,
    List.flatten_nil, List.append_nil, List.append_assoc]

/-- The text of the initializer of a classy struct is its signature and,
between braces, the statements of `initializerBody`. -/
theorem implText_eq_render (env : Env) (g : gen) (n : Struct) (hclassy : n.classy = true) :
    implText env g n =
      signatureText env g n false ++ ascii "\x7b\n" ++
        ((initializerBody env g n).map CStmt.render).flatten ++ ascii "\x7d\n\n" := by
  have h : writeInitializerImpl env { g := g, b := [] } n =
      .ok { g := g, b := signatureText env g n false ++ ascii "\x7b\n" ++
        ((initializerBody env g n).map CStmt.render).flatten ++ ascii "\x7d\n\n" } := by
    unfold writeInitializerImpl
    rw [if_neg (by rw [hclassy]; decide), writeInitializerSignature_eq, initializerBody_render]
    simp only [St.writes, Outcome.andThen, buffer.writes, loop_writeInitializerField]
    unfold CStmt.render
    simp only [List.nil_append, List.append_assoc]
  unfold implText writtenOf
  simp only [h]

/-- A call on an instance, up to the sub-struct blocks. -/
theorem initializerCall_some (env : Env) (g : gen) (n : Struct) (c : CEnv) (i : Instance)
    (size ver : Nat) :
    initializerCall env g n c (some i) size ver =
      if c.sizeofSelf ≠ size then .ret .badSizeofReceiver (some i)
      else if ((ver % 2 ^ 64) >>> 32 ≠ c.versionMajor) ∨
          (((ver % 2 ^ 64) >>> 16) &&& 0xFFFF > c.versionMinor) then
        .ret .badWuffsVersion (some i)
      else if i.magic ≠ 0 then .ret .checkWuffsVersionNotApplicable (some i)
      else runBody c size (ver % 2 ^ 64)
        (n.fields.filterMap (subStructStmt env g) ++ [.setMagic, .returnNull]) (some i) := by
  have hbody : initializerBody env g n =
      .checkReceiver :: .checkSizeof :: .checkVersion :: .checkMagic ::
        (n.fields.filterMap (subStructStmt env g) ++ [.setMagic, .returnNull]) := by
    simp only [initializerBody, List.cons_append, List.nil_append, List.append_assoc]
  unfold initializerCall
  rw [hbody]
  by_cases h1 : c.sizeofSelf ≠ size
  · simp only [runBody, CStmt.exec, Option.isNone_some, Bool.false_eq_true, if_false, if_pos h1]
  · by_cases h2 : ((ver % 2 ^ 64) >>> 32 ≠ c.versionMajor) ∨
        (((ver % 2 ^ 64) >>> 16) &&& 0xFFFF > c.versionMinor)
    · simp only [runBody, CStmt.exec, Option.isNone_some, Bool.false_eq_true, if_false,
        if_neg h1, if_pos h2]
    · by_cases h3 : i.magic ≠ 0
      · simp only [runBody, CStmt.exec, Option.isNone_some, Bool.false_eq_true, if_false,
          if_neg h1, if_neg h2, if_pos h3]
      · simp only [runBody, CStmt.exec, Option.isNone_some, Bool.false_eq_true, if_false,
          if_neg h1, if_neg h2, if_neg h3]

theorem subStructStmt_shape (env : Env) (g : gen) (fs : List Field) :
    ∀ st ∈ fs.filterMap (subStructStmt env g), ∃ p t f, st = .subStruct p t f := by
  intro st hst
  obtain ⟨f, _, hf⟩ := List.mem_filterMap.mp hst
  unfold subStructStmt at hf
  split_ifs at hf
  cases hp : subStructPrefix env g f.xType.qid with
  | none => rw [hp] at hf; simp at hf
  | some pre =>
    rw [hp] at hf
    simp only [Option.some.injEq] at hf
    exact ⟨_, _, _, hf.symm⟩

/-- The sub-struct blocks and the end of the body: the call returns the
first status other than `NULL` that the initializer of a sub-struct returns,
or, when there is none, sets the magic field and returns `NULL`. -/
theorem runBody_subs (c : CEnv) (size ver : Nat) : ∀ (subs : List CStmt) (i : Instance),
    (∀ st ∈ subs, ∃ p t f, st = .subStruct p t f) →
    (∃ z i', z ≠ .null ∧ firstSubStatus c subs i = some z ∧
      runBody c size ver (subs ++ [.setMagic, .returnNull]) (some i) = .ret z (some i')) ∨
    (∃ i', firstSubStatus c subs i = none ∧
      runBody c size ver (subs ++ [.setMagic, .returnNull]) (some i) = .ret .null (some i') ∧
      i'.magic = c.magic % 2 ^ 32) := by
  intro subs
  induction subs with
  | nil =>
    intro i _
    exact Or.inr ⟨_, rfl, rfl, rfl⟩
  | cons st subs ih =>
    intro i hall
    obtain ⟨p, t, f, rfl⟩ := hall st (List.mem_cons_self _ _)
    have hrest : ∀ st ∈ subs, ∃ p t f, st = .subStruct p t f :=
      fun st h => hall st (List.mem_cons_of_mem _ h)
    by_cases hz : (c.callee (p ++ t ++ ascii "__check_wuffs_version") (i.field f)).1 ≠ .null
    · simp only [List.cons_append, runBody, CStmt.exec, firstSubStatus, if_pos hz]
      exact Or.inl ⟨_, _, hz, rfl, rfl⟩
    · simp only [List.cons_append, runBody, CStmt.exec, firstSubStatus, if_neg hz]
      exact ih _ hrest

/-- The status of the sub-struct blocks and the end of the body. -/
theorem runBody_subs_status (c : CEnv) (size ver : Nat) (subs : List CStmt) (i : Instance)
    (hall : ∀ st ∈ subs, ∃ p t f, st = .subStruct p t f) :
    (runBody c size ver (subs ++ [.setMagic, .returnNull]) (some i)).status? =
      some ((firstSubStatus c subs i).getD .null) ∧
    firstSubStatus c subs i ≠ some .null := by
  rcases runBody_subs c size ver subs i hall with ⟨z, i', hne, hfs, hrun⟩ | ⟨i', hfs, hrun, _⟩
  · rw [hrun, hfs]
    exact ⟨rfl, fun h => hne (Option.some.inj h)⟩
  · rw [hrun, hfs]
    exact ⟨rfl, fun h => by simp at h⟩

theorem initializerCall_none (env : Env) (g : gen) (n : Struct) (c : CEnv) (size ver : Nat) :
    initializerCall env g n c none size ver = .ret .badReceiver none := by
  have hbody : initializerBody env g n =
      .checkReceiver :: .checkSizeof :: .checkVersion :: .checkMagic ::
        (n.fields.filterMap (subStructStmt env g) ++ [.setMagic, .returnNull]) := by
    simp only [initializerBody, List.cons_append, List.nil_append, List.append_assoc]
  unfold initializerCall
  rw [hbody]
  simp only [runBody, CStmt.exec, Option.isNone_none, if_true]

/-- The sub-struct blocks and the end of the body do not read
`wuffs_version`. -/
theorem runBody_subs_version (c : CEnv) (size v v' : Nat) : ∀ (subs : List CStmt) (i : Instance),
    (∀ st ∈ subs, ∃ p t f, st = .subStruct p t f) →
    runBody c size v (subs ++ [.setMagic, .returnNull]) (some i) =
      runBody c size v' (subs ++ [.setMagic, .returnNull]) (some i) := by
  intro subs
  induction subs with
  | nil => intro i _; rfl
  | cons st subs ih =>
    intro i hall
    obtain ⟨p, t, f, rfl⟩ := hall st (List.mem_cons_self _ _)
    have hrest : ∀ st ∈ subs, ∃ p t f, st = .subStruct p t f :=
      fun st h => hall st (List.mem_cons_of_mem _ h)
    by_cases hz : (c.callee (p ++ t ++ ascii "__check_wuffs_version") (i.field f)).1 ≠ .null
    · simp only [List.cons_append, runBody, CStmt.exec, if_pos hz]
    · simp only [List.cons_append, runBody, CStmt.exec, if_neg hz]
      exact ih _ hrest

theorem version_bits (v : Nat) :
    v >>> 32 = v / 2 ^ 32 ∧ (v >>> 16) &&& 0xFFFF = (v / 2 ^ 16) % 2 ^ 16 := by
  refine ⟨Nat.shiftRight_eq_div_pow v 32, ?_⟩
  rw [Nat.shiftRight_eq_div_pow]
  exact Nat.and_pow_two_sub_one_eq_mod (v / 2 ^ 16) 16

/-- C18. The text of the initializer of a classy struct is its signature and
the statements of `initializerBody`: the receiver test, the size test, and
only then the version test, the magic test, the sub-struct blocks and the
magic assignment.  Called with an instance and a `sizeof_star_self` that is
not the size of the struct, the function returns
`wuffs_base__error__bad_sizeof_receiver` whatever `wuffs_version` is, and the
instance is as it was. -/
theorem initializer_bad_sizeof (env : Env) (g : gen) (n : Struct) (hclassy : n.classy = true) :
    implText env g n =
      signatureText env g n false ++ ascii "\x7b\n" ++
        ((initializerBody env g n).map CStmt.render).flatten ++ ascii "\x7d\n\n" ∧
    initializerBody env g n =
      [.checkReceiver, .checkSizeof] ++
        ([.checkVersion, .checkMagic] ++ n.fields.filterMap (subStructStmt env g) ++
          [.setMagic, .returnNull]) ∧
    (∀ st ∈ n.fields.filterMap (subStructStmt env g), ∃ p t f, st = .subStruct p t f) ∧
    ∀ (c : CEnv) (i : Instance) (size ver : Nat), size ≠ c.sizeofSelf →
      initializerCall env g n c (some i) size ver = .ret .badSizeofReceiver (some i) := by
  refine ⟨implText_eq_render env g n hclassy, ?_, subStructStmt_shape env g n.fields, ?_⟩
  · simp only [initializerBody, List.cons_append, List.nil_append, List.append_assoc]
  · intro c i size ver hsize
    rw [initializerCall_some, if_pos (fun h => hsize h.symm)]

theorem initializer_bad_sizeof_witness :
    demoTable.classy = true ∧
    initializerCall demoEnv demoInitGen demoTable demoCEnv (some demoInstance) 8 0 =
      .ret .badSizeofReceiver (some demoInstance) :=
  ⟨rfl, (initializer_bad_sizeof demoEnv demoInitGen demoTable rfl).2.2.2 demoCEnv demoInstance 8 0
    (by decide)⟩

/-- C19. For a classy struct and a `WUFFS_BASE__MAGIC` that is not zero as a
`uint32_t`: when a call of the emitted initializer returns `NULL`, the
receiver was an instance and its magic field now holds `WUFFS_BASE__MAGIC`;
and every call on an instance with that magic field, with the size of the
struct and a version that the version test accepts, returns
`wuffs_base__error__check_wuffs_version_not_applicable` and leaves the
instance as it was. -/
theorem initializer_twice (env : Env) (g : gen) (n : Struct) (hclassy : n.classy = true)
    (c : CEnv) (hmagic : c.magic % 2 ^ 32 ≠ 0) :
    implText env g n =
      signatureText env g n false ++ ascii "\x7b\n" ++
        ((initializerBody env g n).map CStmt.render).flatten ++ ascii "\x7d\n\n" ∧
    ∀ (self self1 : Option Instance) (size ver : Nat),
      initializerCall env g n c self size ver = .ret .null self1 →
      ∃ i1, self1 = some i1 ∧ i1.magic = c.magic % 2 ^ 32 ∧
        ∀ (i2 : Instance) (size' ver' : Nat), i2.magic = i1.magic → size' = c.sizeofSelf →
          (ver' % 2 ^ 64) >>> 32 = c.versionMajor →
          ((ver' % 2 ^ 64) >>> 16) &&& 0xFFFF ≤ c.versionMinor →
          initializerCall env g n c (some i2) size' ver' =
            .ret .checkWuffsVersionNotApplicable (some i2) := by
  refine ⟨implText_eq_render env g n hclassy, ?_⟩
  intro self self1 size ver hcall
  cases self with
  | none =>
    rw [initializerCall_none] at hcall
    simp at hcall
  | some i =>
    rw [initializerCall_some] at hcall
    by_cases h1 : c.sizeofSelf ≠ size
    · rw [if_pos h1] at hcall; simp at hcall
    rw [if_neg h1] at hcall
    by_cases h2 : ((ver % 2 ^ 64) >>> 32 ≠ c.versionMajor) ∨
        (((ver % 2 ^ 64) >>> 16) &&& 0xFFFF > c.versionMinor)
    · rw [if_pos h2] at hcall; simp at hcall
    rw [if_neg h2] at hcall
    by_cases h3 : i.magic ≠ 0
    · rw [if_pos h3] at hcall; simp at hcall
    rw [if_neg h3] at hcall
    rcases runBody_subs c size (ver % 2 ^ 64) _ i (subStructStmt_shape env g n.fields) with
      ⟨z, i', hne, _, hz⟩ | ⟨i', _, hnull, hm⟩
    · rw [hz] at hcall
      simp only [CStep.ret.injEq] at hcall
      exact absurd hcall.1 hne
    · rw [hnull] at hcall
      simp only [CStep.ret.injEq, true_and] at hcall
      refine ⟨i', hcall.symm, hm, ?_⟩
      intro i2 size' ver' hi2 hsize hmaj hmin
      have hver : ¬ (((ver' % 2 ^ 64) >>> 32 ≠ c.versionMajor) ∨
          (((ver' % 2 ^ 64) >>> 16) &&& 0xFFFF > c.versionMinor)) := by
        rintro (h | h)
        · exact h hmaj
        · exact absurd hmin (Nat.not_le.mpr h)
      rw [initializerCall_some, if_neg (by rw [hsize]; simp), if_neg hver,
        if_pos (by rw [hi2, hm]; exact hmagic)]

theorem initializer_twice_witness :
    demoTable.classy = true ∧ demoCEnv.magic % 2 ^ 32 ≠ 0 ∧
    initializerCall demoEnv demoInitGen demoTable demoCEnv (some demoInstance) 16 65536 =
      .ret .null (some { magic := 0x3CCB6C71,
                         field := Function.update demoInstance.field (ascii "inner") 1 }) ∧
    ∃ i1, some ({ magic := 0x3CCB6C71,
                  field := Function.update demoInstance.field (ascii "inner") 1 } : Instance) =
        some i1 ∧ i1.magic = demoCEnv.magic % 2 ^ 32 ∧
      ∀ (i2 : Instance) (size' ver' : Nat), i2.magic = i1.magic → size' = demoCEnv.sizeofSelf →
        (ver' % 2 ^ 64) >>> 32 = demoCEnv.versionMajor →
        ((ver' % 2 ^ 64) >>> 16) &&& 0xFFFF ≤ demoCEnv.versionMinor →
        initializerCall demoEnv demoInitGen demoTable demoCEnv (some i2) size' ver' =
          .ret .checkWuffsVersionNotApplicable (some i2) :=
  ⟨rfl, by decide, rfl,
    (initializer_twice demoEnv demoInitGen demoTable rfl demoCEnv (by decide)).2
      (some demoInstance) _ 16 65536 rfl⟩

/-- C20 (the claim as stated fails). The struct `table` holds a `decoder` of
the package `lzw`, whose initializer was built against another major version
and returns `wuffs_base__error__bad_wuffs_version`.  The token `65536` has
the major version and the minor version of the build, the size is right and
the instance is zeroed, and the emitted initializer of `table` returns
`wuffs_base__error__bad_wuffs_version` all the same: `if (z) { return z; }`
passes it on. -/
theorem initializer_passes_on_bad_version :
    initializerBody demoLibEnv demoGen demoLibTable =
      [.checkReceiver, .checkSizeof, .checkVersion, .checkMagic,
        .subStruct (ascii "wuffs_lzw__") (ascii "decoder") (ascii "inner"),
        .setMagic, .returnNull] ∧
    (65536 : Nat) < 2 ^ 64 ∧
    ¬ ((65536 : Nat) >>> 32 ≠ demoSkewCEnv.versionMajor ∨
      ((65536 : Nat) >>> 16) &&& 0xFFFF > demoSkewCEnv.versionMinor) ∧
    (initializerCall demoLibEnv demoGen demoLibTable demoSkewCEnv (some demoInstance)
      demoSkewCEnv.sizeofSelf 65536).status? = some .badWuffsVersion :=
  ⟨by decide, by decide, by decide, by decide⟩

/-- C20 (amended). For a classy struct, an instance, the size of the struct
and a 64-bit version token `v`: when `v >> 32` is not `WUFFS_VERSION_MAJOR`
or `(v >> 16) & 0xFFFF` is greater than `WUFFS_VERSION_MINOR`, the emitted
initializer returns `wuffs_base__error__bad_wuffs_version` and leaves the
instance as it was.  Any other token passes the version test, and the call
goes on to the magic test; it then returns that status only when the magic
field is zero and the first status other than `NULL` that the initializer of
a sub-struct returns is that status.  The two numbers are the upper 32 bits
and the next 16 bits of `v`, and two tokens that differ in their low 16 bits
only give the same outcome. -/
theorem initializer_version_test (env : Env) (g : gen) (n : Struct) (hclassy : n.classy = true)
    (c : CEnv) (i : Instance) (v : Nat) (hv : v < 2 ^ 64) :
    implText env g n =
      signatureText env g n false ++ ascii "\x7b\n" ++
        ((initializerBody env g n).map CStmt.render).flatten ++ ascii "\x7d\n\n" ∧
    ((v >>> 32 ≠ c.versionMajor ∨ (v >>> 16) &&& 0xFFFF > c.versionMinor) →
      initializerCall env g n c (some i) c.sizeofSelf v = .ret .badWuffsVersion (some i)) ∧
    (¬ (v >>> 32 ≠ c.versionMajor ∨ (v >>> 16) &&& 0xFFFF > c.versionMinor) →
      initializerCall env g n c (some i) c.sizeofSelf v =
        if i.magic ≠ 0 then .ret .checkWuffsVersionNotApplicable (some i)
        else runBody c c.sizeofSelf v
          (n.fields.filterMap (subStructStmt env g) ++ [.setMagic, .returnNull]) (some i)) ∧
    ((initializerCall env g n c (some i) c.sizeofSelf v).status? = some .badWuffsVersion ↔
      (v >>> 32 ≠ c.versionMajor ∨ (v >>> 16) &&& 0xFFFF > c.versionMinor) ∨
      (i.magic = 0 ∧
        firstSubStatus c (n.fields.filterMap (subStructStmt env g)) i =
          some .badWuffsVersion)) ∧
    (v >>> 32 = v / 2 ^ 32 ∧ (v >>> 16) &&& 0xFFFF = (v / 2 ^ 16) % 2 ^ 16) ∧
    (∀ v', v' < 2 ^ 64 → v' / 2 ^ 16 = v / 2 ^ 16 →
      initializerCall env g n c (some i) c.sizeofSelf v' =
        initializerCall env g n c (some i) c.sizeofSelf v) := by
  have hmod : v % 2 ^ 64 = v := Nat.mod_eq_of_lt hv
  have hcall := initializerCall_some env g n c i c.sizeofSelf v
  rw [hmod, if_neg (by simp)] at hcall
  have hsub := runBody_subs_status c c.sizeofSelf v _ i (subStructStmt_shape env g n.fields)
  refine ⟨implText_eq_render env g n hclassy, ?_, ?_, ?_, version_bits v, ?_⟩
  · intro h
    rw [hcall, if_pos h]
  · intro h
    rw [hcall, if_neg h]
  · constructor
    · intro h
      by_cases hbad : v >>> 32 ≠ c.versionMajor ∨ (v >>> 16) &&& 0xFFFF > c.versionMinor
      · exact Or.inl hbad
      · rw [hcall, if_neg hbad] at h
        by_cases h3 : i.magic ≠ 0
        · rw [if_pos h3] at h; simp [CStep.status?] at h
        · rw [if_neg h3, hsub.1] at h
          refine Or.inr ⟨by simpa using h3, ?_⟩
          cases hfs : firstSubStatus c (n.fields.filterMap (subStructStmt env g)) i with
          | none => rw [hfs] at h; simp at h
          | some z => rw [hfs] at h; simpa using h
    · rintro (hbad | ⟨h0, hfs⟩)
      · rw [hcall, if_pos hbad]
        rfl
      · by_cases hbad : v >>> 32 ≠ c.versionMajor ∨ (v >>> 16) &&& 0xFFFF > c.versionMinor
        · rw [hcall, if_pos hbad]
          rfl
        · rw [hcall, if_neg hbad, if_neg (by rw [h0]; simp), hsub.1, hfs]
          rfl
  · intro v' hv' hhigh
    have hmod' : v' % 2 ^ 64 = v' := Nat.mod_eq_of_lt hv'
    have hcall' := initializerCall_some env g n c i c.sizeofSelf v'
    rw [hmod', if_neg (by simp)] at hcall'
    have e1 : v' >>> 32 = v >>> 32 := by
      rw [(version_bits v').1, (version_bits v).1]
      have p : (2 : Nat) ^ 32 = 2 ^ 16 * 2 ^ 16 := by norm_num
      rw [p, ← Nat.div_div_eq_div_mul, ← Nat.div_div_eq_div_mul, hhigh]
    have e2 : (v' >>> 16) &&& 0xFFFF = (v >>> 16) &&& 0xFFFF := by
      rw [(version_bits v').2, (version_bits v).2, hhigh]
    rw [hcall, hcall', e1, e2,
      runBody_subs_version c c.sizeofSelf v' v _ i (subStructStmt_shape env g n.fields)]

theorem initializer_version_test_witness :
    demoTable.classy = true ∧ (4294967296 : Nat) < 2 ^ 64 ∧
    ((4294967296 : Nat) >>> 32 ≠ demoCEnv.versionMajor ∨
      ((4294967296 : Nat) >>> 16) &&& 0xFFFF > demoCEnv.versionMinor) ∧
    initializerCall demoEnv demoInitGen demoTable demoCEnv (some demoInstance)
        demoCEnv.sizeofSelf 4294967296 = .ret .badWuffsVersion (some demoInstance) ∧
    ((initializerCall demoLibEnv demoGen demoLibTable demoSkewCEnv (some demoInstance)
        demoSkewCEnv.sizeofSelf 65536).status? = some .badWuffsVersion ↔
      ((65536 : Nat) >>> 32 ≠ demoSkewCEnv.versionMajor ∨
        ((65536 : Nat) >>> 16) &&& 0xFFFF > demoSkewCEnv.versionMinor) ∨
      (demoInstance.magic = 0 ∧
        firstSubStatus demoSkewCEnv
          (demoLibTable.fields.filterMap (subStructStmt demoLibEnv demoGen)) demoInstance =
            some .badWuffsVersion)) :=
  ⟨rfl, by decide, by decide,
    (initializer_version_test demoEnv demoInitGen demoTable rfl demoCEnv demoInstance 4294967296
      (by decide)).2.1 (by decide),
    (initializer_version_test demoLibEnv demoGen demoLibTable rfl demoSkewCEnv demoInstance 65536
      (by decide)).2.2.2.1⟩

/-- C21 (the claim as stated fails). The magic field of `demoStaleInstance`
holds `1`, which is not `WUFFS_BASE__MAGIC`; with the size of the struct and
an accepted version the emitted initializer returns
`wuffs_base__error__check_wuffs_version_not_applicable` all the same. -/
theorem initializer_rejects_other_magic :
    demoStaleInstance.magic ≠ demoCEnv.magic % 2 ^ 32 ∧
    (65536 % 2 ^ 64) >>> 32 = demoCEnv.versionMajor ∧
    ((65536 % 2 ^ 64) >>> 16) &&& 0xFFFF ≤ demoCEnv.versionMinor ∧
    initializerCall demoEnv demoInitGen demoTable demoCEnv (some demoStaleInstance)
        demoCEnv.sizeofSelf 65536 =
      .ret .checkWuffsVersionNotApplicable (some demoStaleInstance) :=
  ⟨by decide, by decide, by decide, rfl⟩

/-- C21 (amended). For a classy struct, an instance, the size of the struct
and a version that the version test accepts: when the magic field of the
instance is not zero, the emitted initializer returns
`wuffs_base__error__check_wuffs_version_not_applicable` at its magic test
and leaves the instance as it was.  An instance whose magic field is zero
goes on to the sub-struct blocks, the magic assignment and `return NULL`:
the call returns the first status other than `NULL` that the initializer of
a sub-struct returns, and `NULL` when there is none.  So the call returns
`wuffs_base__error__check_wuffs_version_not_applicable` exactly when the
magic field is not zero, or it is zero and that first status is this error. -/
theorem initializer_magic_test (env : Env) (g : gen) (n : Struct) (hclassy : n.classy = true)
    (c : CEnv) (i : Instance) (ver : Nat)
    (hmaj : (ver % 2 ^ 64) >>> 32 = c.versionMajor)
    (hmin : ((ver % 2 ^ 64) >>> 16) &&& 0xFFFF ≤ c.versionMinor) :
    implText env g n =
      signatureText env g n false ++ ascii "\x7b\n" ++
        ((initializerBody env g n).map CStmt.render).flatten ++ ascii "\x7d\n\n" ∧
    (i.magic ≠ 0 →
      initializerCall env g n c (some i) c.sizeofSelf ver =
        .ret .checkWuffsVersionNotApplicable (some i)) ∧
    (i.magic = 0 →
      initializerCall env g n c (some i) c.sizeofSelf ver =
        runBody c c.sizeofSelf (ver % 2 ^ 64)
          (n.fields.filterMap (subStructStmt env g) ++ [.setMagic, .returnNull]) (some i)) ∧
    (i.magic = 0 →
      (initializerCall env g n c (some i) c.sizeofSelf ver).status? =
        some ((firstSubStatus c (n.fields.filterMap (subStructStmt env g)) i).getD .null)) ∧
    ((initializerCall env g n c (some i) c.sizeofSelf ver).status? =
        some .checkWuffsVersionNotApplicable ↔
      i.magic ≠ 0 ∨
      (i.magic = 0 ∧
        firstSubStatus c (n.fields.filterMap (subStructStmt env g)) i =
          some .checkWuffsVersionNotApplicable)) := by
  have hver : ¬ (((ver % 2 ^ 64) >>> 32 ≠ c.versionMajor) ∨
      (((ver % 2 ^ 64) >>> 16) &&& 0xFFFF > c.versionMinor)) := by
    rintro (h | h)
    · exact h hmaj
    · exact absurd hmin (Nat.not_le.mpr h)
  have hcall := initializerCall_some env g n c i c.sizeofSelf ver
  rw [if_neg (by simp), if_neg hver] at hcall
  have hsub := runBody_subs_status c c.sizeofSelf (ver % 2 ^ 64) _ i
    (subStructStmt_shape env g n.fields)
  have hzero : i.magic = 0 →
      (initializerCall env g n c (some i) c.sizeofSelf ver).status? =
        some ((firstSubStatus c (n.fields.filterMap (subStructStmt env g)) i).getD .null) := by
    intro h
    rw [hcall, if_neg (by rw [h]; simp), hsub.1]
  refine ⟨implText_eq_render env g n hclassy, ?_, ?_, hzero, ?_⟩
  · intro h
    rw [hcall, if_pos h]
  · intro h
    rw [hcall, if_neg (by rw [h]; simp)]
  · constructor
    · intro h
      by_cases h3 : i.magic ≠ 0
      · exact Or.inl h3
      · have h0 : i.magic = 0 := by simpa using h3
        rw [hzero h0] at h
        refine Or.inr ⟨h0, ?_⟩
        cases hfs : firstSubStatus c (n.fields.filterMap (subStructStmt env g)) i with
        | none => rw [hfs] at h; simp at h
        | some z => rw [hfs] at h; simpa using h
    · rintro (h3 | ⟨h0, hfs⟩)
      · rw [hcall, if_pos h3]
        rfl
      · rw [hzero h0, hfs]
        rfl

theorem initializer_magic_test_witness :
    demoTable.classy = true ∧
    (65536 % 2 ^ 64) >>> 32 = demoCEnv.versionMajor ∧
    ((65536 % 2 ^ 64) >>> 16) &&& 0xFFFF ≤ demoCEnv.versionMinor ∧
    initializerCall demoEnv demoInitGen demoTable demoCEnv (some demoStaleInstance)
        demoCEnv.sizeofSelf 65536 =
      .ret .checkWuffsVersionNotApplicable (some demoStaleInstance) ∧
    demoStaleSubInstance.magic = 0 ∧
    firstSubStatus demoCEnv (demoTable.fields.filterMap (subStructStmt demoEnv demoInitGen))
      demoStaleSubInstance = some .checkWuffsVersionNotApplicable ∧
    (initializerCall demoEnv demoInitGen demoTable demoCEnv (some demoStaleSubInstance)
        demoCEnv.sizeofSelf 65536).status? = some .checkWuffsVersionNotApplicable ∧
    (initializerCall demoEnv demoInitGen demoTable demoCEnv (some demoInstance)
        demoCEnv.sizeofSelf 65536).status? = some .null :=
  ⟨rfl, by decide, by decide,
    (initializer_magic_test demoEnv demoInitGen demoTable rfl demoCEnv demoStaleInstance 65536
      (by decide) (by decide)).2.1 (by decide),
    rfl, by decide,
    (initializer_magic_test demoEnv demoInitGen demoTable rfl demoCEnv demoStaleSubInstance 65536
      (by decide) (by decide)).2.2.2.2.mpr (Or.inr ⟨rfl, by decide⟩),
    by decide⟩

/-- What decides whether the loop of `writeInitializerImpl` emits a block
for a field: the type is its own innermost type, it is no base type, and it
is of another package or a key of the struct map. -/
theorem subStructStmt_isSome_iff (env : Env) (g : gen) (f : Field) :
    (subStructStmt env g f).isSome = true ↔
      f.xType.isInnermost = true ∧ f.xType.qid.1 ≠ env.idBase ∧
        (f.xType.qid.1 ≠ 0 ∨ (g.structMap.get f.xType.qid).isSome = true) := by
  unfold subStructStmt subStructPrefix
  cases hin : f.xType.isInnermost with
  | false => simp
  | true =>
    simp only [Bool.not_true, Bool.false_eq_true, if_false, true_and]
    by_cases hbase : f.xType.qid.1 = env.idBase
    · rw [if_pos hbase]
      simp [hbase]
    · rw [if_neg hbase]
      by_cases hpkg : f.xType.qid.1 = 0
      · rw [if_neg (by simpa using hpkg)]
        cases hmap : g.structMap.get f.xType.qid with
        | none => simp [hbase, hpkg]
        | some n => simp [hbase]
      · rw [if_pos hpkg]
        simp [hbase, hpkg]

/-- C22 (the code fails the claim). The classy struct `decoder` has a field
whose type is the struct `state` of the same package, which is not classy:
`writeInitializerPrototype` and `writeInitializerImpl` emit nothing for
`state`, and the initializer of `decoder` calls
`wuffs_demo__state__check_wuffs_version` all the same. -/
theorem writeInitializerImpl_calls_missing_initializer :
    demoState.classy = false ∧ demoHolder.classy = true ∧
    demoHolderGen.structMap.get demoStateField.xType.qid = some demoState ∧
    prototypeText demoEnv demoHolderGen demoState = [] ∧
    implText demoEnv demoHolderGen demoState = [] ∧
    subStructStmt demoEnv demoHolderGen demoStateField =
      some (.subStruct (ascii "wuffs_demo__") (ascii "state") (ascii "state")) ∧
    initializerBody demoEnv demoHolderGen demoHolder =
      [.checkReceiver, .checkSizeof, .checkVersion, .checkMagic,
        .subStruct (ascii "wuffs_demo__") (ascii "state") (ascii "state"),
        .setMagic, .returnNull] ∧
    ascii ("wuffs_base__status z = wuffs_demo__state__check_wuffs_version(" ++
      "&self->private_impl.f_state, sizeof(self->private_impl.f_state), WUFFS_VERSION);\n" ++
      "if (z) \x7b return z; \x7d\n") <:+: implText demoEnv demoHolderGen demoHolder := by
  refine ⟨rfl, rfl, by decide, by decide, by decide, by decide, by decide, by decide⟩

/-! ### Templates -/

theorem indexByte_lt (c : Nat) : ∀ (s : Bytes) (i : Nat), indexByte s c = some i → i < s.length := by
  intro s
  induction s with
  | nil => intro i h; simp [indexByte] at h
  | cons b rest ih =>
    intro i h
    unfold indexByte at h
    split_ifs at h with hb
    · simp only [Option.some.injEq] at h
      subst h
      simp
    · cases hr : indexByte rest c with
      | none => rw [hr] at h; simp at h
      | some j =>
        rw [hr] at h
        simp only [Option.map_some', Option.some.injEq] at h
        subst h
        have := ih j hr
        simp only [List.length_cons]
        omega

/-- The first line of a template and the lines of what remains. -/
theorem splitLines_first : ∀ (s : Bytes), s ≠ [] →
    splitLines s = (cutLine s).1 :: splitLines (cutLine s).2 := by
  intro s
  induction s with
  | nil => intro h; exact absurd rfl h
  | cons c t ih =>
    intro _
    by_cases hc : c = 10
    · simp [splitLines, cutLine, indexByte, hc]
    · cases t with
      | nil => simp [splitLines, cutLine, indexByte, hc]
      | cons d u =>
        have iht := ih (by simp)
        have e : splitLines (c :: d :: u) =
            (c :: (cutLine (d :: u)).1) :: splitLines (cutLine (d :: u)).2 := by
          simp only [splitLines, if_neg hc] at iht ⊢
          rw [iht]
        rw [e]
        unfold cutLine
        cases hi : indexByte (d :: u) 10 with
        | none =>
          have h1 : indexByte (c :: d :: u) 10 = none := by
            rw [indexByte, if_neg hc, hi]; rfl
          rw [h1]
        | some i =>
          have h1 : indexByte (c :: d :: u) 10 = some (i + 1) := by
            rw [indexByte, if_neg hc, hi]; rfl
          rw [h1]
          simp

theorem cutLine_length (s : Bytes) (hs : s ≠ []) : (cutLine s).2.length < s.length := by
  unfold cutLine
  cases hi : indexByte s 10 with
  | none =>
    simp only [List.length_nil]
    exact List.length_pos.mpr hs
  | some i =>
    simp only [List.length_drop]
    have := List.length_pos.mpr hs
    omega

theorem splitLines_flatten : ∀ (s : Bytes), (splitLines s).flatten = s := by
  intro s
  induction s with
  | nil => simp [splitLines]
  | cons c t ih =>
    unfold splitLines
    by_cases hc : c = 10
    · simp [hc, ih]
    · rw [if_neg hc]
      cases hs : splitLines t with
      | nil => rw [hs] at ih; simp at ih; simp [← ih]
      | cons l ls => rw [hs] at ih; simp at ih; simp [← ih]

theorem expandBangBangInsertAux_succ (m : GoMap Bytes (buffer → Outcome buffer)) (fuel : Nat)
    (b : buffer) (s : Bytes) :
    expandBangBangInsertAux m (fuel + 1) b s =
      (if !hasPrefix (cutLine s).1 (ascii "// !! INSERT ") then
        Outcome.ok (b.writes (cutLine s).1)
       else
        match m.get (cutLine s).1 with
        | none => .error (.unrecognizedLine (cutLine s).1 (sortStrings (m.map Prod.fst))) b
        | some f => f b).andThen fun b =>
          if (cutLine s).2 = [] then .ok b else expandBangBangInsertAux m fuel b (cutLine s).2 := by
  rfl

/-- With more iterations than the template has bytes, `expandBangBangInsert`
does what the line-by-line expansion does. -/
theorem expandBangBangInsertAux_eq_lines (m : GoMap Bytes (buffer → Outcome buffer)) :
    ∀ (fuel : Nat) (b : buffer) (s : Bytes), s.length < fuel →
      expandBangBangInsertAux m fuel b s = expandLines m (splitLines s) b := by
  intro fuel
  induction fuel with
  | zero => intro b s h; exact absurd h (Nat.not_lt_zero _)
  | succ k ih =>
    intro b s hlen
    rw [expandBangBangInsertAux_succ]
    cases s with
    | nil =>
      simp [cutLine, indexByte, hasPrefix, splitLines, expandLines, Outcome.andThen,
        buffer.writes, ascii]
    | cons c t =>
      have hrest : (cutLine (c :: t)).2.length < k := by
        have := cutLine_length (c :: t) (by simp)
        omega
      rw [splitLines_first (c :: t) (by simp)]
      generalize cutLine (c :: t) = sr at hrest ⊢
      have hk : (fun b => if sr.2 = [] then Outcome.ok b
          else expandBangBangInsertAux m k b sr.2) = expandLines m (splitLines sr.2) := by
        funext b'
        by_cases he : sr.2 = []
        · rw [if_pos he, he]; rfl
        · rw [if_neg he]; exact ih b' sr.2 hrest
      rw [hk]
      unfold expandLines
      by_cases hp : (!hasPrefix sr.1 (ascii "// !! INSERT ")) = true
      · rw [if_pos hp, if_pos hp]
        rfl
      · rw [if_neg hp, if_neg hp]
        cases hg : m.get sr.1 with
        | none => rfl
        | some f => rfl

theorem expandLines_append (m : GoMap Bytes (buffer → Outcome buffer)) :
    ∀ (pre rest : List Bytes) (b : buffer),
      expandLines m (pre ++ rest) b = (expandLines m pre b).andThen (expandLines m rest) := by
  intro pre
  induction pre with
  | nil => intro rest b; rfl
  | cons l ls ih =>
    intro rest b
    rw [List.cons_append]
    unfold expandLines
    by_cases hp : (!hasPrefix l (ascii "// !! INSERT ")) = true
    · rw [if_pos hp, if_pos hp]
      exact ih rest _
    · rw [if_neg hp, if_neg hp]
      cases hg : m.get l with
      | none => rfl
      | some f =>
        simp only
        cases hf : f b with
        | ok b' => simp only [Outcome.andThen]; exact ih rest b'
        | error e b' => rfl
        | panic => rfl
        | timeout => rfl

theorem expandLines_plain (m : GoMap Bytes (buffer → Outcome buffer)) :
    ∀ (ls : List Bytes) (b : buffer),
      (∀ l ∈ ls, hasPrefix l (ascii "// !! INSERT ") = false) →
      expandLines m ls b = .ok (b ++ ls.flatten) := by
  intro ls
  induction ls with
  | nil => intro b _; simp [expandLines]
  | cons l ls ih =>
    intro b h
    unfold expandLines
    rw [if_pos (by rw [h l (List.mem_cons_self _ _)]; rfl),
      ih _ (fun x hx => h x (List.mem_cons_of_mem _ hx))]
    simp

theorem expandLines_terminates (m : GoMap Bytes (buffer → Outcome buffer))
    (hm : ∀ k f, (k, f) ∈ m → ∀ b, f b ≠ .timeout) :
    ∀ (ls : List Bytes) (b : buffer), expandLines m ls b ≠ .timeout := by
  intro ls
  induction ls with
  | nil => intro b; simp [expandLines]
  | cons l ls ih =>
    intro b
    unfold expandLines
    by_cases hp : (!hasPrefix l (ascii "// !! INSERT ")) = true
    · rw [if_pos hp]
      exact ih _
    · rw [if_neg hp]
      cases hg : m.get l with
      | none => simp
      | some f =>
        simp only
        have hf := hm l f (goMap_get_mem m l f hg) b
        cases hfb : f b with
        | ok b' => simp only [Outcome.andThen]; exact ih b'
        | error e b' => simp [Outcome.andThen]
        | panic => simp [Outcome.andThen]
        | timeout => exact absurd hfb hf

/-- C24 (the claim as stated fails). The second line of `demoTemplate`
begins with `// !! INSERT ` and is no key of `demoFailingMap`, and
`expandBangBangInsert` returns the error of the function for the first line,
not an error for an unrecognized line. -/
theorem expandBangBangInsert_earlier_error :
    splitLines demoTemplate = [ascii "// !! INSERT a.\n", ascii "// !! INSERT b.\n"] ∧
    hasPrefix (ascii "// !! INSERT b.\n") (ascii "// !! INSERT ") = true ∧
    (demoFailingMap.get (ascii "// !! INSERT b.\n")).isNone = true ∧
    expandBangBangInsert [] demoTemplate demoFailingMap = .error (.external 1) [] :=
  ⟨by decide, by decide, by decide, by decide⟩

/-- C24 (amended). `expandBangBangInsert` needs no more iterations than the
template has bytes, plus one: with any such number it does what the
line-by-line expansion of the template does, and it ends unless a function
of the map does not.  A template without a line that begins with
`// !! INSERT ` is appended to the buffer as it is, and `nil` is returned.
When a line begins with `// !! INSERT ` and is no key of the map, and the
lines before it were expanded without an error (as they are when none of
them begins with `// !! INSERT `), the error for this unrecognized line is
returned. -/
theorem expandBangBangInsert_lines (b : buffer) (s : Bytes)
    (m : GoMap Bytes (buffer → Outcome buffer)) :
    (∀ fuel, s.length < fuel →
      expandBangBangInsertAux m fuel b s = expandBangBangInsert b s m) ∧
    expandBangBangInsert b s m = expandLines m (splitLines s) b ∧
    (splitLines s).flatten = s ∧
    ((∀ k f, (k, f) ∈ m → ∀ b', f b' ≠ .timeout) → expandBangBangInsert b s m ≠ .timeout) ∧
    ((∀ l ∈ splitLines s, hasPrefix l (ascii "// !! INSERT ") = false) →
      expandBangBangInsert b s m = .ok (b ++ s)) ∧
    (∀ (pre : List Bytes) (l : Bytes) (post : List Bytes) (b' : buffer),
      splitLines s = pre ++ l :: post → expandLines m pre b = .ok b' →
      hasPrefix l (ascii "// !! INSERT ") = true → m.get l = none →
      expandBangBangInsert b s m =
        .error (.unrecognizedLine l (sortStrings (m.map Prod.fst))) b') ∧
    (∀ (pre : List Bytes) (l : Bytes) (post : List Bytes),
      splitLines s = pre ++ l :: post →
      (∀ x ∈ pre, hasPrefix x (ascii "// !! INSERT ") = false) →
      hasPrefix l (ascii "// !! INSERT ") = true → m.get l = none →
      expandBangBangInsert b s m =
        .error (.unrecognizedLine l (sortStrings (m.map Prod.fst))) (b ++ pre.flatten)) := by
  have hrun : expandBangBangInsert b s m = expandLines m (splitLines s) b :=
    expandBangBangInsertAux_eq_lines m _ b s (Nat.lt_succ_self _)
  have hunrec : ∀ (pre : List Bytes) (l : Bytes) (post : List Bytes) (b' : buffer),
      splitLines s = pre ++ l :: post → expandLines m pre b = .ok b' →
      hasPrefix l (ascii "// !! INSERT ") = true → m.get l = none →
      expandBangBangInsert b s m =
        .error (.unrecognizedLine l (sortStrings (m.map Prod.fst))) b' := by
    intro pre l post b' hs hpre hl hget
    rw [hrun, hs, expandLines_append, hpre]
    simp only [Outcome.andThen]
    unfold expandLines
    rw [if_neg (by rw [hl]; simp), hget]
  refine ⟨fun fuel hf => ?_, hrun, splitLines_flatten s, fun hm => ?_, fun hplain => ?_, hunrec,
    fun pre l post hs hpre hl hget => ?_⟩
  · rw [hrun]
    exact expandBangBangInsertAux_eq_lines m fuel b s hf
  · rw [hrun]
    exact expandLines_terminates m hm _ b
  · rw [hrun, expandLines_plain m _ b hplain, splitLines_flatten]
  · exact hunrec pre l post _ hs (expandLines_plain m pre b hpre) hl hget

/-! ### The status lines of the artifact -/

theorem writes_eq_ok {s s' : St} {t : Bytes} (h : s.writes t = .ok s') :
    s'.g = s.g ∧ s'.b = s.b ++ t := by
  simp only [St.writes, Outcome.ok.injEq] at h
  subst h
  exact ⟨rfl, rfl⟩

theorem gatherStatuses_msg_ne (env : Env) (s s' : St) (n : Status)
    (h : gatherStatuses env s n = .ok s') :
    (env.unescape (env.idStr n.qid.2)).1 ≠ [] := by
  unfold gatherStatuses at h
  simp only at h
  intro hmsg
  rw [hmsg] at h
  simp at h

theorem forEachStatus_gather_msgs (env : Env) (s s' : St)
    (h : forEachStatus s .bothPubPri (gatherStatuses env) = .ok s')
    (hinit : ∀ z ∈ s.g.statusList, z.msg ≠ []) :
    ∀ z ∈ s'.g.statusList, z.msg ≠ [] := by
  unfold forEachStatus at h
  rw [loop_flatten] at h
  refine loop_invariant _ (fun t => ∀ z ∈ t.g.statusList, z.msg ≠ []) ?_ _ s s' h hinit
  intro t tld t' ht hp
  cases tld with
  | status n =>
    simp only at ht
    split_ifs at ht
    · simp only [Outcome.ok.injEq] at ht; rw [← ht]; exact hp
    · obtain ⟨z, hz, _, hl, _, _, _⟩ := gatherStatuses_ok_eq env t t' n ht
      have hne := gatherStatuses_msg_ne env t t' n ht
      intro y hy
      rw [hl, List.mem_append, List.mem_singleton] at hy
      rcases hy with hy | hy
      · exact hp y hy
      · rw [hy, hz]; exact hne
  | _ => simp only [Outcome.ok.injEq] at ht; rw [← ht]; exact hp

theorem gatherFuncs_statusList (env : Env) (st : St) (b0 : buffer) (s4 : St)
    (h : (match forEachFunc st .bothPubPri (gatherFuncImpl env) with
      | .ok s' => Outcome.ok ({ g := s'.g, b := b0 } : St)
      | .error e s' => Outcome.error e ({ g := s'.g, b := b0 } : St)
      | .panic => Outcome.panic
      | .timeout => Outcome.timeout) = .ok s4) :
    s4.g.statusList = st.g.statusList := by
  cases hf : forEachFunc st .bothPubPri (gatherFuncImpl env) with
  | ok sf =>
    rw [hf] at h
    simp only [Outcome.ok.injEq] at h
    rw [← h]
    unfold forEachFunc at hf
    rw [loop_flatten] at hf
    refine loop_invariant _ (fun q => q.g.statusList = st.g.statusList) ?_ _ st sf hf rfl
    intro q tld q' hq hp
    cases tld with
    | func n =>
      simp only at hq
      split_ifs at hq
      · simp only [Outcome.ok.injEq] at hq; rw [← hq]; exact hp
      · unfold gatherFuncImpl at hq
        cases hk : env.gatherFuncImpl q.g n with
        | ok k =>
          rw [hk] at hq
          simp only [Outcome.ok.injEq] at hq
          rw [← hq]; exact hp
        | error e => rw [hk] at hq; simp at hq
    | _ => simp only [Outcome.ok.injEq] at hq; rw [← hq]; exact hp
  | error e sf => rw [hf] at h; simp at h
  | panic => rw [hf] at h; simp at h
  | timeout => rw [hf] at h; simp at h

/-- The status declarations of `genHeader`. -/
theorem genHeader_statuses (env : Env) (s s' : St) (h : genHeader env s = .ok s') :
    UsesOnly s.g s'.g ∧ ∃ p1 p2 : Bytes,
      s'.b = s.b ++ p1 ++ ascii "// ---------------- Status Codes\n\n" ++
        (s.g.statusList.map (genHeaderStatus [])).flatten ++ ascii "\n" ++ p2 := by
  unfold genHeader at h
  obtain ⟨s1, h1, h'⟩ := andThen_eq_ok.mp h
  clear h
  rename' h' => h
  obtain ⟨s2, h2, h'⟩ := andThen_eq_ok.mp h
  clear h
  rename' h' => h
  obtain ⟨s3, h3, h'⟩ := andThen_eq_ok.mp h
  clear h
  rename' h' => h
  obtain ⟨s4, h4, h'⟩ := andThen_eq_ok.mp h
  clear h
  rename' h' => h
  obtain ⟨s5, h5, h'⟩ := andThen_eq_ok.mp h
  clear h
  rename' h' => h
  obtain ⟨s6, h6, h'⟩ := andThen_eq_ok.mp h
  clear h
  rename' h' => h
  obtain ⟨s7, h7, h'⟩ := andThen_eq_ok.mp h
  clear h
  rename' h' => h
  obtain ⟨s8, h8, h'⟩ := andThen_eq_ok.mp h
  clear h
  rename' h' => h
  obtain ⟨s9, h9, h'⟩ := andThen_eq_ok.mp h
  clear h
  rename' h' => h
  obtain ⟨s10, h10, h'⟩ := andThen_eq_ok.mp h
  clear h
  rename' h' => h
  obtain ⟨s11, h11, h'⟩ := andThen_eq_ok.mp h
  clear h
  rename' h' => h
  obtain ⟨s12, h12, h'⟩ := andThen_eq_ok.mp h
  clear h
  rename' h' => h
  obtain ⟨s13, h13, h'⟩ := andThen_eq_ok.mp h
  clear h
  rename' h' => h
  obtain ⟨s14, h14, h'⟩ := andThen_eq_ok.mp h
  clear h
  rename' h' => h
  obtain ⟨s15, h15, h'⟩ := andThen_eq_ok.mp h
  clear h
  rename' h' => h
  obtain ⟨s16, h16, h'⟩ := andThen_eq_ok.mp h
  clear h
  rename' h' => h
  obtain ⟨s17, h17, h18⟩ := andThen_eq_ok.mp h
  clear h
  have e4 : Extends s s4 :=
    extends_trans (st_insertBasePublicH_extends env _ _ h1) <|
    extends_trans (extends_writes h2) <|
    extends_trans (forEachUse_extends env _ _ h3) (extends_writes h4)
  obtain ⟨g5, b5⟩ := writes_eq_ok h5
  have b6 : s6.g = s5.g ∧ s6.b = s5.b ++ (s5.g.statusList.map (genHeaderStatus [])).flatten := by
    simp only [Outcome.ok.injEq] at h6
    subst h6
    exact ⟨rfl, foldl_genHeaderStatus _ _⟩
  obtain ⟨g7, b7⟩ := writes_eq_ok h7
  have e18 : Extends s7 s' :=
    extends_trans (extends_writes h8) <|
    extends_trans (extends_of_keeps (keeps_forEachConst .pubOnly _ (keeps_writeConst env)) h9) <|
    extends_trans (extends_writes h10) <|
    extends_trans (extends_of_keeps
      (keeps_loop _ (fun n => keeps_of_isWriter (isWriter_writeStruct env n)) _) h11) <|
    extends_trans (extends_writes h12) <|
    extends_trans (extends_of_keeps
      (keeps_loop _ (fun n => keeps_of_isWriter (isWriter_publicPrototype env n)) _) h13) <|
    extends_trans (extends_writes h14) <|
    extends_trans (extends_of_keeps (keeps_forEachFunc .pubOnly _
      (fun n => keeps_of_isWriter (isWriter_call _ (by intro _; rfl)))) h15) <|
    extends_trans (extends_writes h16) <|
    extends_trans (extends_of_keeps (keeps_writeCppImpls env) h17) (extends_writes h18)
  obtain ⟨u4, t4, b4⟩ := e4
  obtain ⟨u18, t18, b18⟩ := e18
  have hg7 : s7.g = s4.g := by rw [g7, b6.1, g5]
  have hlist : s5.g.statusList = s.g.statusList := by rw [g5]; exact u4.2.2.2.1
  refine ⟨usesOnly_trans u4 (by rw [← hg7]; exact u18), t4, t18, ?_⟩
  rw [b18, b7, b6.2, b5, b4, hlist]

/-- The status definitions of `genImpl`. -/
theorem genImpl_statuses (env : Env) (s s' : St) (h : genImpl env s = .ok s') :
    ∃ q1 q2 : Bytes,
      s'.b = s.b ++ q1 ++ ascii "// ---------------- Status Codes Implementations\n\n" ++
        (s.g.statusList.map (genImplStatus s.g.pkgName [])).flatten ++ ascii "\n" ++ q2 := by
  unfold genImpl at h
  obtain ⟨s1, h1, h'⟩ := andThen_eq_ok.mp h
  clear h
  rename' h' => h
  obtain ⟨s2, h2, h'⟩ := andThen_eq_ok.mp h
  clear h
  rename' h' => h
  obtain ⟨s3, h3, h'⟩ := andThen_eq_ok.mp h
  clear h
  rename' h' => h
  obtain ⟨s4, h4, h'⟩ := andThen_eq_ok.mp h
  clear h
  rename' h' => h
  obtain ⟨s5, h5, h'⟩ := andThen_eq_ok.mp h
  clear h
  rename' h' => h
  obtain ⟨s6, h6, h'⟩ := andThen_eq_ok.mp h
  clear h
  rename' h' => h
  obtain ⟨s7, h7, h'⟩ := andThen_eq_ok.mp h
  clear h
  rename' h' => h
  obtain ⟨s8, h8, h'⟩ := andThen_eq_ok.mp h
  clear h
  rename' h' => h
  obtain ⟨s9, h9, h'⟩ := andThen_eq_ok.mp h
  clear h
  rename' h' => h
  obtain ⟨s10, h10, h'⟩ := andThen_eq_ok.mp h
  clear h
  rename' h' => h
  obtain ⟨s11, h11, h'⟩ := andThen_eq_ok.mp h
  clear h
  rename' h' => h
  obtain ⟨s12, h12, h'⟩ := andThen_eq_ok.mp h
  clear h
  rename' h' => h
  obtain ⟨s13, h13, h'⟩ := andThen_eq_ok.mp h
  clear h
  rename' h' => h
  obtain ⟨s14, h14, h'⟩ := andThen_eq_ok.mp h
  clear h
  rename' h' => h
  obtain ⟨s15, h15, h'⟩ := andThen_eq_ok.mp h
  clear h
  rename' h' => h
  obtain ⟨s16, h16, h17⟩ := andThen_eq_ok.mp h
  clear h
  obtain ⟨g1, t1, b1⟩ := keeps_step_writes h1
  obtain ⟨g2, t2, b2⟩ := keeps_step_writes h2
  obtain ⟨g3, t3, b3⟩ := keeps_step_writes h3
  obtain ⟨g4, b4⟩ := writes_eq_ok h4
  have b5 : s5.g = s4.g ∧
      s5.b = s4.b ++ (s4.g.statusList.map (genImplStatus s4.g.pkgName [])).flatten := by
    simp only [Outcome.ok.injEq] at h5
    subst h5
    exact ⟨rfl, foldl_genImplStatus _ _ _⟩
  obtain ⟨g6, b6⟩ := writes_eq_ok h6
  have e17 : Extends s6 s' :=
    extends_trans (extends_writes h7) <|
    extends_trans (extends_of_keeps (keeps_forEachConst .priOnly _ (keeps_writeConst env)) h8) <|
    extends_trans (extends_writes h9) <|
    extends_trans (extends_of_keeps
      (keeps_loop _ (fun n => keeps_of_isWriter (isWriter_privatePrototype env n)) _) h10) <|
    extends_trans (extends_writes h11) <|
    extends_trans (extends_of_keeps (keeps_forEachFunc .priOnly _
      (fun n => keeps_of_isWriter (isWriter_call _ (by intro _; rfl)))) h12) <|
    extends_trans (extends_writes h13) <|
    extends_trans (extends_of_keeps
      (keeps_loop _ (fun n => keeps_of_isWriter (isWriter_writeInitializerImpl env n)) _) h14) <|
    extends_trans (extends_writes h15) <|
    extends_trans (extends_of_keeps (keeps_forEachFunc .bothPubPri _
      (fun n => keeps_of_isWriter (isWriter_call _ (by intro _; rfl)))) h16) (extends_writes h17)
  obtain ⟨_, t17, b17⟩ := e17
  have hg4 : s4.g = s.g := by rw [g4, g3, g2, g1]
  refine ⟨t1 ++ t2 ++ t3, t17, ?_⟩
  rw [b17, b6, b5.2, b4, b3, b2, b1, hg4]
  simp only [List.append_assoc]

/-- The status lines of the artifact of `generate`. -/
theorem generateSt_statuses (env : Env) (g : gen) (s : St) (h : generateSt env g = .ok s)
    (hinit : ∀ z ∈ g.statusList, z.msg ≠ []) :
    (∀ z ∈ s.g.statusList, z.msg ≠ []) ∧
    ∃ p1 p2 p3 : Bytes,
      s.b = p1 ++ ascii "// ---------------- Status Codes\n\n" ++
        (s.g.statusList.map (genHeaderStatus [])).flatten ++ ascii "\n" ++ p2 ++
        ascii "// ---------------- Status Codes Implementations\n\n" ++
        (s.g.statusList.map (genImplStatus s.g.pkgName [])).flatten ++ ascii "\n" ++ p3 := by
  unfold generateSt at h
  simp only at h
  obtain ⟨s1, h1, h'⟩ := andThen_eq_ok.mp h
  clear h
  have hmsgs := forEachStatus_gather_msgs env _ s1 h1 hinit
  split_ifs at h' with hcyc
  obtain ⟨s4, h4, h''⟩ := andThen_eq_ok.mp h'
  clear h'
  obtain ⟨s5, h5, h'⟩ := andThen_eq_ok.mp h''
  clear h''
  obtain ⟨s6, h6, h''⟩ := andThen_eq_ok.mp h'
  clear h'
  obtain ⟨s7, h7, h'⟩ := andThen_eq_ok.mp h''
  clear h''
  obtain ⟨s8, h8, h''⟩ := andThen_eq_ok.mp h'
  clear h'
  obtain ⟨s9, h9, h10⟩ := andThen_eq_ok.mp h''
  clear h''
  have hl4 := gatherFuncs_statusList env _ _ s4 h4
  simp only at hl4
  obtain ⟨g5, t5, b5⟩ := keeps_step_writes h5
  obtain ⟨u6, pa, pb, b6⟩ := genHeader_statuses env s5 s6 h6
  obtain ⟨g7, t7, b7⟩ := keeps_step_writes h7
  obtain ⟨g8, _, _, _, _⟩ := genImpl_ok env s7 s8 h8
  obtain ⟨qa, qb, b8⟩ := genImpl_statuses env s7 s8 h8
  obtain ⟨g9, t9, b9⟩ := keeps_step_writes h9
  obtain ⟨g10, t10, b10⟩ := keeps_step_writes h10
  have hg : s.g = s6.g := by rw [g10, g9, g8, g7]
  have hl5 : s5.g.statusList = s1.g.statusList := by rw [g5, hl4]
  have hl6 : s6.g.statusList = s1.g.statusList := by rw [u6.2.2.2.1, hl5]
  refine ⟨by rw [hg, hl6]; exact hmsgs, s5.b ++ pa, pb ++ t7 ++ qa, qb ++ t9 ++ t10, ?_⟩
  rw [b10, b9, b8, g7, b7, b6, hg, hl6, hl5]
  simp only [List.append_assoc]

/-- C23. When `generate` returns an artifact for a receiver whose status
list holds no empty message beforehand (`Do` hands over an empty list), no
entry of the status list has an empty message afterwards, so the loop of
`genImpl` skips none: after the line `Status Codes Implementations` the
artifact holds one definition line for each entry of the status list, in
list order, and after the line `Status Codes` one declaration line for each
public entry, in list order. -/
theorem generate_status_definitions (env : Env) (g : gen) (out : Bytes)
    (h : generate env g = .ret (some out) none)
    (hinit : ∀ z ∈ g.statusList, z.msg ≠ []) :
    ∃ (s : St) (p1 p2 p3 : Bytes),
      generateSt env g = .ok s ∧ s.b = out ∧
      (∀ z ∈ s.g.statusList, z.msg ≠ []) ∧
      (∀ z ∈ s.g.statusList,
        genImplStatus s.g.pkgName [] z = statusDefinitionSpec s.g.pkgName z) ∧
      (∀ z ∈ s.g.statusList,
        genHeaderStatus [] z = if z.isPublic then statusDeclarationSpec z else []) ∧
      out = p1 ++ ascii "// ---------------- Status Codes\n\n" ++
        ((s.g.statusList.filter (fun z => z.isPublic)).map statusDeclarationSpec).flatten ++
        ascii "\n" ++ p2 ++
        ascii "// ---------------- Status Codes Implementations\n\n" ++
        (s.g.statusList.map (statusDefinitionSpec s.g.pkgName)).flatten ++ ascii "\n" ++ p3 := by
  unfold generate at h
  cases hs : generateSt env g with
  | ok s =>
    rw [hs] at h
    simp only [Returned.ret.injEq, Option.some.injEq, and_true] at h
    obtain ⟨hmsgs, p1, p2, p3, hb⟩ := generateSt_statuses env g s hs hinit
    have hdef : ∀ z ∈ s.g.statusList,
        genImplStatus s.g.pkgName [] z = statusDefinitionSpec s.g.pkgName z := by
      intro z hz
      unfold genImplStatus statusDefinitionSpec
      rw [if_neg (hmsgs z hz)]
      simp only [List.nil_append]
    have hdecl : ∀ z : status,
        genHeaderStatus [] z = if z.isPublic = true then statusDeclarationSpec z else [] := by
      intro z
      unfold genHeaderStatus statusDeclarationSpec
      cases z.isPublic <;> simp
    refine ⟨s, p1, p2, p3, rfl, h, hmsgs, hdef, fun z _ => hdecl z, ?_⟩
    have e1 : (s.g.statusList.map (genHeaderStatus [])).flatten =
        ((s.g.statusList.filter (fun z => z.isPublic)).map statusDeclarationSpec).flatten := by
      rw [← flatten_map_ite]
      congr 1
      exact List.map_congr_left (fun z _ => hdecl z)
    have e2 : s.g.statusList.map (genImplStatus s.g.pkgName []) =
        s.g.statusList.map (statusDefinitionSpec s.g.pkgName) :=
      List.map_congr_left hdef
    rw [← h, hb, e1, e2]
  | error e s => rw [hs] at h; simp at h
  | panic => rw [hs] at h; simp at h
  | timeout => rw [hs] at h; simp at h

theorem generate_status_definitions_witness :
    generate demoEnv demoProgram = .ret (some demoArtifact) none ∧
    (∀ z ∈ demoProgram.statusList, z.msg ≠ []) ∧
    ∃ (s : St) (p1 p2 p3 : Bytes),
      generateSt demoEnv demoProgram = .ok s ∧ s.b = demoArtifact ∧
      (∀ z ∈ s.g.statusList, z.msg ≠ []) ∧
      (∀ z ∈ s.g.statusList,
        genImplStatus s.g.pkgName [] z = statusDefinitionSpec s.g.pkgName z) ∧
      (∀ z ∈ s.g.statusList,
        genHeaderStatus [] z = if z.isPublic then statusDeclarationSpec z else []) ∧
      demoArtifact = p1 ++ ascii "// ---------------- Status Codes\n\n" ++
        ((s.g.statusList.filter (fun z => z.isPublic)).map statusDeclarationSpec).flatten ++
        ascii "\n" ++ p2 ++
        ascii "// ---------------- Status Codes Implementations\n\n" ++
        (s.g.statusList.map (statusDefinitionSpec s.g.pkgName)).flatten ++ ascii "\n" ++ p3 :=
  have hrun : generate demoEnv demoProgram = .ret (some demoArtifact) none :=
    returned_of_isArtifact _ (by decide)
  have hinit : ∀ z ∈ demoProgram.statusList, z.msg ≠ [] := fun z hz => by
    simp [demoProgram, demoGen] at hz
  ⟨hrun, hinit, generate_status_definitions demoEnv demoProgram demoArtifact hrun hinit⟩

end Cgen
